import Mathlib

/-!
# Multipart uploads of `storj.io/uplink`: a shallow embedding

The development follows `multipart.go` and `common.go`.

* Go strings and byte slices are lists of bytes (`Fin 256`).
* Library code the two files call (`base58`, `sha256`, `errors`, `zeebo/errs`,
  `rpcstatus`, `drpcerr`) is embedded next to the code that calls it.
* Collaborators that perform I/O (the metainfo client, the streams store, the
  part sink, the random source, the encryption package) are not computed:
  their answers are read from an environment record, and every call made to
  them is written to a trace.
-/

namespace Uplink

/-- A Go `byte`. -/
abbrev Byte := Fin 256

/-- A Go `string` or `[]byte`: a finite sequence of bytes. -/
abbrev GoString := List Byte

/-- The bytes of an ASCII literal of the source. -/
def ascii (s : String) : GoString :=
  s.data.map (fun c => Fin.ofNat c.toNat)

/-! ## `crypto/sha256` -/

namespace Sha256

/-- Round constants of SHA-256. -/
def K : List Nat :=
  [0x428a2f98, 0x71374491, 0xb5c0fbcf, 0xe9b5dba5, 0x3956c25b, 0x59f111f1, 0x923f82a4, 0xab1c5ed5,
   0xd807aa98, 0x12835b01, 0x243185be, 0x550c7dc3, 0x72be5d74, 0x80deb1fe, 0x9bdc06a7, 0xc19bf174,
   0xe49b69c1, 0xefbe4786, 0x0fc19dc6, 0x240ca1cc, 0x2de92c6f, 0x4a7484aa, 0x5cb0a9dc, 0x76f988da,
   0x983e5152, 0xa831c66d, 0xb00327c8, 0xbf597fc7, 0xc6e00bf3, 0xd5a79147, 0x06ca6351, 0x14292967,
   0x27b70a85, 0x2e1b2138, 0x4d2c6dfc, 0x53380d13, 0x650a7354, 0x766a0abb, 0x81c2c92e, 0x92722c85,
   0xa2bfe8a1, 0xa81a664b, 0xc24b8b70, 0xc76c51a3, 0xd192e819, 0xd6990624, 0xf40e3585, 0x106aa070,
   0x19a4c116, 0x1e376c08, 0x2748774c, 0x34b0bcb5, 0x391c0cb3, 0x4ed8aa4a, 0x5b9cca4f, 0x682e6ff3,
   0x748f82ee, 0x78a5636f, 0x84c87814, 0x8cc70208, 0x90befffa, 0xa4506ceb, 0xbef9a3f7, 0xc67178f2]

/-- Initial hash value of SHA-256. -/
def init : List Nat :=
  [0x6a09e667, 0xbb67ae85, 0x3c6ef372, 0xa54ff53a, 0x510e527f, 0x9b05688c, 0x1f83d9ab, 0x5be0cd19]

/-- Addition of 32-bit words. -/
def add32 (x y : Nat) : Nat := (x + y) % 2 ^ 32

/-- Rotation to the right of a 32-bit word. -/
def rotr (x n : Nat) : Nat := ((x >>> n) ||| (x <<< (32 - n))) % 2 ^ 32

/-- Complement of a 32-bit word. -/
def not32 (x : Nat) : Nat := x ^^^ 0xffffffff

def bigSigma0 (x : Nat) : Nat := rotr x 2 ^^^ rotr x 13 ^^^ rotr x 22

def bigSigma1 (x : Nat) : Nat := rotr x 6 ^^^ rotr x 11 ^^^ rotr x 25

def smallSigma0 (x : Nat) : Nat := rotr x 7 ^^^ rotr x 18 ^^^ (x >>> 3)

def smallSigma1 (x : Nat) : Nat := rotr x 17 ^^^ rotr x 19 ^^^ (x >>> 10)

def ch (x y z : Nat) : Nat := (x &&& y) ^^^ (not32 x &&& z)

def maj (x y z : Nat) : Nat := (x &&& y) ^^^ (x &&& z) ^^^ (y &&& z)

/-- The padded message: a `0x80` byte, zero bytes up to 56 modulo 64, and the
bit length as a 64-bit big-endian number. -/
def pad (msg : List Nat) : List Nat :=
  let len := msg.length
  let zeros := (64 - (len + 9) % 64) % 64
  let bits := (len * 8) % 2 ^ 64
  msg ++ [0x80] ++ List.replicate zeros 0 ++
    (List.range 8).map (fun i => (bits >>> (8 * (7 - i))) % 256)

/-- Big-endian 32-bit words of a block of bytes. -/
def toWords : List Nat → List Nat
  | a :: b :: c :: d :: rest => (a * 2 ^ 24 + b * 2 ^ 16 + c * 2 ^ 8 + d) :: toWords rest
  | _ => []

/-- Extension of the 16 words of a block to the message schedule. -/
def extend : Nat → List Nat → List Nat
  | 0, w => w
  | n + 1, w =>
    let i := w.length
    let next := add32 (add32 (smallSigma1 (w.getD (i - 2) 0)) (w.getD (i - 7) 0))
      (add32 (smallSigma0 (w.getD (i - 15) 0)) (w.getD (i - 16) 0))
    extend n (w ++ [next])

/-- One round of the compression function on the working variables. -/
def round (s : List Nat) (kw : Nat × Nat) : List Nat :=
  match s with
  | [a, b, c, d, e, f, g, h] =>
    let t1 := add32 (add32 (add32 h (bigSigma1 e)) (add32 (ch e f g) kw.1)) kw.2
    let t2 := add32 (bigSigma0 a) (maj a b c)
    [add32 t1 t2, a, b, c, add32 d t1, e, f, g]
  | _ => s

/-- Compression of one 64-byte block into the hash state. -/
def compress (h : List Nat) (block : List Nat) : List Nat :=
  let w := extend 48 (toWords block)
  let s := (K.zip w).foldl round h
  List.zipWith add32 h s

/-- The blocks of the padded message are compressed one after the other. -/
def blocks : Nat → List Nat → List Nat → List Nat
  | 0, h, _ => h
  | n + 1, h, msg => blocks n (compress h (msg.take 64)) (msg.drop 64)

/-- `sha256.Sum256`: the 32 bytes of the digest. -/
def sum256 (input : GoString) : GoString :=
  let msg := pad (input.map Fin.val)
  let h := blocks (msg.length / 64) init msg
  (h.flatMap (fun x => [x >>> 24, (x >>> 16) % 256, (x >>> 8) % 256, x % 256])).map Fin.ofNat

end Sha256

/-! ## `math/big`, as far as `base58` uses it -/

/-- `big.Int.SetBytes`: the value of a big-endian byte sequence. -/
def bigSetBytes (b : List Byte) : Nat :=
  b.foldl (fun acc x => acc * 256 + x.val) 0

/-- Loop of `big.Int.Bytes`: the base-256 digits of `x`, the most significant
first; `fuel` bounds the number of digits. -/
def bigBytesLoop : Nat → Nat → List Byte → List Byte
  | 0, _, acc => acc
  | fuel + 1, x, acc =>
    if x = 0 then acc else bigBytesLoop fuel (x / 256) (Fin.ofNat (x % 256) :: acc)

/-- `big.Int.Bytes`: the minimal big-endian byte sequence of `x` (empty for 0). -/
def bigBytes (x : Nat) : List Byte :=
  bigBytesLoop x x []

/-! ## `unicode/utf8`, as the loop `for _, v := range s` uses it -/

/-- The rune at the front of a string and the number of bytes it spans, as the
loop `for _, v := range s` reads them: a byte below `0x80` is the rune, and
otherwise `decoderune` of the run time decides, which yields `U+FFFD` and one
byte for an encoding that is not valid. The masks `& 0x1F`, `& 0x0F`, `& 0x07`
and `& 0x3F` are the remainders modulo 32, 16, 8 and 64. -/
def decodeRune : List Byte → Nat × Nat
  | [] => (65533, 1)
  | s0 :: rest =>
    if s0.val < 0x80 then (s0.val, 1)
    else if 0xC0 ≤ s0.val ∧ s0.val < 0xE0 then
      -- 0080-07FF two byte sequence
      match rest with
      | s1 :: _ =>
        if 0x80 ≤ s1.val ∧ s1.val ≤ 0xBF then
          let r := (s0.val % 32) * 64 + s1.val % 64
          if 0x7F < r then (r, 2) else (65533, 1)
        else (65533, 1)
      | _ => (65533, 1)
    else if 0xE0 ≤ s0.val ∧ s0.val < 0xF0 then
      -- 0800-FFFF three byte sequence
      match rest with
      | s1 :: s2 :: _ =>
        if (0x80 ≤ s1.val ∧ s1.val ≤ 0xBF) ∧ (0x80 ≤ s2.val ∧ s2.val ≤ 0xBF) then
          let r := (s0.val % 16) * 4096 + (s1.val % 64) * 64 + s2.val % 64
          if 0x7FF < r ∧ ¬ (0xD800 ≤ r ∧ r ≤ 0xDFFF) then (r, 3) else (65533, 1)
        else (65533, 1)
      | _ => (65533, 1)
    else if 0xF0 ≤ s0.val ∧ s0.val < 0xF8 then
      -- 10000-1FFFFF four byte sequence
      match rest with
      | s1 :: s2 :: s3 :: _ =>
        if (0x80 ≤ s1.val ∧ s1.val ≤ 0xBF) ∧ (0x80 ≤ s2.val ∧ s2.val ≤ 0xBF)
            ∧ (0x80 ≤ s3.val ∧ s3.val ≤ 0xBF) then
          let r := (s0.val % 8) * 262144 + (s1.val % 64) * 4096 + (s2.val % 64) * 64
            + s3.val % 64
          if 0xFFFF < r ∧ r ≤ 0x10FFFF then (r, 4) else (65533, 1)
        else (65533, 1)
      | _ => (65533, 1)
    else (65533, 1)

/-! ## `github.com/btcsuite/btcutil/base58`

`Encode` writes the number a byte sequence denotes in base 58, one character
for every leading zero byte in front. `Decode` reads it back ten bytes at a
time: it ranges over the runes of each piece and looks every rune up in the
table `b58` of 256 entries, so it returns the empty sequence for a rune below
256 that is not a character of the alphabet and panics for a rune beyond the
table (a byte sequence that is not valid UTF-8 reads as `U+FFFD`). -/

namespace base58

/-- The modified base-58 alphabet of Bitcoin. -/
def alphabet : GoString :=
  ascii "123456789ABCDEFGHJKLMNPQRSTUVWXYZabcdefghijkmnopqrstuvwxyz"

/-- The character of the digit 0: `'1'`. -/
def alphabetIdx0 : Byte := 49

/-- The table `b58`: the digit of a character of the alphabet, 255 for any
other byte. -/
def b58 (c : Byte) : Nat :=
  let i := alphabet.indexOf c
  if i < 58 then i else 255

/-- Number of leading elements of a sequence that are equal to `z`. -/
def numLeading (z : Byte) (b : List Byte) : Nat :=
  (b.takeWhile (fun c => c == z)).length

/-- The loop of `Encode`: while `x > 0`, divide by 58 and append the character
of the remainder (so the least significant digit comes first). -/
def encodeLoop : Nat → Nat → GoString → GoString
  | 0, _, answer => answer
  | fuel + 1, x, answer =>
    if x > 0 then encodeLoop fuel (x / 58) (answer ++ [alphabet.getD (x % 58) 0])
    else answer

/-- `base58.Encode`. -/
def Encode (b : List Byte) : GoString :=
  let x := bigSetBytes b
  let answer := encodeLoop x x []
  -- leading zero bytes
  let answer := answer ++ List.replicate (numLeading 0 b) alphabetIdx0
  -- reverse
  answer.reverse

/-- The inner loop of `Decode`, `for _, v := range t[:n]` with
`tmp := b58[v]`: `.error` is the run-time panic of the index expression for a
rune beyond the table, `.ok none` stands for `return []byte("")`, and
`.ok (some total)` is the number the digits of the piece denote (at most ten
digits: it fits the `uint64` of the source). `fuel` bounds the number of
runes. -/
def decodeChunk : Nat → GoString → Nat → Except GoString (Option Nat)
  | 0, _, total => .ok (some total)
  | fuel + 1, s, total =>
    if s = [] then .ok (some total)
    else
      let v := (decodeRune s).1
      let width := (decodeRune s).2
      if 256 ≤ v then .error (ascii "index out of range")
      else
        let tmp := b58 (Fin.ofNat v)
        if tmp = 255 then .ok none
        else decodeChunk fuel (s.drop width) (total * 58 + tmp)

/-- The outer loop of `Decode`, `for t := b; len(t) > 0; { ... t = t[n:] }`,
which takes ten bytes at a time; `bigRadix[n]` is `58 ^ n`. `fuel` bounds the
number of pieces. -/
def decodeChunks : Nat → GoString → Nat → Except GoString (Option Nat)
  | 0, _, answer => .ok (some answer)
  | fuel + 1, t, answer =>
    if t.length > 0 then
      let n := if t.length > 10 then 10 else t.length
      match decodeChunk n (t.take n) 0 with
      | .error p => .error p
      | .ok none => .ok none
      | .ok (some total) => decodeChunks fuel (t.drop n) (answer * 58 ^ n + total)
    else .ok (some answer)

/-- `base58.Decode`: the empty sequence when a rune below 256 is not a
character of the alphabet; `.error` is the panic for a rune beyond the
table. -/
def Decode (b : GoString) : Except GoString (List Byte) :=
  match decodeChunks b.length b 0 with
  | .error p => .error p
  | .ok none => .ok []
  | .ok (some answer) =>
    let tmpval := bigBytes answer
    let numZeros := numLeading alphabetIdx0 b
    .ok (List.replicate numZeros 0 ++ tmpval)

/-- The errors of `CheckDecode`. -/
inductive CheckError
  | ErrChecksum
  | ErrInvalidFormat
  deriving DecidableEq, Repr

/-- `checksum`: the first four bytes of `sha256(sha256(input))`, as a
`[4]byte`. -/
def checksum (input : List Byte) : List Byte :=
  let h2 := Sha256.sum256 (Sha256.sum256 input)
  [h2.getD 0 0, h2.getD 1 0, h2.getD 2 0, h2.getD 3 0]

/-- `base58.CheckEncode`. -/
def CheckEncode (input : List Byte) (version : Byte) : GoString :=
  let b := version :: input
  let cksum := checksum b
  Encode (b ++ cksum)

/-- `base58.CheckDecode`: the payload and the version byte, or the error;
`.error` outside is the panic of `Decode`. -/
def CheckDecode (input : GoString) : Except GoString (Except CheckError (List Byte × Byte)) :=
  match Decode input with
  | .error p => .error p
  | .ok decoded =>
    if decoded.length < 5 then .ok (.error .ErrInvalidFormat)
    else
      let version := decoded.headD 0
      let cksum := decoded.drop (decoded.length - 4)
      if checksum (decoded.take (decoded.length - 4)) ≠ cksum then .ok (.error .ErrChecksum)
      else .ok (.ok ((decoded.take (decoded.length - 4)).drop 1, version))

end base58

end Uplink

namespace Uplink

/-! ## Go errors

An error value is a tree: the leaves are the error variables of the packages
and plain text errors, the inner nodes are the wrappers the code builds.
`nil` is `none` of `Option GoErr`. Error values are compared by structure;
the package-level variables, which Go compares by identity, are the
constructor `sentinel`. -/

/-- The package-level error variables (`errors.New` values). -/
inductive Sentinel
  | EOF
  | Canceled
  | DeadlineExceeded
  | ErrUploadIDInvalid
  | ErrTooManyRequests
  | ErrBandwidthLimitExceeded
  | ErrPermissionDenied
  | ErrBucketNameInvalid
  | ErrObjectKeyInvalid
  | ErrBucketNotFound
  | ErrObjectNotFound
  | ErrUploadDone
  deriving DecidableEq, Repr

/-- The text of an error variable: `io.EOF`, `context.Canceled`,
`context.DeadlineExceeded`, and the variables of package `uplink`. -/
def Sentinel.text : Sentinel → GoString
  | .EOF => ascii "EOF"
  | .Canceled => ascii "context canceled"
  | .DeadlineExceeded => ascii "context deadline exceeded"
  | .ErrUploadIDInvalid => ascii "upload ID invalid"
  | .ErrTooManyRequests => ascii "too many requests"
  | .ErrBandwidthLimitExceeded => ascii "bandwidth limit exceeded"
  | .ErrPermissionDenied => ascii "permission denied"
  | .ErrBucketNameInvalid => ascii "bucket name invalid"
  | .ErrObjectKeyInvalid => ascii "object key invalid"
  | .ErrBucketNotFound => ascii "bucket not found"
  | .ErrObjectNotFound => ascii "object not found"
  | .ErrUploadDone => ascii "upload done"

/-- The error classes (`errs.Class` variables, compared by identity). -/
inductive Class
  | packageError
  | ErrNoBucket
  | ErrNoPath
  | ErrBucketNotFound
  | ErrObjectNotFound
  | ErrMissingEncryptionBase
  | ErrMissingDecryptionBase
  | other (name : GoString)
  deriving DecidableEq, Repr

/-- The string of an error class. -/
def Class.name : Class → GoString
  | .packageError => ascii "uplink"
  | .ErrNoBucket => ascii "no bucket specified"
  | .ErrNoPath => ascii "no path specified"
  | .ErrBucketNotFound => ascii "bucket not found"
  | .ErrObjectNotFound => ascii "object not found"
  | .ErrMissingEncryptionBase => ascii "missing encryption base"
  | .ErrMissingDecryptionBase => ascii "missing decryption base"
  | .other name => name

/-- `rpcstatus.StatusCode`, a `uint64`. -/
abbrev StatusCode := Nat

namespace rpcstatus

def Unknown : StatusCode := 0
def OK : StatusCode := 1
def Canceled : StatusCode := 2
def InvalidArgument : StatusCode := 3
def DeadlineExceeded : StatusCode := 4
def NotFound : StatusCode := 5
def AlreadyExists : StatusCode := 6
def PermissionDenied : StatusCode := 7
def ResourceExhausted : StatusCode := 8

end rpcstatus

/-- Error values.

* `sentinel`: a package-level error variable;
* `errorString`: any other text error (`errors.New`, `fmt.Errorf` without `%w`);
* `wrapError`: the result of `fmt.Errorf` with `%w`;
* `errorT`: an error of `zeebo/errs`, with its class (`none`: no class);
* `codeErr`: an error with a status code of `rpcstatus`;
* `combinedError`: the group `errs.Combine` builds from two errors;
* `joinedErr`: the composite error of `common.go`. -/
inductive GoErr
  | sentinel (v : Sentinel)
  | errorString (s : GoString)
  | wrapError (msg : GoString) (err : GoErr)
  | errorT (cls : Option Class) (err : GoErr)
  | codeErr (err : GoErr) (code : StatusCode)
  | combinedError (first second : GoErr)
  | joinedErr (main alt : GoErr) (code : StatusCode)
  deriving DecidableEq, Repr

namespace GoErr

/-- The method `Error`. For `joinedErr` it is `err.main.Error()`. -/
def Error : GoErr → GoString
  | sentinel v => v.text
  | errorString s => s
  | wrapError msg _ => msg
  | errorT cls err =>
    let text := err.Error
    match cls with
    | none => text
    | some c =>
      if c.name = [] then text
      else if text = [] then c.name
      else c.name ++ ascii ": " ++ text
  | codeErr err _ => err.Error
  | combinedError first second => first.Error ++ ascii "; " ++ second.Error
  | joinedErr main _ _ => main.Error

/-- The method `Unwrap` (for `joinedErr`: `err.main`), `none` for an error
without it. -/
def Unwrap : GoErr → Option GoErr
  | wrapError _ err => some err
  | errorT _ err => some err
  | codeErr err _ => some err
  | combinedError first _ => some first
  | joinedErr main _ _ => some main
  | _ => none

/-- The method `Cause` of the errors of `zeebo/errs` and `rpcstatus`. -/
def Cause : GoErr → Option GoErr
  | errorT _ err => some err
  | codeErr err _ => some err
  | combinedError first _ => some first
  | _ => none

/-- The method `Ungroup` (for `joinedErr`: `[]error{err.main, err.alt}`). -/
def Ungroup : GoErr → Option (List GoErr)
  | combinedError first second => some [first, second]
  | joinedErr main alt _ => some [main, alt]
  | _ => none

/-- The method `Code` (for `joinedErr`: `uint64(err.code)`). -/
def Code : GoErr → Option Nat
  | codeErr _ code => some code
  | joinedErr _ _ code => some code
  | _ => none

/-- Whether the dynamic type of the error is comparable: all are pointers but
the group, which is a slice. -/
def comparable : GoErr → Bool
  | combinedError _ _ => false
  | _ => true

end GoErr

/-- `errors.Is` for a non-nil target: an error of the chain of `Unwrap` that is
equal to the target matches (the target has to be comparable), and a
`joinedErr` on the chain answers with its method `Is`
(`errors.Is(err.main, target) || errors.Is(err.alt, target)`) before it is
unwrapped to `err.main`. `Unwrap` returns one error, as in the Go releases the
package was written for. -/
def errorsIsChain (target : GoErr) : GoErr → Bool
  | .sentinel v => target.comparable && decide (GoErr.sentinel v = target)
  | .errorString s => target.comparable && decide (GoErr.errorString s = target)
  | .wrapError msg err =>
    (target.comparable && decide (GoErr.wrapError msg err = target)) || errorsIsChain target err
  | .errorT cls err =>
    (target.comparable && decide (GoErr.errorT cls err = target)) || errorsIsChain target err
  | .codeErr err code =>
    (target.comparable && decide (GoErr.codeErr err code = target)) || errorsIsChain target err
  | .combinedError first _ => errorsIsChain target first
  | .joinedErr main alt code =>
    (target.comparable && decide (GoErr.joinedErr main alt code = target))
      || (errorsIsChain target main || errorsIsChain target alt)
      || errorsIsChain target main

/-- `errors.Is(err, target)`. -/
def errorsIs (err target : Option GoErr) : Bool :=
  match target, err with
  | none, err => err.isNone
  | some _, none => false
  | some t, some e => errorsIsChain t e

/-- `errs.IsFunc` on a non-nil error: the error and the errors below it are
tried; an error with the method `Ungroup` is searched member by member, which
is what `joinedErr.Ungroup` of `common.go` is there for ("Ungroup works with
errs2.IsRPC and errs.IsFunc"). -/
def IsFuncChain (is : GoErr → Bool) : GoErr → Bool
  | .sentinel v => is (.sentinel v)
  | .errorString s => is (.errorString s)
  | .wrapError msg err => is (.wrapError msg err) || IsFuncChain is err
  | .errorT cls err => is (.errorT cls err) || IsFuncChain is err
  | .codeErr err code => is (.codeErr err code) || IsFuncChain is err
  | .combinedError first second =>
    is (.combinedError first second) || (IsFuncChain is first || IsFuncChain is second)
  | .joinedErr main alt code =>
    is (.joinedErr main alt code) || (IsFuncChain is main || IsFuncChain is alt)

/-- `errs.IsFunc(err, is)` for a predicate `is` that is false on `nil`. -/
def IsFunc (err : Option GoErr) (is : GoErr → Bool) : Bool :=
  match err with
  | none => false
  | some e => IsFuncChain is e

/-- The loop of `(*errs.Class).Has`: it follows the errors of `zeebo/errs`
(`*errorT`) from one to the error it wraps, and stops with `false` at the
first error of another type. -/
def Class.HasChain (c : Class) : GoErr → Bool
  | .errorT cls err => decide (cls = some c) || Class.HasChain c err
  | _ => false

/-- `(*errs.Class).Has`: the error was wrapped by this class. -/
def Class.Has (c : Class) (err : Option GoErr) : Bool :=
  match err with
  | none => false
  | some e => c.HasChain e

/-- `(*errs.Class).Wrap`, also for the nil class of `errs.Wrap`: `nil` stays
`nil`, an error of the same class (or any `errorT` for the nil class) is
returned as it is. -/
def classWrap (c : Option Class) (err : Option GoErr) : Option GoErr :=
  match err with
  | none => none
  | some (.errorT cls e) =>
    if c = none ∨ cls = c then some (.errorT cls e) else some (.errorT c (.errorT cls e))
  | some e => some (.errorT c e)

/-- `(*errs.Class).New` with a message without verbs. -/
def classNew (c : Class) (msg : GoString) : GoErr :=
  .errorT (some c) (.errorString msg)

/-- `errs.Unwrap`: `Cause` or else `Unwrap` is followed to the last error, at
most 100 times. -/
def errsUnwrapLoop : Nat → GoErr → GoErr
  | 0, err => err
  | n + 1, err =>
    match (match err.Cause with
      | some c => some c
      | none => err.Unwrap) with
    | none => err
    | some nerr => errsUnwrapLoop n nerr

/-- `errs.Unwrap` on a non-nil error. -/
def errsUnwrap (err : GoErr) : GoErr := errsUnwrapLoop 100 err

/-- `drpcerr.Code`: the code of the first error of the chain that has the
method `Code`, 0 when there is none within 100 steps. -/
def drpcerrCodeLoop : Nat → GoErr → Nat
  | 0, _ => 0
  | n + 1, err =>
    match err.Code with
    | some c => c
    | none =>
      match (match err.Cause with
        | some c => some c
        | none => err.Unwrap) with
      | none => 0
      | some nerr => drpcerrCodeLoop n nerr

/-- `rpcstatus.Code`: `OK` for `nil`; `Canceled` and `DeadlineExceeded` for an
error that matches `context.Canceled` or `context.DeadlineExceeded`
(`errors.Is`), whatever code it carries; else the code of `drpcerr.Code`. -/
def rpcstatus.Code (err : Option GoErr) : StatusCode :=
  match err with
  | none => rpcstatus.OK
  | some e =>
    if errorsIs (some e) (some (.sentinel .Canceled)) then rpcstatus.Canceled
    else if errorsIs (some e) (some (.sentinel .DeadlineExceeded)) then
      rpcstatus.DeadlineExceeded
    else drpcerrCodeLoop 100 e

/-- The dynamic type of an error value. -/
inductive ErrKind
  | errorString
  | deadlineExceededError
  | wrapError
  | errorT
  | codeErr
  | combinedError
  | joinedErr
  deriving DecidableEq, Repr

/-- The dynamic type of an error: the error variables are `*errors.errorString`,
but for `context.DeadlineExceeded`, which has a type of its own. -/
def GoErr.kind : GoErr → ErrKind
  | .sentinel .DeadlineExceeded => .deadlineExceededError
  | .sentinel _ => .errorString
  | .errorString _ => .errorString
  | .wrapError _ _ => .wrapError
  | .errorT _ _ => .errorT
  | .codeErr _ _ => .codeErr
  | .combinedError _ _ => .combinedError
  | .joinedErr _ _ _ => .joinedErr

/-- `errors.As` on a non-nil error. The target type is given by the dynamic
types assignable to it; the result is the error stored in the target, `none`
when `errors.As` returns false. A `joinedErr` on the chain that is not
assignable itself answers with its method `As` (`err.main`, then `err.alt`)
before it is unwrapped to `err.main`. -/
def errorsAsChain (assignable : ErrKind → Bool) : GoErr → Option GoErr
  | .sentinel v => if assignable (GoErr.sentinel v).kind then some (.sentinel v) else none
  | .errorString s => if assignable .errorString then some (.errorString s) else none
  | .wrapError msg err =>
    if assignable .wrapError then some (.wrapError msg err) else errorsAsChain assignable err
  | .errorT cls err =>
    if assignable .errorT then some (.errorT cls err) else errorsAsChain assignable err
  | .codeErr err code =>
    if assignable .codeErr then some (.codeErr err code) else errorsAsChain assignable err
  | .combinedError first second =>
    if assignable .combinedError then some (.combinedError first second)
    else errorsAsChain assignable first
  | .joinedErr main alt code =>
    if assignable .joinedErr then some (.joinedErr main alt code)
    else
      match errorsAsChain assignable main with
      | some x => some x
      | none =>
        match errorsAsChain assignable alt with
        | some x => some x
        | none => errorsAsChain assignable main

/-- `errors.As(err, target)`. -/
def errorsAs (err : Option GoErr) (assignable : ErrKind → Bool) : Option GoErr :=
  match err with
  | none => none
  | some e => errorsAsChain assignable e

/-- `rpcstatus.Wrap`: the code is put on the first error of the chain that is
an error of `zeebo/errs` or of `rpcstatus` (`errors.As` for the interface of
these errors), and on `errs.Wrap(err)` when there is none. -/
def rpcstatus.Wrap (code : StatusCode) (err : Option GoErr) : Option GoErr :=
  match err with
  | none => none
  | some e =>
    match errorsAs (some e) (fun k => k == .errorT || k == .codeErr) with
    | some ee => some (.codeErr ee code)
    | none => some (.codeErr (.errorT none e) code)

/-- `errs2.IsRPC`. -/
def IsRPC (err : Option GoErr) (code : StatusCode) : Bool :=
  match err with
  | none => decide (rpcstatus.Code none = code)
  | some e => IsFuncChain (fun x => decide (rpcstatus.Code (some x) = code)) e

/-- `errs.Combine` of two errors. -/
def errsCombine (a b : Option GoErr) : Option GoErr :=
  match a, b with
  | none, none => none
  | some x, none => some x
  | none, some y => some y
  | some x, some y => some (.combinedError x y)

end Uplink

namespace Uplink

/-! ## `fmt`, for the three verbs the code uses -/

/-- An operand of a format: an error or a string. -/
inductive FmtArg
  | err (e : GoErr)
  | str (s : GoString)
  deriving DecidableEq, Repr

/-- The text of one operand under a verb: `%w` and `%v` print an error by its
method `Error` and a string as it is, `%q` quotes (`strconv.Quote`, taken as
the parameter `quote`). -/
def fmtVerb (quote : GoString → GoString) (verb : Byte) (a : FmtArg) : GoString :=
  let text := match a with
    | .err e => e.Error
    | .str s => s
  if verb = 113 then quote text else text

/-- `fmt.Sprintf`: a `%` and the byte after it are a verb that takes the next
operand; every other byte is copied. A verb without operand prints
`%!v(MISSING)` with its own letter. -/
def fmtSprintf (quote : GoString → GoString) : GoString → List FmtArg → GoString
  | 37 :: verb :: rest, a :: args => fmtVerb quote verb a ++ fmtSprintf quote rest args
  | 37 :: verb :: rest, [] => ascii "%!" ++ [verb] ++ ascii "(MISSING)" ++ fmtSprintf quote rest []
  | c :: rest, args => c :: fmtSprintf quote rest args
  | [], _ => []

/-- The operand of the verb `%w` of a format, when it is an error. -/
def fmtWrapped : GoString → List FmtArg → Option GoErr
  | 37 :: verb :: rest, a :: args =>
    match verb, a with
    | 119, .err e => some e
    | _, _ => fmtWrapped rest args
  | 37 :: _ :: _, [] => none
  | _ :: rest, args => fmtWrapped rest args
  | [], _ => none

/-- `fmt.Errorf`: with a `%w` operand the result wraps it, else it is a plain
text error. -/
def fmtErrorf (quote : GoString → GoString) (format : GoString) (args : List FmtArg) : GoErr :=
  let msg := fmtSprintf quote format args
  match fmtWrapped format args with
  | some e => .wrapError msg e
  | none => .errorString msg

/-! ## `common.go` -/

/-- The error class of the package: `errs.Class("uplink")`. -/
def packageError : Class := .packageError

/-- `errwrapf` of `common.go`. -/
def errwrapf (quote : GoString → GoString) (format : GoString) (err : GoErr)
    (args : List FmtArg) : Option GoErr :=
  let all := [FmtArg.err err] ++ args
  classWrap (some packageError) (some (fmtErrorf quote format all))

/-- `strings.HasSuffix`. -/
def HasSuffix (s suffix : GoString) : Bool := suffix.isSuffixOf s

/-- `strings.HasPrefix`. -/
def HasPrefix (s pre : GoString) : Bool := pre.isPrefixOf s

/-- The slice expression `s[low:]`: a run-time panic when `low > len(s)`. -/
def sliceFrom (s : GoString) (low : Nat) : Except GoString GoString :=
  if low ≤ s.length then .ok (s.drop low)
  else .error (ascii "slice bounds out of range")

/-- `convertKnownErrors` of `common.go`. The result is `.error` when the call
panics, else the error returned (`none`: `nil`). -/
def convertKnownErrors (quote : GoString → GoString) (err : Option GoErr)
    (bucket key : GoString) : Except GoString (Option GoErr) :=
  if errorsIs err (some (.sentinel .EOF)) then
    .ok err
  else if Class.ErrNoBucket.Has err then
    .ok (errwrapf quote (ascii "%w (%q)") (.sentinel .ErrBucketNameInvalid) [.str bucket])
  else if Class.ErrNoPath.Has err then
    .ok (errwrapf quote (ascii "%w (%q)") (.sentinel .ErrObjectKeyInvalid) [.str key])
  else if Class.ErrBucketNotFound.Has err then
    .ok (errwrapf quote (ascii "%w (%q)") (.sentinel .ErrBucketNotFound) [.str bucket])
  else if Class.ErrObjectNotFound.Has err then
    .ok (errwrapf quote (ascii "%w (%q)") (.sentinel .ErrObjectNotFound) [.str key])
  else if Class.ErrMissingEncryptionBase.Has err then
    .ok (errwrapf quote (ascii "%w (%q)") (.sentinel .ErrPermissionDenied) [.str key])
  else if Class.ErrMissingDecryptionBase.Has err then
    .ok (errwrapf quote (ascii "%w (%q)") (.sentinel .ErrPermissionDenied) [.str key])
  else
    match err with
    | none => .ok (classWrap (some packageError) none)
    | some e =>
      if IsRPC (some e) rpcstatus.ResourceExhausted then
        let message := (errsUnwrap e).Error
        if HasSuffix message (ascii "Exceeded Usage Limit") then
          .ok (classWrap (some packageError)
            (rpcstatus.Wrap rpcstatus.ResourceExhausted (some (.sentinel .ErrBandwidthLimitExceeded))))
        else if HasSuffix message (ascii "Too Many Requests") then
          .ok (classWrap (some packageError)
            (rpcstatus.Wrap rpcstatus.ResourceExhausted (some (.sentinel .ErrTooManyRequests))))
        else .ok (classWrap (some packageError) (some e))
      else if IsRPC (some e) rpcstatus.NotFound then
        let message := (errsUnwrap e).Error
        if HasPrefix message (classNew .ErrBucketNotFound []).Error then
          let prefixLength := (classNew .ErrBucketNotFound []).Error.length
          -- remove error prefix + ": " from message
          match sliceFrom message (prefixLength + 2) with
          | .error p => .error p
          | .ok bucket =>
            .ok (errwrapf quote (ascii "%w (%q)") (.sentinel .ErrBucketNotFound) [.str bucket])
        else if HasPrefix message (classNew .ErrObjectNotFound []).Error then
          .ok (errwrapf quote (ascii "%w (%q)") (.sentinel .ErrObjectNotFound) [.str key])
        else .ok (classWrap (some packageError) (some e))
      else if IsRPC (some e) rpcstatus.PermissionDenied then
        let originalErr := e
        match errwrapf quote (ascii "%w (%v)") (.sentinel .ErrPermissionDenied) [.err originalErr] with
        | none => .ok none
        | some wrappedErr =>
          .ok (some (.joinedErr wrappedErr originalErr rpcstatus.PermissionDenied))
      else .ok (classWrap (some packageError) (some e))

end Uplink

namespace Uplink

/-! ## `multipart.go`: data -/

/-- A `time.Time`, as an abstract instant; 0 is the zero time. -/
abbrev Time := Int

/-- `CustomMetadata`: a `map[string]string`, as the list of its entries. -/
abbrev CustomMetadata := List (GoString × GoString)

/-- `SystemMetadata` of an object. -/
structure SystemMetadata where
  Created : Time := 0
  Expires : Time := 0
  ContentLength : Int := 0
  deriving DecidableEq, Repr

/-- `UploadInfo` contains information about multipart upload. -/
structure UploadInfo where
  UploadID : GoString := []
  Key : GoString := []
  IsPrefix : Bool := false
  System : SystemMetadata := {}
  Custom : CustomMetadata := []
  deriving DecidableEq, Repr

/-- `Object`: the descriptor `CommitUpload` returns. -/
structure Object where
  Key : GoString := []
  IsPrefix : Bool := false
  System : SystemMetadata := {}
  Custom : CustomMetadata := []
  deriving DecidableEq, Repr

/-- `UploadOptions`. -/
structure UploadOptions where
  Expires : Time := 0
  deriving DecidableEq, Repr

/-- `CommitUploadOptions` options for committing multipart upload. -/
structure CommitUploadOptions where
  CustomMetadata : CustomMetadata := []
  deriving DecidableEq, Repr

/-- `ListUploadPartsOptions`: the cursor is a `uint32`. -/
structure ListUploadPartsOptions where
  Cursor : Nat := 0
  deriving DecidableEq, Repr

/-- `storj.EncryptionParameters`. -/
structure EncryptionParameters where
  CipherSuite : Nat := 0
  BlockSize : Int := 0
  deriving DecidableEq, Repr

/-- `metaclient.BeginObjectParams`, the fields `BeginUpload` sets. -/
structure BeginObjectParams where
  Bucket : GoString
  EncryptedPath : GoString
  ExpiresAt : Time
  EncryptionParameters : EncryptionParameters
  deriving DecidableEq, Repr

/-- `metaclient.CommitObjectParams`. -/
structure CommitObjectParams where
  StreamID : List Byte
  EncryptedMetadata : List Byte
  EncryptedMetadataEncryptedKey : List Byte
  EncryptedMetadataNonce : List Byte
  deriving DecidableEq, Repr

/-- `metaclient.BeginDeleteObjectParams`. -/
structure BeginDeleteObjectParams where
  Bucket : GoString
  EncryptedPath : GoString
  Version : Int
  StreamID : List Byte
  Status : Int
  deriving DecidableEq, Repr

/-- `metaclient.SegmentPosition`: two `int32`. -/
structure SegmentPosition where
  PartNumber : Int := 0
  Index : Int := 0
  deriving DecidableEq, Repr

/-- `metaclient.ListSegmentsParams`. -/
structure ListSegmentsParams where
  StreamID : List Byte := []
  Cursor : SegmentPosition := {}
  Limit : Int := 0
  deriving DecidableEq, Repr

/-- `Part` part metadata. -/
structure Part where
  PartNumber : Nat := 0
  Size : Int := 0
  Modified : Time := 0
  ETag : List Byte := []
  deriving DecidableEq, Repr

/-- `PartUpload` is a part upload to started multipart upload: the fields the
methods read and write. The sink `upload`, the store `streams` and `cancel`
are collaborators; calls to them are events. -/
structure PartUpload where
  closed : Bool := false
  aborted : Bool := false
  bucket : GoString
  key : GoString
  part : Part
  etag : List Byte := []
  deriving DecidableEq, Repr

/-- `PartIterator`, the fields `ListUploadParts` sets. -/
structure PartIterator where
  bucket : GoString
  key : GoString
  options : ListSegmentsParams
  uploadID : GoString
  err : Option GoErr := none
  deriving DecidableEq, Repr

/-- A call to a collaborator. `randRead pos len` is the read number `pos` of
the random source, for `len` bytes. -/
inductive Event
  | dialMetainfoClient
  | metainfoClose
  | BeginObject (params : BeginObjectParams)
  | CommitObject (params : CommitObjectParams)
  | BeginDeleteObject (params : BeginDeleteObjectParams)
  | randRead (pos len : Nat)
  | contextWithCancel
  | getStreamsStore
  | NewUploadPart (bucket key : GoString) (streamID : List Byte) (partNumber : Nat)
  | sinkWrite (p : List Byte)
  | sinkClose
  | sinkAbort
  | sinkPart
  | streamsClose
  | cancel
  deriving DecidableEq, Repr

/-- The project and the metainfo client it dials: what each collaborator
answers when it is called. -/
structure Project where
  encryptionParameters : EncryptionParameters
  /-- `encryptPath(project, bucket, key)`, the raw encrypted path. -/
  encryptPath : GoString → GoString → Except GoErr GoString
  /-- `deriveContentKey(project, bucket, key)`. -/
  deriveContentKey : GoString → GoString → Except GoErr (List Byte)
  /-- The error of `project.dialMetainfoClient`. -/
  dialMetainfoClient : Option GoErr
  /-- The error of `metainfoClient.Close`. -/
  metainfoClose : Option GoErr
  /-- `metainfoClient.BeginObject`: the stream ID of the response. -/
  BeginObject : BeginObjectParams → Except GoErr (List Byte)
  /-- The error of `metainfoClient.CommitObject`. -/
  CommitObject : CommitObjectParams → Option GoErr
  /-- The error of `metainfoClient.BeginDeleteObject`. -/
  BeginDeleteObject : BeginDeleteObjectParams → Option GoErr
  /-- The error of `project.getStreamsStore`. -/
  getStreamsStore : Option GoErr

/-- The library functions the operations call and this development does not
compute. -/
structure Library where
  /-- `strconv.Quote`, the verb `%q`. -/
  quote : GoString → GoString
  /-- `storj.StreamIDFromBytes`. -/
  StreamIDFromBytes : List Byte → Except GoErr (List Byte)
  /-- `pb.Marshal` of a `SerializableMeta` with these user-defined entries. -/
  marshalSerializableMeta : CustomMetadata → Except GoErr (List Byte)
  /-- `pb.Marshal` of a `StreamInfo` with this metadata. -/
  marshalStreamInfo : List Byte → Except GoErr (List Byte)
  /-- `pb.Marshal` of a `StreamMeta` with this encrypted stream info. -/
  marshalStreamMeta : List Byte → Except GoErr (List Byte)
  /-- `crypto/rand.Read`: the read number `pos` of the random source, asked
  for `len` bytes. -/
  randRead : Nat → Nat → Except GoErr (List Byte)
  /-- `encryption.EncryptKey(keyToEncrypt, cipher, key, nonce)`. -/
  EncryptKey : List Byte → Nat → List Byte → List Byte → Except GoErr (List Byte)
  /-- `encryption.Encrypt(data, cipher, key, nonce)`. -/
  Encrypt : List Byte → Nat → List Byte → List Byte → Except GoErr (List Byte)

/-- What a call of an operation does: the calls it makes to collaborators, in
order, and how it ends: with a panic (`.error`), or with a result and an
error (`none`: `nil`). -/
structure Outcome (α : Type) where
  result : Except GoString (α × Option GoErr)
  trace : List Event := []

/-- Return of `zero, err` where `err` is the result of `convertKnownErrors`. -/
def Outcome.ofConvert {α : Type} (zero : α) (r : Except GoString (Option GoErr))
    (trace : List Event) : Outcome α :=
  match r with
  | .error p => { result := .error p, trace := trace }
  | .ok e => { result := .ok (zero, e), trace := trace }

/-- The deferred `err = errs.Combine(err, metainfoClient.Close())`, which runs
on every way out once the client is dialed. -/
def Outcome.deferClose {α : Type} (project : Project) (o : Outcome α) : Outcome α :=
  { result := match o.result with
      | .error p => .error p
      | .ok (v, e) => .ok (v, errsCombine e project.metainfoClose),
    trace := o.trace ++ [Event.metainfoClose] }

/-- `math.MaxInt32`. -/
def MaxInt32 : Nat := 2147483647

/-- The length of a `storj.Key`. -/
def keySize : Nat := 32

/-- The length of a `storj.Nonce`. -/
def nonceSize : Nat := 24

/-- `pb.Object_UPLOADING`. -/
def Object_UPLOADING : Int := 1

/-- The conversion `int32(x)` of a `uint32`. -/
def toInt32 (x : Nat) : Int :=
  if x % 2 ^ 32 < 2 ^ 31 then (x % 2 ^ 32 : Nat) else ((x % 2 ^ 32 : Nat) : Int) - 2 ^ 32

/-- The step the operations with an upload ID share:
`decodedStreamID, version, err := base58.CheckDecode(uploadID)`, followed by
`if err != nil || version != 1`; `.ok none` when the test rejects, `.error`
when `CheckDecode` panics. -/
def decodeUploadID (uploadID : GoString) : Except GoString (Option (List Byte)) :=
  match base58.CheckDecode uploadID with
  | .error panic => .error panic
  | .ok (.error _) => .ok none
  | .ok (.ok (decodedStreamID, version)) =>
    .ok (if version ≠ 1 then none else some decodedStreamID)

end Uplink

namespace Uplink

/-! ## `multipart.go`: the operations of a project -/

/-- `Project.BeginUpload` begins a new multipart upload to bucket and key. -/
def BeginUpload (lib : Library) (project : Project) (bucket key : GoString)
    (options : Option UploadOptions) : Outcome UploadInfo :=
  if bucket = [] then
    { result := .ok ({}, errwrapf lib.quote (ascii "%w (%q)") (.sentinel .ErrBucketNameInvalid) [.str bucket]) }
  else if key = [] then
    { result := .ok ({}, errwrapf lib.quote (ascii "%w (%q)") (.sentinel .ErrObjectKeyInvalid) [.str key]) }
  else
    let options := options.getD {}
    match project.encryptPath bucket key with
    | .error err => { result := .ok ({}, classWrap (some packageError) (some err)) }
    | .ok encPath =>
      match project.dialMetainfoClient with
      | some err =>
        { result := .ok ({}, classWrap (some packageError) (some err)),
          trace := [.dialMetainfoClient] }
      | none =>
        let params : BeginObjectParams :=
          { Bucket := bucket,
            EncryptedPath := encPath,
            ExpiresAt := options.Expires,
            EncryptionParameters := project.encryptionParameters }
        let trace := [Event.dialMetainfoClient, Event.BeginObject params]
        Outcome.deferClose project <|
          match project.BeginObject params with
          | .error err =>
            Outcome.ofConvert {} (convertKnownErrors lib.quote (some err) bucket key) trace
          | .ok streamID =>
            let encodedStreamID := base58.CheckEncode streamID 1
            { result := .ok ({ Key := key,
                               UploadID := encodedStreamID,
                               System := { Expires := options.Expires } }, none),
              trace := trace }

/-- `Project.CommitUpload` commits a multipart upload to bucket and key started
with `BeginUpload`. `randPos` is the number of reads of the random source made
before the call; the call makes the reads `randPos` and `randPos + 1`. -/
def CommitUpload (lib : Library) (project : Project) (randPos : Nat)
    (bucket key uploadID : GoString) (opts : Option CommitUploadOptions) :
    Outcome (Option Object) :=
  let fail (err : Option GoErr) (trace : List Event) : Outcome (Option Object) :=
    { result := .ok (none, err), trace := trace }
  if bucket = [] then
    fail (errwrapf lib.quote (ascii "%w (%q)") (.sentinel .ErrBucketNameInvalid) [.str bucket]) []
  else if key = [] then
    fail (errwrapf lib.quote (ascii "%w (%q)") (.sentinel .ErrObjectKeyInvalid) [.str key]) []
  else if uploadID = [] then
    fail (classWrap (some packageError) (some (.sentinel .ErrUploadIDInvalid))) []
  else
    match decodeUploadID uploadID with
    | .error panic => { result := .error panic }
    | .ok none => fail (classWrap (some packageError) (some (.sentinel .ErrUploadIDInvalid))) []
    | .ok (some decodedStreamID) =>
    let opts := opts.getD {}
    match lib.StreamIDFromBytes decodedStreamID with
    | .error err => fail (classWrap (some packageError) (some err)) []
    | .ok id =>
    match lib.marshalSerializableMeta opts.CustomMetadata with
    | .error err => fail (classWrap (some packageError) (some err)) []
    | .ok metadataBytes =>
    match lib.marshalStreamInfo metadataBytes with
    | .error err => fail (classWrap (some packageError) (some err)) []
    | .ok streamInfo =>
    match project.deriveContentKey bucket key with
    | .error err => fail (classWrap (some packageError) (some err)) []
    | .ok derivedKey =>
    -- generate random key for encrypting the segment's content
    match lib.randRead randPos keySize with
    | .error err =>
      fail (classWrap (some packageError) (some err)) [.randRead randPos keySize]
    | .ok metadataKey =>
    -- generate random nonce for encrypting the metadata key
    let reads := [Event.randRead randPos keySize, Event.randRead (randPos + 1) nonceSize]
    match lib.randRead (randPos + 1) nonceSize with
    | .error err => fail (classWrap (some packageError) (some err)) reads
    | .ok encryptedKeyNonce =>
    let encryptionParameters := project.encryptionParameters
    match lib.EncryptKey metadataKey encryptionParameters.CipherSuite derivedKey encryptedKeyNonce with
    | .error err => fail (classWrap (some packageError) (some err)) reads
    | .ok encryptedKey =>
    -- encrypt metadata with the content encryption key and zero nonce.
    match lib.Encrypt streamInfo encryptionParameters.CipherSuite metadataKey
        (List.replicate nonceSize 0) with
    | .error err => fail (classWrap (some packageError) (some err)) reads
    | .ok encryptedStreamInfo =>
    match lib.marshalStreamMeta encryptedStreamInfo with
    | .error err => fail (classWrap (some packageError) (some err)) reads
    | .ok streamMetaBytes =>
    match project.dialMetainfoClient with
    | some err =>
      fail (classWrap (some packageError) (some err)) (reads ++ [.dialMetainfoClient])
    | none =>
      let params : CommitObjectParams :=
        { StreamID := id,
          EncryptedMetadata := streamMetaBytes,
          EncryptedMetadataEncryptedKey := encryptedKey,
          EncryptedMetadataNonce := encryptedKeyNonce }
      let trace := reads ++ [Event.dialMetainfoClient, Event.CommitObject params]
      Outcome.deferClose project <|
        match project.CommitObject params with
        | some err =>
          Outcome.ofConvert none (convertKnownErrors lib.quote (some err) bucket key) trace
        | none =>
          -- TODO return real object after committing
          { result := .ok (some { Key := key }, none), trace := trace }

/-- `Project.UploadPart` uploads a part with `partNumber` to a multipart upload
started with `BeginUpload`. -/
def UploadPart (lib : Library) (project : Project) (bucket key uploadID : GoString)
    (partNumber : Nat) : Outcome (Option PartUpload) :=
  if bucket = [] then
    { result := .ok (none, errwrapf lib.quote (ascii "%w (%q)") (.sentinel .ErrBucketNameInvalid) [.str bucket]) }
  else if key = [] then
    { result := .ok (none, errwrapf lib.quote (ascii "%w (%q)") (.sentinel .ErrObjectKeyInvalid) [.str key]) }
  else if uploadID = [] then
    { result := .ok (none, classWrap (some packageError) (some (.sentinel .ErrUploadIDInvalid))) }
  else if partNumber ≥ MaxInt32 then
    { result := .ok (none, some (classNew packageError
        (ascii "partNumber should be less than max(int32)"))) }
  else
    match decodeUploadID uploadID with
    | .error panic => { result := .error panic }
    | .ok none =>
      { result := .ok (none, classWrap (some packageError) (some (.sentinel .ErrUploadIDInvalid))) }
    | .ok (some decodedStreamID) =>
      let upload : PartUpload :=
        { bucket := bucket,
          key := key,
          part := { PartNumber := partNumber } }
      match project.getStreamsStore with
      | some err =>
        Outcome.ofConvert none (convertKnownErrors lib.quote (some err) bucket key)
          [.contextWithCancel, .getStreamsStore]
      | none =>
        { result := .ok (some upload, none),
          trace := [.contextWithCancel, .getStreamsStore,
            .NewUploadPart bucket key decodedStreamID partNumber] }

/-- `Project.AbortUpload` aborts a multipart upload started with `BeginUpload`. -/
def AbortUpload (lib : Library) (project : Project) (bucket key uploadID : GoString) :
    Outcome Unit :=
  if bucket = [] then
    { result := .ok ((), errwrapf lib.quote (ascii "%w (%q)") (.sentinel .ErrBucketNameInvalid) [.str bucket]) }
  else if key = [] then
    { result := .ok ((), errwrapf lib.quote (ascii "%w (%q)") (.sentinel .ErrObjectKeyInvalid) [.str key]) }
  else if uploadID = [] then
    { result := .ok ((), classWrap (some packageError) (some (.sentinel .ErrUploadIDInvalid))) }
  else
    match decodeUploadID uploadID with
    | .error panic => { result := .error panic }
    | .ok none =>
      { result := .ok ((), classWrap (some packageError) (some (.sentinel .ErrUploadIDInvalid))) }
    | .ok (some decodedStreamID) =>
    match lib.StreamIDFromBytes decodedStreamID with
    | .error err => { result := .ok ((), classWrap (some packageError) (some err)) }
    | .ok id =>
    match project.encryptPath bucket key with
    | .error err => Outcome.ofConvert () (convertKnownErrors lib.quote (some err) bucket key) []
    | .ok encPath =>
    match project.dialMetainfoClient with
    | some err =>
      Outcome.ofConvert () (convertKnownErrors lib.quote (some err) bucket key)
        [.dialMetainfoClient]
    | none =>
      let params : BeginDeleteObjectParams :=
        { Bucket := bucket,
          EncryptedPath := encPath,
          -- TODO remove it or set to 0 when satellite side will be fixed
          Version := 1,
          StreamID := id,
          Status := Object_UPLOADING }
      Outcome.deferClose project <|
        Outcome.ofConvert () (convertKnownErrors lib.quote (project.BeginDeleteObject params) bucket key)
          [.dialMetainfoClient, .BeginDeleteObject params]

/-- `Project.ListUploadParts` returns an iterator over the parts of a multipart
upload started with `BeginUpload`; `.error` when `CheckDecode` panics. -/
def ListUploadParts (lib : Library) (bucket key uploadID : GoString)
    (options : Option ListUploadPartsOptions) : Except GoString PartIterator :=
  let opts : ListSegmentsParams :=
    match options with
    | none => {}
    | some o => { Cursor := { PartNumber := toInt32 o.Cursor } }
  let parts : PartIterator :=
    { bucket := bucket, key := key, options := opts, uploadID := uploadID }
  if parts.bucket = [] then
    .ok { parts with err := errwrapf lib.quote (ascii "%w (%q)") (.sentinel .ErrBucketNameInvalid) [.str parts.bucket] }
  else if parts.key = [] then
    .ok { parts with err := errwrapf lib.quote (ascii "%w (%q)") (.sentinel .ErrObjectKeyInvalid) [.str parts.key] }
  else if parts.uploadID = [] then
    .ok { parts with err := classWrap (some packageError) (some (.sentinel .ErrUploadIDInvalid)) }
  else
    match decodeUploadID uploadID with
    | .error panic => .error panic
    | .ok none =>
      .ok { parts with err := classWrap (some packageError) (some (.sentinel .ErrUploadIDInvalid)) }
    | .ok (some decodedStreamID) =>
      .ok { parts with options := { parts.options with StreamID := decodedStreamID } }

end Uplink

namespace Uplink

/-! ## `multipart.go`: the part upload -/

/-- What a call of a method of `PartUpload` does: the upload afterwards, the
value returned (`.error`: a panic), and the calls made to the sink, the store
and `cancel`, in order. -/
structure Step (α : Type) where
  upload : PartUpload
  result : Except GoString α
  trace : List Event := []

/-- `etag.ETag`: the tag source handed to the sink reads the field `etag` of
the upload. -/
def etag.ETag (upload : PartUpload) : List Byte :=
  upload.etag

/-- `PartUpload.Write` uploads `len(p)` bytes from `p` to the object's data
stream; `n` and `err` are the answer of the sink. -/
def PartUpload.Write (quote : GoString → GoString) (upload : PartUpload) (p : List Byte)
    (n : Int) (err : Option GoErr) : Step (Int × Option GoErr) :=
  { upload := upload,
    result := match convertKnownErrors quote err upload.bucket upload.key with
      | .error panic => .error panic
      | .ok e => .ok (n, e),
    trace := [.sinkWrite p] }

/-- `PartUpload.SetETag` sets ETag for a part. -/
def PartUpload.SetETag (quote : GoString → GoString) (upload : PartUpload) (etag : List Byte) :
    Step (Option GoErr) :=
  if upload.aborted then
    { upload := upload,
      result := .ok (errwrapf quote (ascii "%w: upload aborted") (.sentinel .ErrUploadDone) []) }
  else if upload.closed then
    { upload := upload,
      result := .ok (errwrapf quote (ascii "%w: already committed") (.sentinel .ErrUploadDone) []) }
  else
    { upload := { upload with etag := etag },
      result := .ok none }

/-- `PartUpload.Commit` commits a part; `closeErr` and `streamsErr` are the
answers of `upload.upload.Close()` and `upload.streams.Close()`. -/
def PartUpload.Commit (quote : GoString → GoString) (upload : PartUpload)
    (closeErr streamsErr : Option GoErr) : Step (Option GoErr) :=
  if upload.aborted then
    { upload := upload,
      result := .ok (errwrapf quote (ascii "%w: already aborted") (.sentinel .ErrUploadDone) []) }
  else if upload.closed then
    { upload := upload,
      result := .ok (errwrapf quote (ascii "%w: already committed") (.sentinel .ErrUploadDone) []) }
  else
    let upload := { upload with closed := true }
    let err := errsCombine closeErr streamsErr
    { upload := upload,
      result := convertKnownErrors quote err upload.bucket upload.key,
      trace := [.sinkClose, .streamsClose] }

/-- `PartUpload.Abort` aborts the part upload; `abortErr` and `streamsErr` are
the answers of `upload.upload.Abort()` and `upload.streams.Close()`. -/
def PartUpload.Abort (quote : GoString → GoString) (upload : PartUpload)
    (abortErr streamsErr : Option GoErr) : Step (Option GoErr) :=
  if upload.closed then
    { upload := upload,
      result := .ok (errwrapf quote (ascii "%w: already committed") (.sentinel .ErrUploadDone) []) }
  else if upload.aborted then
    { upload := upload,
      result := .ok (errwrapf quote (ascii "%w: already aborted") (.sentinel .ErrUploadDone) []) }
  else
    let upload := { upload with aborted := true }
    let err := errsCombine abortErr streamsErr
    { upload := upload,
      result := convertKnownErrors quote err upload.bucket upload.key,
      trace := [.cancel, .sinkAbort, .streamsClose] }

/-- `PartUpload.Info` returns the last information about the uploaded part;
`part` is the answer of `upload.upload.Part()` (`none`: `nil`). -/
def PartUpload.Info (upload : PartUpload) (part : Option Part) : Step Part :=
  let upload :=
    match part with
    | some p =>
      { upload with part := { upload.part with Size := p.Size, Modified := p.Modified, ETag := p.ETag } }
    | none => upload
  { upload := upload, result := .ok upload.part, trace := [.sinkPart] }

/-- A call of a method of a part upload, with the answers of the collaborators
it reaches. -/
inductive Call
  | Write (p : List Byte) (n : Int) (err : Option GoErr)
  | SetETag (etag : List Byte)
  | Commit (closeErr streamsErr : Option GoErr)
  | Abort (abortErr streamsErr : Option GoErr)
  | Info (part : Option Part)
  deriving DecidableEq, Repr

/-- What a call returned. -/
inductive Reply
  | Write (n : Int) (err : Option GoErr)
  | err (e : Option GoErr)
  | Info (part : Part)
  | panic (msg : GoString)
  deriving DecidableEq, Repr

/-- The error a call of `SetETag`, `Commit` or `Abort` returned. -/
def Reply.ofErr (r : Except GoString (Option GoErr)) : Reply :=
  match r with
  | .error p => .panic p
  | .ok e => .err e

/-- One call on a part upload: the upload afterwards, the reply, the events. -/
def PartUpload.call (quote : GoString → GoString) (upload : PartUpload) (c : Call) :
    PartUpload × Reply × List Event :=
  match c with
  | .Write p n err =>
    let s := upload.Write quote p n err
    (s.upload, (match s.result with
      | .error m => Reply.panic m
      | .ok (k, e) => Reply.Write k e), s.trace)
  | .SetETag t =>
    let s := upload.SetETag quote t
    (s.upload, Reply.ofErr s.result, s.trace)
  | .Commit closeErr streamsErr =>
    let s := upload.Commit quote closeErr streamsErr
    (s.upload, Reply.ofErr s.result, s.trace)
  | .Abort abortErr streamsErr =>
    let s := upload.Abort quote abortErr streamsErr
    (s.upload, Reply.ofErr s.result, s.trace)
  | .Info part =>
    let s := upload.Info part
    (s.upload, (match s.result with
      | .error m => Reply.panic m
      | .ok p => Reply.Info p), s.trace)

/-- A sequence of calls, one after the other (the methods that change the
flags hold the mutex of the upload): the upload afterwards, and the reply and
the events of every call. -/
def PartUpload.run (quote : GoString → GoString) :
    PartUpload → List Call → PartUpload × List (Reply × List Event)
  | upload, [] => (upload, [])
  | upload, c :: rest =>
    let s := upload.call quote c
    let r := PartUpload.run quote s.1 rest
    (r.1, s.2 :: r.2)

/-- The upload after a sequence of calls. -/
def PartUpload.after (quote : GoString → GoString) (upload : PartUpload) (calls : List Call) :
    PartUpload :=
  (PartUpload.run quote upload calls).1

/-- The replies of a sequence of calls. -/
def PartUpload.replies (quote : GoString → GoString) (upload : PartUpload) (calls : List Call) :
    List Reply :=
  (PartUpload.run quote upload calls).2.map Prod.fst

/-- A call of `Commit` or `Abort`. -/
def Call.isTerminal : Call → Bool
  | .Commit _ _ => true
  | .Abort _ _ => true
  | _ => false

/-- The reply is an error that matches `target` (`errors.Is`). -/
def Reply.matchesErr (r : Reply) (target : Sentinel) : Bool :=
  match r with
  | .err e => errorsIs e (some (.sentinel target))
  | _ => false

/-- A new part upload, as `UploadPart` builds it. -/
def PartUpload.new (bucket key : GoString) (partNumber : Nat) : PartUpload :=
  { bucket := bucket, key := key, part := { PartNumber := partNumber } }

end Uplink

namespace Uplink

/-! ## Auxiliary notions of the proofs -/

/-- Number of leading zeros of a digit sequence. -/
def leadZeros (l : List Nat) : Nat := (l.takeWhile (fun d => d == 0)).length

/-- The digit sequence of `v` in base `B`, most significant digit first, after
`z` zeros. -/
def posDigits (B z v : Nat) : List Nat := List.replicate z 0 ++ (Nat.digits B v).reverse

/-- The value in base `B` of a digit sequence, most significant digit first. -/
def posValue (B : Nat) (l : List Nat) : Nat := Nat.ofDigits B l.reverse

/-- The character of a base-58 digit: `alphabet[d]`. -/
def alphaAt (d : Nat) : Byte := base58.alphabet.getD d 0

/-- The error every operation returns for an upload ID it does not accept:
`packageError.Wrap(ErrUploadIDInvalid)`. -/
def uploadIDInvalid : Option GoErr :=
  classWrap (some packageError) (some (.sentinel .ErrUploadIDInvalid))

/-- The error of `UploadPart` for a part number out of range. -/
def partNumberRange : GoErr :=
  classNew packageError (ascii "partNumber should be less than max(int32)")

/-- A library for examples: quoting puts the string between double quotes,
serialization and encryption are the identity, and the random source yields
zeros. -/
def Library.sample : Library :=
  { quote := fun s => [34] ++ s ++ [34],
    StreamIDFromBytes := fun b => .ok b,
    marshalSerializableMeta := fun _ => .ok [],
    marshalStreamInfo := fun b => .ok b,
    marshalStreamMeta := fun b => .ok b,
    randRead := fun _ len => .ok (List.replicate len 0),
    EncryptKey := fun k _ _ _ => .ok k,
    Encrypt := fun d _ _ _ => .ok d }

/-- A project for examples: every collaborator succeeds, and `BeginObject`
answers with the stream ID `[7]`. -/
def Project.sample : Project :=
  { encryptionParameters := {},
    encryptPath := fun _ key => .ok key,
    deriveContentKey := fun _ _ => .ok (List.replicate 32 0),
    dialMetainfoClient := none,
    metainfoClose := none,
    BeginObject := fun _ => .ok [7],
    CommitObject := fun _ => none,
    BeginDeleteObject := fun _ => none,
    getStreamsStore := none }

/-- The operation ended by returning `zero` and an error that matches
`target`, and made no call to a collaborator. -/
def Outcome.rejected {α : Type} (o : Outcome α) (zero : α) (target : Sentinel) : Prop :=
  (∃ e, o.result = .ok (zero, e) ∧ errorsIs e (some (.sentinel target)) = true) ∧ o.trace = []

end Uplink

namespace Uplink

/-! ## The methods of `joinedErr` -/

/-- `joinedErr.Is`: `errors.Is(err.main, target) || errors.Is(err.alt, target)`. -/
def joinedErr.Is (main alt : GoErr) (target : Option GoErr) : Bool :=
  errorsIs (some main) target || errorsIs (some alt) target

/-- `joinedErr.As`: `errors.As` on `err.main`, and on `err.alt` when that
fails; the result is what is stored in the target. -/
def joinedErr.As (main alt : GoErr) (assignable : ErrKind → Bool) : Option GoErr :=
  match errorsAs (some main) assignable with
  | some x => some x
  | none =>
    match errorsAs (some alt) assignable with
    | some x => some x
    | none => none

/-! ## `private/metaclient/types.go` -/

namespace metaclient

/-- `storj.Object`, the fields the listing uses. -/
structure Object where
  Path : GoString := []
  IsPrefix : Bool := false
  deriving DecidableEq, Repr

/-- `ObjectList` is a list of objects (`storj.ObjectList`). -/
structure ObjectList where
  Bucket : GoString := []
  Prefix : GoString := []
  More : Bool := false
  Items : List Object := []
  deriving DecidableEq, Repr

/-- `ListDirection` specifies listing direction, an `int8`. -/
abbrev ListDirection := Int

/-- `Before` lists backwards from cursor, without cursor. -/
def Before : ListDirection := -2

/-- `Backward` lists backwards from cursor, including cursor. -/
def Backward : ListDirection := -1

/-- `Forward` lists forwards from cursor, including cursor. -/
def Forward : ListDirection := 1

/-- `After` lists forwards from cursor, without cursor. -/
def After : ListDirection := 2

/-- `ListOptions` lists objects. -/
structure ListOptions where
  Prefix : GoString := []
  Cursor : GoString := []
  Delimiter : Int := 0
  Recursive : Bool := false
  Direction : ListDirection := 0
  Limit : Int := 0
  IncludeCustomMetadata : Bool := false
  IncludeSystemMetadata : Bool := false
  Status : Int := 0
  deriving DecidableEq, Repr

/-- `ListOptions.NextPage` returns options for listing the next page. The
index expression `list.Items[len(list.Items)-1]` panics when the list is
empty: that is `.error`. -/
def ListOptions.NextPage (opts : ListOptions) (list : ObjectList) :
    Except GoString ListOptions :=
  if !list.More || list.Items.length == 0 then
    .ok {}
  else
    match list.Items.get? (list.Items.length - 1) with
    | none => .error (ascii "index out of range")
    | some last =>
      .ok { Prefix := opts.Prefix,
            Cursor := last.Path,
            Delimiter := opts.Delimiter,
            Recursive := opts.Recursive,
            Direction := After,
            Limit := opts.Limit }

end metaclient

/-! ## Notions of the statements on `convertKnownErrors` and `CommitUpload` -/

/-- The error `packageError.Wrap(fmt.Errorf("%w (%q)", v, s))`: the error
variable `v`, annotated with the quoted `s`, in the class of the package. -/
def annotated (quote : GoString → GoString) (v : Sentinel) (s : GoString) : GoErr :=
  .errorT (some .packageError)
    (.wrapError (v.text ++ (ascii " (" ++ (quote s ++ ascii ")"))) (.sentinel v))

/-- The table of the error classes, in the order of the rules: the class, the
error variable the result matches, and whether the result is annotated with
the bucket (else with the key). -/
def classTable : List (Class × Sentinel × Bool) :=
  [(.ErrNoBucket, .ErrBucketNameInvalid, true),
   (.ErrNoPath, .ErrObjectKeyInvalid, false),
   (.ErrBucketNotFound, .ErrBucketNotFound, true),
   (.ErrObjectNotFound, .ErrObjectNotFound, false),
   (.ErrMissingEncryptionBase, .ErrPermissionDenied, false),
   (.ErrMissingDecryptionBase, .ErrPermissionDenied, false)]

/-- The first row of the table whose class the error has. -/
def classRule (err : Option GoErr) : Option (Class × Sentinel × Bool) :=
  classTable.find? (fun row => row.1.Has err)

/-- The root message the status rules inspect: `errs.Unwrap(err).Error()`. -/
def rootMessage (e : GoErr) : GoString := (errsUnwrap e).Error

/-- No specific rule of `convertKnownErrors` applies to the error: it is not
end-of-stream, has none of the classes of the table, and is neither a
resource-exhausted status with a known suffix, nor (failing that status) a
not-found status with a known prefix, nor (failing both) a permission-denied
status. -/
def unmatched (e : GoErr) : Prop :=
  errorsIs (some e) (some (.sentinel .EOF)) = false
  ∧ classRule (some e) = none
  ∧ (IsRPC (some e) rpcstatus.ResourceExhausted = true →
      HasSuffix (rootMessage e) (ascii "Exceeded Usage Limit") = false
      ∧ HasSuffix (rootMessage e) (ascii "Too Many Requests") = false)
  ∧ (IsRPC (some e) rpcstatus.ResourceExhausted = false →
      IsRPC (some e) rpcstatus.NotFound = true →
      HasPrefix (rootMessage e) (ascii "bucket not found") = false
      ∧ HasPrefix (rootMessage e) (ascii "object not found") = false)
  ∧ (IsRPC (some e) rpcstatus.ResourceExhausted = false →
      IsRPC (some e) rpcstatus.NotFound = false →
      IsRPC (some e) rpcstatus.PermissionDenied = false)

/-- The stream ID of an upload ID the decoding step accepts; `none` when the
step rejects the upload ID or panics. -/
def acceptedUploadID (uploadID : GoString) : Option (List Byte) :=
  match decodeUploadID uploadID with
  | .ok (some decodedStreamID) => some decodedStreamID
  | _ => none

/-- The preparation of a commit as the design describes it: the arguments are
validated, the upload ID is decoded, the metadata is serialized, the content
key derived, the key and the nonce read from the random source (the reads
`randPos` and `randPos + 1`), the key and the stream info encrypted and the
envelope serialized. The result is what is to be sent, `none` when a step
fails. -/
def commitPayload (lib : Library) (project : Project) (randPos : Nat)
    (bucket key uploadID : GoString) (opts : Option CommitUploadOptions) :
    Option CommitObjectParams :=
  if bucket = [] ∨ key = [] ∨ uploadID = [] then none
  else do
    let decodedStreamID ← acceptedUploadID uploadID
    let id ← (lib.StreamIDFromBytes decodedStreamID).toOption
    let metadataBytes ← (lib.marshalSerializableMeta (opts.getD {}).CustomMetadata).toOption
    let streamInfo ← (lib.marshalStreamInfo metadataBytes).toOption
    let derivedKey ← (project.deriveContentKey bucket key).toOption
    let metadataKey ← (lib.randRead randPos keySize).toOption
    let encryptedKeyNonce ← (lib.randRead (randPos + 1) nonceSize).toOption
    let encryptedKey ← (lib.EncryptKey metadataKey project.encryptionParameters.CipherSuite
      derivedKey encryptedKeyNonce).toOption
    let encryptedStreamInfo ← (lib.Encrypt streamInfo project.encryptionParameters.CipherSuite
      metadataKey (List.replicate nonceSize 0)).toOption
    let streamMetaBytes ← (lib.marshalStreamMeta encryptedStreamInfo).toOption
    pure { StreamID := id,
           EncryptedMetadata := streamMetaBytes,
           EncryptedMetadataEncryptedKey := encryptedKey,
           EncryptedMetadataNonce := encryptedKeyNonce }

/-- The event is a read of the random source. -/
def Event.isRandRead : Event → Bool
  | .randRead _ _ => true
  | _ => false

/-- The event is a call of `CommitObject`. -/
def Event.isCommitObject : Event → Bool
  | .CommitObject _ => true
  | _ => false

/-- The number of reads of the random source in a trace. -/
def randReads (trace : List Event) : Nat := trace.countP Event.isRandRead

/-- A project for examples that lacks the key material: deriving the content
key fails with an error of class `ErrMissingEncryptionBase`. -/
def Project.noKey : Project :=
  { Project.sample with
    deriveContentKey := fun _ _ => .error (classNew .ErrMissingEncryptionBase (ascii "bucket/key")) }

/-- A library for examples whose random source answers the read number `pos`
with bytes of the value `pos`: reads at different positions below 256 differ. -/
def Library.counting : Library :=
  { Library.sample with
    randRead := fun pos len => .ok (List.replicate len ⟨pos % 256, Nat.mod_lt _ (by decide)⟩) }

end Uplink

namespace Uplink

/-! ## Notions of the statements on the part upload -/

/-- The calls a sequence of calls on a part upload makes to the sink, the
store and `cancel`, in order. -/
def PartUpload.events (quote : GoString → GoString) (upload : PartUpload) (calls : List Call) :
    List Event :=
  ((PartUpload.run quote upload calls).2.map Prod.snd).flatten

/-- Some answer of a collaborator to the call is an error that matches
`target` (`errors.Is`). -/
def Call.answersMatch (c : Call) (target : Sentinel) : Bool :=
  match c with
  | .Write _ _ err => errorsIs err (some (.sentinel target))
  | .Commit closeErr streamsErr =>
    errorsIs closeErr (some (.sentinel target)) || errorsIs streamsErr (some (.sentinel target))
  | .Abort abortErr streamsErr =>
    errorsIs abortErr (some (.sentinel target)) || errorsIs streamsErr (some (.sentinel target))
  | _ => false

end Uplink

namespace Uplink

/-! # Theorems -/

/-! ## Positional digits -/

theorem ofDigits_replicate_zero (B z : Nat) : Nat.ofDigits B (List.replicate z 0) = 0 := by
  induction z with
  | zero => simp
  | succ n ih => simp [List.replicate_succ, Nat.ofDigits_cons, ih]

theorem posDigits_posValue (B : Nat) (hB : 1 < B) (l : List Nat) (hl : ∀ d ∈ l, d < B) :
    posDigits B (leadZeros l) (posValue B l) = l := by
  induction l with
  | nil => simp [posDigits, leadZeros, posValue]
  | cons d t ih =>
    have ht : ∀ x ∈ t, x < B := fun x hx => hl x (List.mem_cons_of_mem _ hx)
    by_cases hd : d = 0
    · subst hd
      have h1 : leadZeros (0 :: t) = leadZeros t + 1 := by simp [leadZeros]
      have h2 : posValue B (0 :: t) = posValue B t := by
        simp [posValue, Nat.ofDigits_append]
      rw [h1, h2]
      have := ih ht
      simp only [posDigits] at this ⊢
      rw [List.replicate_succ, List.cons_append, this]
    · have h1 : leadZeros (d :: t) = 0 := by simp [leadZeros, hd]
      rw [h1]
      simp only [posDigits, posValue, List.replicate_zero, List.nil_append]
      rw [Nat.digits_ofDigits B hB]
      · simp
      · intro x hx
        simp only [List.reverse_cons, List.mem_append, List.mem_reverse, List.mem_singleton] at hx
        rcases hx with hx | hx
        · exact ht x hx
        · subst hx; exact hl x (List.mem_cons_self _ _)
      · intro _
        simp [hd]

theorem leadZeros_replicate_append (z : Nat) (r : List Nat) :
    leadZeros (List.replicate z 0 ++ r) = z + leadZeros r := by
  induction z with
  | zero => simp
  | succ n ih =>
    have h : leadZeros (0 :: (List.replicate n 0 ++ r)) = leadZeros (List.replicate n 0 ++ r) + 1 := by
      simp [leadZeros]
    rw [List.replicate_succ, List.cons_append, h, ih]
    omega

theorem leadZeros_digits_reverse (B v : Nat) : leadZeros (Nat.digits B v).reverse = 0 := by
  by_cases hv : v = 0
  · subst hv; simp [leadZeros]
  · have hne : Nat.digits B v ≠ [] := by
      simpa [Nat.digits_eq_nil_iff_eq_zero] using hv
    have hlast := Nat.getLast_digit_ne_zero B hv
    obtain ⟨init, last, hsplit⟩ : ∃ i a, Nat.digits B v = i ++ [a] :=
      ⟨_, _, (List.dropLast_append_getLast hne).symm⟩
    have : last ≠ 0 := by
      have h := hlast
      simp only [hsplit] at h
      simpa using h
    rw [hsplit]
    simp [leadZeros, this]

theorem leadZeros_posDigits (B z v : Nat) :
    leadZeros (posDigits B z v) = z := by
  simp [posDigits, leadZeros_replicate_append, leadZeros_digits_reverse]

theorem posValue_posDigits (B z v : Nat) : posValue B (posDigits B z v) = v := by
  simp [posValue, posDigits, Nat.ofDigits_append, ofDigits_replicate_zero, Nat.ofDigits_digits]

theorem posDigits_lt (B : Nat) (hB : 1 < B) (z v : Nat) : ∀ d ∈ posDigits B z v, d < B := by
  intro d hd
  simp only [posDigits, List.mem_append, List.mem_replicate, List.mem_reverse] at hd
  rcases hd with ⟨_, h⟩ | h
  · omega
  · exact Nat.digits_lt_base hB h

end Uplink

namespace Uplink

open base58

theorem b58_alphaAt : ∀ d : Fin 58, b58 (alphaAt d.val) = d.val := by decide

set_option maxRecDepth 100000 in
theorem b58_valid : ∀ c : Byte, b58 c ≠ 255 → (alphaAt (b58 c) = c ∧ b58 c < 58) := by decide

set_option maxRecDepth 100000 in
theorem b58_zero_iff : ∀ c : Byte, (b58 c = 0 ↔ c = alphabetIdx0) := by decide

theorem encodeLoop_eq (fuel : Nat) : ∀ (x : Nat) (acc : GoString), x ≤ fuel →
    encodeLoop fuel x acc = acc ++ (Nat.digits 58 x).map alphaAt := by
  induction fuel with
  | zero =>
    intro x acc hx
    have : x = 0 := by omega
    subst this
    simp [encodeLoop]
  | succ n ih =>
    intro x acc hx
    by_cases h0 : x = 0
    · subst h0; simp [encodeLoop]
    · have hpos : 0 < x := Nat.pos_of_ne_zero h0
      have hdiv : x / 58 ≤ n := by
        have : x / 58 < x := Nat.div_lt_self hpos (by norm_num)
        omega
      rw [encodeLoop, if_pos hpos, ih _ _ hdiv, Nat.digits_def' (by norm_num) hpos]
      simp [alphaAt]

theorem bigBytesLoop_eq (fuel : Nat) : ∀ (x : Nat) (acc : List Byte), x ≤ fuel →
    bigBytesLoop fuel x acc = (Nat.digits 256 x).reverse.map Fin.ofNat ++ acc := by
  induction fuel with
  | zero =>
    intro x acc hx
    have : x = 0 := by omega
    subst this
    simp [bigBytesLoop]
  | succ n ih =>
    intro x acc hx
    by_cases h0 : x = 0
    · subst h0; simp [bigBytesLoop]
    · have hpos : 0 < x := Nat.pos_of_ne_zero h0
      have hdiv : x / 256 ≤ n := by
        have : x / 256 < x := Nat.div_lt_self hpos (by norm_num)
        omega
      rw [bigBytesLoop, if_neg h0, ih _ _ hdiv, Nat.digits_def' (by norm_num) hpos]
      simp

theorem foldl_horner (B : Nat) (l : List Nat) : ∀ acc : Nat,
    l.foldl (fun a d => a * B + d) acc = acc * B ^ l.length + posValue B l := by
  induction l with
  | nil => intro acc; simp [posValue]
  | cons d t ih =>
    intro acc
    rw [List.foldl_cons, ih]
    simp only [posValue, List.reverse_cons, Nat.ofDigits_append, List.length_reverse,
      Nat.ofDigits_singleton, List.length_cons]
    ring

theorem bigSetBytes_eq (b : List Byte) : bigSetBytes b = posValue 256 (b.map Fin.val) := by
  have h := foldl_horner 256 (b.map Fin.val) 0
  simp only [zero_mul, zero_add] at h
  rw [← h, bigSetBytes, List.foldl_map]

theorem numLeading_zero_eq (b : List Byte) : numLeading 0 b = leadZeros (b.map Fin.val) := by
  induction b with
  | nil => rfl
  | cons c t ih =>
    simp only [numLeading, leadZeros, List.map_cons, List.takeWhile_cons] at ih ⊢
    by_cases hc : c = 0
    · subst hc; simp [ih]
    · have : c.val ≠ 0 := fun h => hc (Fin.ext h)
      simp [hc, this]

theorem numLeading_idx0_eq (s : GoString) :
    numLeading alphabetIdx0 s = leadZeros (s.map b58) := by
  induction s with
  | nil => rfl
  | cons c t ih =>
    simp only [numLeading, leadZeros, List.map_cons, List.takeWhile_cons] at ih ⊢
    by_cases hc : c = alphabetIdx0
    · subst hc
      have h0 : b58 alphabetIdx0 = 0 := by decide
      simp [h0, ih]
    · have : b58 c ≠ 0 := fun h => hc ((b58_zero_iff c).1 h)
      simp [hc, this]

set_option maxRecDepth 100000 in
theorem b58_high : ∀ c : Byte, 128 ≤ c.val → b58 c = 255 := by decide

theorem decodeRune_low (c : Byte) (rest : GoString) (hc : c.val < 128) :
    decodeRune (c :: rest) = (c.val, 1) := by
  simp [decodeRune, hc]

/-- A byte from `0x80` on starts a rune from `0x80` on. -/
theorem decodeRune_high (c : Byte) (rest : GoString) (hc : 128 ≤ c.val) :
    128 ≤ (decodeRune (c :: rest)).1 := by
  have h0 : ¬ c.val < 128 := by omega
  simp only [decodeRune, h0, if_false]
  repeat' split
  all_goals omega

theorem ofNat_val (c : Byte) : (Fin.ofNat c.val : Byte) = c :=
  Fin.ext (by simp [Fin.ofNat, Nat.mod_eq_of_lt c.isLt])

/-- On a piece of characters of the alphabet the inner loop of `Decode` reads
the digits one byte at a time. -/
theorem decodeChunk_valid (fuel : Nat) : ∀ (s : GoString) (total : Nat), s.length ≤ fuel →
    (∀ c ∈ s, b58 c ≠ 255) →
    decodeChunk fuel s total = .ok (some ((s.map b58).foldl (fun a d => a * 58 + d) total)) := by
  induction fuel with
  | zero =>
    intro s total hlen _
    have : s = [] := List.length_eq_zero.1 (by omega)
    subst this
    rfl
  | succ n ih =>
    intro s total hlen hs
    cases s with
    | nil => rfl
    | cons c t =>
      have hc : b58 c ≠ 255 := hs c (List.mem_cons_self _ _)
      have hlow : c.val < 128 := by
        by_contra hge
        exact hc (b58_high c (by omega))
      have h256 : ¬ 256 ≤ c.val := by omega
      simp only [decodeChunk, decodeRune_low c t hlow, List.cons_ne_nil, if_false, h256,
        ofNat_val, hc, List.drop_succ_cons, List.drop_zero]
      rw [ih t _ (by simpa using hlen) (fun x hx => hs x (List.mem_cons_of_mem _ hx))]
      rfl

/-- The inner loop of `Decode` ends with a number only on characters of the
alphabet. -/
theorem decodeChunk_some (fuel : Nat) : ∀ (s : GoString) (total r : Nat), s.length ≤ fuel →
    decodeChunk fuel s total = .ok (some r) → ∀ c ∈ s, b58 c ≠ 255 := by
  induction fuel with
  | zero =>
    intro s total r hlen _ c hc
    have : s = [] := List.length_eq_zero.1 (by omega)
    subst this
    simp at hc
  | succ n ih =>
    intro s total r hlen h
    cases s with
    | nil => intro c hc; simp at hc
    | cons c t =>
      by_cases hlow : c.val < 128
      · have h256 : ¬ 256 ≤ c.val := by omega
        simp only [decodeChunk, decodeRune_low c t hlow, List.cons_ne_nil, if_false, h256,
          ofNat_val, List.drop_succ_cons, List.drop_zero] at h
        by_cases hc : b58 c = 255
        · rw [if_pos hc] at h
          exact absurd h (by simp)
        · rw [if_neg hc] at h
          have hrest := ih t _ r (by simpa using hlen) h
          intro x hx
          rcases List.mem_cons.1 hx with rfl | hx
          · exact hc
          · exact hrest x hx
      · have hhigh := decodeRune_high c t (by omega)
        simp only [decodeChunk, List.cons_ne_nil, if_false] at h
        by_cases h256 : 256 ≤ (decodeRune (c :: t)).1
        · rw [if_pos h256] at h
          exact absurd h (by simp)
        · rw [if_neg h256] at h
          have hv : ((Fin.ofNat (decodeRune (c :: t)).1 : Byte)).val = (decodeRune (c :: t)).1 := by
            simp [Fin.ofNat, Nat.mod_eq_of_lt (by omega : (decodeRune (c :: t)).1 < 256)]
          have h255 := b58_high (Fin.ofNat (decodeRune (c :: t)).1) (by rw [hv]; exact hhigh)
          rw [if_pos h255] at h
          exact absurd h (by simp)

/-- On characters of the alphabet the loops of `Decode` compute the number the
digits denote. -/
theorem decodeChunks_valid (fuel : Nat) : ∀ (t : GoString) (answer : Nat), t.length ≤ fuel →
    (∀ c ∈ t, b58 c ≠ 255) →
    decodeChunks fuel t answer
      = .ok (some ((t.map b58).foldl (fun a d => a * 58 + d) answer)) := by
  induction fuel with
  | zero =>
    intro t answer hlen _
    have : t = [] := List.length_eq_zero.1 (by omega)
    subst this
    rfl
  | succ k ih =>
    intro t answer hlen hs
    by_cases hpos : t.length > 0
    · simp only [decodeChunks, if_pos hpos]
      generalize hn : (if t.length > 10 then 10 else t.length) = n
      have hn1 : 1 ≤ n := by rw [← hn]; split <;> omega
      have hnle : n ≤ t.length := by rw [← hn]; split <;> omega
      have htake : ∀ c ∈ t.take n, b58 c ≠ 255 := fun c hc => hs c (List.mem_of_mem_take hc)
      have hdrop : ∀ c ∈ t.drop n, b58 c ≠ 255 := fun c hc => hs c (List.mem_of_mem_drop hc)
      have hlt : (t.take n).length = n := by simp [hnle]
      rw [decodeChunk_valid n (t.take n) 0 (by rw [hlt]) htake]
      simp only
      rw [ih (t.drop n) _ (by simp; omega) hdrop]
      have hsplit : t.map b58 = (t.take n).map b58 ++ (t.drop n).map b58 := by
        rw [← List.map_append, List.take_append_drop]
      have h1 := foldl_horner 58 ((t.take n).map b58) 0
      have h2 := foldl_horner 58 ((t.take n).map b58) answer
      simp only [zero_mul, zero_add, List.length_map, hlt] at h1 h2
      rw [hsplit, List.foldl_append, h1, h2]
    · have : t = [] := List.length_eq_zero.1 (by omega)
      subst this
      simp [decodeChunks]

/-- The loops of `Decode` end with a number only on characters of the
alphabet. -/
theorem decodeChunks_some (fuel : Nat) : ∀ (t : GoString) (answer r : Nat), t.length ≤ fuel →
    decodeChunks fuel t answer = .ok (some r) → ∀ c ∈ t, b58 c ≠ 255 := by
  induction fuel with
  | zero =>
    intro t answer r hlen _ c hc
    have : t = [] := List.length_eq_zero.1 (by omega)
    subst this
    simp at hc
  | succ k ih =>
    intro t answer r hlen h
    by_cases hpos : t.length > 0
    · simp only [decodeChunks, if_pos hpos] at h
      generalize hn : (if t.length > 10 then 10 else t.length) = n at h
      have hn1 : 1 ≤ n := by rw [← hn]; split <;> omega
      have hnle : n ≤ t.length := by rw [← hn]; split <;> omega
      have hlt : (t.take n).length = n := by simp [hnle]
      cases hch : decodeChunk n (t.take n) 0 with
      | error p => rw [hch] at h; exact absurd h (by simp)
      | ok o =>
        cases o with
        | none => rw [hch] at h; exact absurd h (by simp)
        | some total =>
          rw [hch] at h
          simp only at h
          have htake := decodeChunk_some n (t.take n) 0 total (by rw [hlt]) hch
          have hdrop := ih (t.drop n) _ r (by simp; omega) h
          intro c hc
          rw [← List.take_append_drop n t] at hc
          rcases List.mem_append.1 hc with hc | hc
          · exact htake c hc
          · exact hdrop c hc
    · have : t = [] := List.length_eq_zero.1 (by omega)
      subst this
      intro c hc
      simp at hc

theorem Encode_eq (b : List Byte) :
    Encode b = (posDigits 58 (leadZeros (b.map Fin.val)) (posValue 256 (b.map Fin.val))).map alphaAt := by
  have h0 : alphaAt 0 = alphabetIdx0 := by decide
  simp only [Encode, encodeLoop_eq _ _ _ (le_refl _), List.nil_append, List.reverse_append,
    List.reverse_replicate, posDigits, List.map_append, List.map_replicate, h0,
    numLeading_zero_eq, bigSetBytes_eq, List.map_reverse]

theorem Decode_eq (s : GoString) (hs : ∀ c ∈ s, b58 c ≠ 255) :
    Decode s
      = .ok ((posDigits 256 (leadZeros (s.map b58)) (posValue 58 (s.map b58))).map Fin.ofNat) := by
  have hz : (Fin.ofNat 0 : Byte) = 0 := rfl
  have hv := foldl_horner 58 (s.map b58) 0
  simp only [zero_mul, zero_add] at hv
  simp only [Decode, decodeChunks_valid s.length s 0 (le_refl _) hs, hv, bigBytes,
    bigBytesLoop_eq _ _ _ (le_refl _), List.append_nil, posDigits, List.map_append,
    List.map_replicate, hz, numLeading_idx0_eq]

/-- What `Decode` returns is empty unless every byte is a character of the
alphabet. -/
theorem Decode_valid_of_ne_nil (s : GoString) (d : List Byte) (h : Decode s = .ok d)
    (hd : d ≠ []) : ∀ c ∈ s, b58 c ≠ 255 := by
  simp only [Decode] at h
  cases hch : decodeChunks s.length s 0 with
  | error p => rw [hch] at h; exact absurd h (by simp)
  | ok o =>
    cases o with
    | none =>
      rw [hch] at h
      simp only [Except.ok.injEq] at h
      exact absurd h.symm hd
    | some answer => exact decodeChunks_some s.length s 0 answer (le_refl _) hch

end Uplink

namespace Uplink

theorem posDigits_map_cancel {α : Type} (f : Nat → α) (g : α → Nat) (B z v : Nat) (hB : 1 < B)
    (hfg : ∀ d, d < B → g (f d) = d) :
    ((posDigits B z v).map f).map g = posDigits B z v := by
  rw [List.map_map]
  conv_rhs => rw [← List.map_id (posDigits B z v)]
  apply List.map_congr_left
  intro d hd
  simpa using hfg d (posDigits_lt B hB z v d hd)

open base58 in
theorem Decode_Encode (b : List Byte) : Decode (Encode b) = .ok b := by
  have hmap : (Encode b).map b58 =
      posDigits 58 (leadZeros (b.map Fin.val)) (posValue 256 (b.map Fin.val)) := by
    rw [Encode_eq]
    exact posDigits_map_cancel alphaAt b58 58 _ _ (by norm_num)
      (fun d hd => b58_alphaAt ⟨d, hd⟩)
  have hvalid : ∀ c ∈ Encode b, b58 c ≠ 255 := by
    intro c hc
    have hmem : b58 c ∈ (Encode b).map b58 := List.mem_map_of_mem _ hc
    rw [hmap] at hmem
    have := posDigits_lt 58 (by norm_num) _ _ _ hmem
    omega
  rw [Decode_eq _ hvalid, hmap, leadZeros_posDigits, posValue_posDigits,
    posDigits_posValue 256 (by norm_num)]
  · congr 1
    rw [List.map_map]
    conv_rhs => rw [← List.map_id b]
    apply List.map_congr_left
    intro c _
    exact Fin.ext (by simp [Fin.ofNat, Nat.mod_eq_of_lt c.isLt])
  · intro d hd
    obtain ⟨c, _, rfl⟩ := List.mem_map.1 hd
    exact c.isLt

open base58 in
/-- What `Encode` writes are characters of the alphabet, bytes below `0x80`. -/
theorem Encode_low (b : List Byte) : ∀ c ∈ Encode b, b58 c ≠ 255 ∧ c.val < 128 := by
  have hmap : (Encode b).map b58 =
      posDigits 58 (leadZeros (b.map Fin.val)) (posValue 256 (b.map Fin.val)) := by
    rw [Encode_eq]
    exact posDigits_map_cancel alphaAt b58 58 _ _ (by norm_num)
      (fun d hd => b58_alphaAt ⟨d, hd⟩)
  intro c hc
  have hmem : b58 c ∈ (Encode b).map b58 := List.mem_map_of_mem _ hc
  rw [hmap] at hmem
  have hlt := posDigits_lt 58 (by norm_num) _ _ _ hmem
  have hne : b58 c ≠ 255 := by omega
  refine ⟨hne, ?_⟩
  by_contra hge
  exact hne (b58_high c (by omega))

open base58 in
theorem Encode_Decode (s : GoString) (d : List Byte) (hs : ∀ c ∈ s, b58 c ≠ 255)
    (hd : Decode s = .ok d) : Encode d = s := by
  rw [Decode_eq _ hs] at hd
  have hd2 := (Except.ok.inj hd).symm
  have hmap : d.map Fin.val =
      posDigits 256 (leadZeros (s.map b58)) (posValue 58 (s.map b58)) := by
    rw [hd2]
    exact posDigits_map_cancel Fin.ofNat Fin.val 256 _ _ (by norm_num)
      (fun d hd => by simp [Fin.ofNat, Nat.mod_eq_of_lt hd])
  rw [Encode_eq, hmap, leadZeros_posDigits, posValue_posDigits,
    posDigits_posValue 58 (by norm_num)]
  · rw [List.map_map]
    conv_rhs => rw [← List.map_id s]
    apply List.map_congr_left
    intro c hc
    exact (b58_valid c (hs c hc)).1
  · intro d hd
    obtain ⟨c, hc, rfl⟩ := List.mem_map.1 hd
    exact (b58_valid c (hs c hc)).2

open base58 in
theorem checksum_length (b : List Byte) : (checksum b).length = 4 := rfl

open base58 in
theorem CheckDecode_CheckEncode (h : List Byte) (v : Byte) :
    CheckDecode (CheckEncode h v) = .ok (.ok (h, v)) := by
  have hlen := checksum_length (v :: h)
  have h4 : (v :: h ++ checksum (v :: h)).length - 4 = (v :: h).length := by
    simp [hlen]
  simp only [CheckDecode, CheckEncode, Decode_Encode]
  rw [h4, List.take_left, List.drop_left]
  simp [hlen]

open base58 in
/-- A string that `CheckDecode` accepts is the `CheckEncode` of what it returns. -/
theorem CheckEncode_of_CheckDecode (s : GoString) (p : List Byte) (v : Byte)
    (h : CheckDecode s = .ok (.ok (p, v))) : CheckEncode p v = s := by
  simp only [CheckDecode] at h
  cases hdec : Decode s with
  | error e => rw [hdec] at h; exact absurd h (by simp)
  | ok d =>
    rw [hdec] at h
    simp only at h
    split at h
    · exact absurd h (by simp)
    · rename_i hlen
      split at h
      · exact absurd h (by simp)
      · rename_i hck
        simp only [ne_eq, Decidable.not_not] at hck
        simp only [Except.ok.injEq, Prod.mk.injEq] at h
        obtain ⟨hp, hv⟩ := h
        have hne : d ≠ [] := by
          intro h0; simp [h0] at hlen
        have hs := Decode_valid_of_ne_nil s d hdec hne
        have hED := Encode_Decode s d hs hdec
        obtain ⟨d0, dt, hd⟩ := List.exists_cons_of_ne_nil hne
        have hv0 : d0 = v := by simpa [hd] using hv
        have htake : d.take (d.length - 4) = v :: p := by
          rw [← hp, ← hv0]
          have hlen4 : 0 < d.length - 4 := by omega
          rw [hd] at hlen4 ⊢
          cases hn : (d0 :: dt).length - 4 with
          | zero => omega
          | succ n => simp
        rw [← hED]
        simp only [CheckEncode]
        congr 1
        rw [← htake, hck]
        exact List.take_append_drop _ _

end Uplink

namespace Uplink

/-! ## Errors the operations build -/

theorem errwrapf_wq (quote : GoString → GoString) (v : Sentinel) (s : GoString) :
    errwrapf quote (ascii "%w (%q)") (.sentinel v) [.str s] =
      some (.errorT (some .packageError)
        (.wrapError (v.text ++ (ascii " (" ++ (quote s ++ ascii ")"))) (.sentinel v))) := by
  rfl

theorem errwrapf_w_lit (quote : GoString → GoString) (v : Sentinel) (format : GoString)
    (hf : ∃ rest, format = 37 :: 119 :: rest) :
    ∃ msg, errwrapf quote format (.sentinel v) [] =
      some (.errorT (some .packageError) (.wrapError msg (.sentinel v))) := by
  obtain ⟨rest, rfl⟩ := hf
  exact ⟨fmtSprintf quote (37 :: 119 :: rest) [.err (.sentinel v)], rfl⟩

theorem errorsIs_wrapped_sentinel (msg : GoString) (v : Sentinel) :
    errorsIs (some (.errorT (some .packageError) (.wrapError msg (.sentinel v))))
      (some (.sentinel v)) = true := by
  simp [errorsIs, errorsIsChain, GoErr.comparable]

theorem errorsIs_errwrapf_wq (quote : GoString → GoString) (v : Sentinel) (s : GoString) :
    errorsIs (errwrapf quote (ascii "%w (%q)") (.sentinel v) [.str s]) (some (.sentinel v))
      = true := by
  rw [errwrapf_wq]; exact errorsIs_wrapped_sentinel _ _

theorem uploadIDInvalid_eq :
    uploadIDInvalid = some (.errorT (some .packageError) (.sentinel .ErrUploadIDInvalid)) := rfl

theorem errorsIs_uploadIDInvalid :
    errorsIs uploadIDInvalid (some (.sentinel .ErrUploadIDInvalid)) = true := by
  simp [uploadIDInvalid_eq, errorsIs, errorsIsChain, GoErr.comparable]

/-! ## The upload identifier -/

theorem decodeUploadID_nil : decodeUploadID [] = .ok none := rfl

theorem CheckEncode_ne_nil (h : List Byte) (v : Byte) : base58.CheckEncode h v ≠ [] := by
  intro h0
  have hd := CheckDecode_CheckEncode h v
  rw [h0] at hd
  have hnil : base58.CheckDecode [] = .ok (.error .ErrInvalidFormat) := rfl
  rw [hnil] at hd
  exact absurd hd (by simp)

theorem decodeUploadID_CheckEncode (h : List Byte) (v : Byte) :
    decodeUploadID (base58.CheckEncode h v) = .ok (if v ≠ 1 then none else some h) := by
  simp [decodeUploadID, CheckDecode_CheckEncode]

theorem decodeUploadID_some (s : GoString) (p : List Byte)
    (h : decodeUploadID s = .ok (some p)) : base58.CheckEncode p 1 = s := by
  unfold decodeUploadID at h
  cases hd : base58.CheckDecode s with
  | error e => rw [hd] at h; exact absurd h (by simp)
  | ok r =>
    cases r with
    | error e => rw [hd] at h; exact absurd h (by simp)
    | ok pv =>
      obtain ⟨d, v⟩ := pv
      rw [hd] at h
      simp only [Except.ok.injEq] at h
      by_cases hv : v = 1
      · subst hv
        simp only [ne_eq, not_true_eq_false, if_false, Option.some.injEq] at h
        subst h
        exact CheckEncode_of_CheckDecode s _ _ hd
      · simp [hv] at h

/-- The decoding step on a string that is no encoded upload ID: it rejects the
string, or `CheckDecode` panics. -/
theorem decodeUploadID_of_not_encoded (s : GoString)
    (hs : ∀ h : List Byte, s ≠ base58.CheckEncode h 1) :
    decodeUploadID s = .ok none ∨ ∃ panic, decodeUploadID s = .error panic := by
  cases hd : decodeUploadID s with
  | error e => exact Or.inr ⟨e, rfl⟩
  | ok o =>
    cases o with
    | none => exact Or.inl rfl
    | some p => exact absurd (decodeUploadID_some s p hd).symm (hs p)

/-- What the four operations with an upload ID do when the decoding step
rejects it, for a non-empty bucket and key. -/
theorem rejected_of_decode_none (lib : Library) (project : Project) (randPos : Nat)
    (bucket key s : GoString) (opts : Option CommitUploadOptions)
    (options : Option ListUploadPartsOptions) (partNumber : Nat)
    (hb : bucket ≠ []) (hk : key ≠ []) (hp : partNumber < MaxInt32)
    (hd : decodeUploadID s = .ok none) :
    (CommitUpload lib project randPos bucket key s opts).result = .ok (none, uploadIDInvalid)
    ∧ (CommitUpload lib project randPos bucket key s opts).trace = []
    ∧ (UploadPart lib project bucket key s partNumber).result = .ok (none, uploadIDInvalid)
    ∧ (UploadPart lib project bucket key s partNumber).trace = []
    ∧ (AbortUpload lib project bucket key s).result = .ok ((), uploadIDInvalid)
    ∧ (AbortUpload lib project bucket key s).trace = []
    ∧ (ListUploadParts lib bucket key s options).map PartIterator.err = .ok uploadIDInvalid := by
  have hp2 : ¬ partNumber ≥ MaxInt32 := by omega
  by_cases hs : s = []
  · subst hs
    simp [CommitUpload, UploadPart, AbortUpload, ListUploadParts, hb, hk, uploadIDInvalid,
      Except.map]
  · simp [CommitUpload, UploadPart, AbortUpload, ListUploadParts, hb, hk, hs, hd, hp2,
      uploadIDInvalid, Except.map]

/-- What the four operations with an upload ID do when `CheckDecode` panics,
for a non-empty bucket and key: they panic, before any call to a
collaborator. -/
theorem panic_of_decode_error (lib : Library) (project : Project) (randPos : Nat)
    (bucket key s : GoString) (opts : Option CommitUploadOptions)
    (options : Option ListUploadPartsOptions) (partNumber : Nat) (panic : GoString)
    (hb : bucket ≠ []) (hk : key ≠ []) (hp : partNumber < MaxInt32)
    (hd : decodeUploadID s = .error panic) :
    CommitUpload lib project randPos bucket key s opts = { result := .error panic }
    ∧ UploadPart lib project bucket key s partNumber = { result := .error panic }
    ∧ AbortUpload lib project bucket key s = { result := .error panic }
    ∧ ListUploadParts lib bucket key s options = .error panic := by
  have hp2 : ¬ partNumber ≥ MaxInt32 := by omega
  have hs : s ≠ [] := by
    intro h0
    rw [h0, decodeUploadID_nil] at hd
    exact absurd hd (by simp)
  simp [CommitUpload, UploadPart, AbortUpload, ListUploadParts, hb, hk, hs, hd, hp2]

end Uplink

namespace Uplink

/-! ## The claims on the upload identifier -/

/-- C1. Upload-ID round trip: for every raw stream handle `h`, the empty one
included, the identifier `BeginUpload` returns when the service answers with
`h`, `CheckEncode(h, 1)`, is a non-empty string, the decoding step of
`CommitUpload`, `UploadPart`, `AbortUpload` and `ListUploadParts` accepts it,
and the bytes recovered are exactly `h`. -/
theorem upload_id_round_trip (lib : Library) (project : Project) (h : List Byte)
    (bucket key encPath : GoString) (options : Option UploadOptions)
    (listOptions : Option ListUploadPartsOptions)
    (hb : bucket ≠ []) (hk : key ≠ [])
    (hpath : project.encryptPath bucket key = .ok encPath)
    (hdial : project.dialMetainfoClient = none)
    (hbegin : ∀ params, project.BeginObject params = .ok h) :
    (∃ info err, (BeginUpload lib project bucket key options).result = .ok (info, err)
        ∧ info.UploadID = base58.CheckEncode h 1)
    ∧ base58.CheckEncode h 1 ≠ []
    ∧ base58.CheckDecode (base58.CheckEncode h 1) = .ok (.ok (h, 1))
    ∧ decodeUploadID (base58.CheckEncode h 1) = .ok (some h)
    ∧ ∃ parts, ListUploadParts lib bucket key (base58.CheckEncode h 1) listOptions = .ok parts
        ∧ parts.err = none ∧ parts.options.StreamID = h := by
  refine ⟨?_, CheckEncode_ne_nil h 1, CheckDecode_CheckEncode h 1, ?_, ?_⟩
  · simp [BeginUpload, hb, hk, hpath, hdial, hbegin, Outcome.deferClose]
  · simp [decodeUploadID_CheckEncode]
  · simp [ListUploadParts, hb, hk, CheckEncode_ne_nil, decodeUploadID_CheckEncode]

theorem upload_id_round_trip_witness :
    (∃ info err, (BeginUpload Library.sample Project.sample (ascii "bucket") (ascii "key")
        none).result = .ok (info, err) ∧ info.UploadID = base58.CheckEncode [7] 1)
    ∧ decodeUploadID (base58.CheckEncode [7] 1) = .ok (some [7]) :=
  have h := upload_id_round_trip Library.sample Project.sample [7] (ascii "bucket") (ascii "key")
    (ascii "key") none none (by decide) (by decide) rfl rfl (fun _ => rfl)
  ⟨h.1, h.2.2.2.1⟩

/-- C2. Version guard: for every raw handle `h` and every version byte `v`
other than 1, `CommitUpload`, `UploadPart`, `AbortUpload` and `ListUploadParts`
reject the string `CheckEncode(h, v)`, whose checksum is valid, with an error
that matches `ErrUploadIDInvalid`, for a non-empty bucket and key and a part
number in range. -/
theorem version_guard (lib : Library) (project : Project) (randPos : Nat)
    (bucket key : GoString) (opts : Option CommitUploadOptions)
    (options : Option ListUploadPartsOptions) (partNumber : Nat) (h : List Byte) (v : Byte)
    (hv : v ≠ 1) (hb : bucket ≠ []) (hk : key ≠ []) (hp : partNumber < MaxInt32) :
    base58.CheckDecode (base58.CheckEncode h v) = .ok (.ok (h, v))
    ∧ (CommitUpload lib project randPos bucket key (base58.CheckEncode h v) opts).rejected
        none .ErrUploadIDInvalid
    ∧ (UploadPart lib project bucket key (base58.CheckEncode h v) partNumber).rejected
        none .ErrUploadIDInvalid
    ∧ (AbortUpload lib project bucket key (base58.CheckEncode h v)).rejected
        () .ErrUploadIDInvalid
    ∧ ∃ parts, ListUploadParts lib bucket key (base58.CheckEncode h v) options = .ok parts
        ∧ errorsIs parts.err (some (.sentinel .ErrUploadIDInvalid)) = true := by
  have hd : decodeUploadID (base58.CheckEncode h v) = .ok none := by
    simp [decodeUploadID_CheckEncode, hv]
  obtain ⟨h1, h2, h3, h4, h5, h6, h7⟩ :=
    rejected_of_decode_none lib project randPos bucket key _ opts options partNumber hb hk hp hd
  refine ⟨CheckDecode_CheckEncode h v, ⟨⟨_, h1, errorsIs_uploadIDInvalid⟩, h2⟩,
    ⟨⟨_, h3, errorsIs_uploadIDInvalid⟩, h4⟩, ⟨⟨_, h5, errorsIs_uploadIDInvalid⟩, h6⟩, ?_⟩
  cases hl : ListUploadParts lib bucket key (base58.CheckEncode h v) options with
  | error e => rw [hl] at h7; exact absurd h7 (by simp [Except.map])
  | ok parts =>
    rw [hl] at h7
    simp only [Except.map, Except.ok.injEq] at h7
    exact ⟨parts, rfl, by rw [h7]; exact errorsIs_uploadIDInvalid⟩

theorem version_guard_witness :
    (0 : Byte) ≠ 1 ∧ ascii "bucket" ≠ [] ∧ ascii "key" ≠ [] ∧ 5 < MaxInt32
    ∧ (CommitUpload Library.sample Project.sample 0 (ascii "bucket") (ascii "key")
        (base58.CheckEncode [1, 2, 3] 0) none).rejected none .ErrUploadIDInvalid :=
  ⟨by decide, by decide, by decide, by decide,
    (version_guard Library.sample Project.sample 0 (ascii "bucket") (ascii "key") none none 5
      [1, 2, 3] 0 (by decide) (by decide) (by decide) (by decide)).2.1⟩

/-- A string of bytes below `0x80` does not make the inner loop of `Decode`
panic. -/
theorem decodeChunk_low (fuel : Nat) : ∀ (s : GoString) (total : Nat) (panic : GoString),
    (∀ c ∈ s, c.val < 128) → base58.decodeChunk fuel s total ≠ .error panic := by
  induction fuel with
  | zero => intro s total panic _; simp [base58.decodeChunk]
  | succ n ih =>
    intro s total panic hs
    cases s with
    | nil => simp [base58.decodeChunk]
    | cons c t =>
      have hlow : c.val < 128 := hs c (List.mem_cons_self _ _)
      have h256 : ¬ 256 ≤ c.val := by omega
      simp only [base58.decodeChunk, decodeRune_low c t hlow, List.cons_ne_nil, if_false, h256,
        ofNat_val, List.drop_succ_cons, List.drop_zero]
      split
      · simp
      · exact ih t _ panic (fun x hx => hs x (List.mem_cons_of_mem _ hx))

theorem decodeChunks_low (fuel : Nat) : ∀ (t : GoString) (answer : Nat) (panic : GoString),
    (∀ c ∈ t, c.val < 128) → base58.decodeChunks fuel t answer ≠ .error panic := by
  induction fuel with
  | zero => intro t answer panic _; simp [base58.decodeChunks]
  | succ k ih =>
    intro t answer panic hs
    simp only [base58.decodeChunks]
    split
    · generalize (if t.length > 10 then 10 else t.length) = n
      cases hch : base58.decodeChunk n (t.take n) 0 with
      | error p =>
        exact absurd hch (decodeChunk_low n _ 0 p (fun c hc => hs c (List.mem_of_mem_take hc)))
      | ok o =>
        cases o with
        | none => simp
        | some total => exact ih _ _ panic (fun c hc => hs c (List.mem_of_mem_drop hc))
    · simp

/-- The decoding step does not panic on a string of bytes below `0x80`. -/
theorem decodeUploadID_low (s : GoString) (panic : GoString) (hs : ∀ c ∈ s, c.val < 128) :
    decodeUploadID s ≠ .error panic := by
  have hdec : ∀ p, base58.Decode s ≠ .error p := by
    intro p
    simp only [base58.Decode]
    cases hch : base58.decodeChunks s.length s 0 with
    | error q => exact absurd hch (decodeChunks_low _ _ _ q hs)
    | ok o => cases o <;> simp
  simp only [decodeUploadID, base58.CheckDecode]
  cases hd : base58.Decode s with
  | error p => exact absurd hd (hdec p)
  | ok d =>
    simp only
    split <;> rename_i heq
    · split at heq
      · exact absurd heq (by simp)
      · split at heq <;> exact absurd heq (by simp)
    · simp
    · simp

/-- C3, on the code: for every string `s` that is not `CheckEncode(h, 1)` for
any byte string `h`, the decoding step of `CommitUpload`, `UploadPart`,
`AbortUpload` and `ListUploadParts` either rejects `s`, and then the error of
each operation is the one value `packageError.Wrap(ErrUploadIDInvalid)`, which
matches `ErrUploadIDInvalid`, whatever made the decoding fail; or
`base58.CheckDecode` panics, and then each of the four operations panics and
returns no error. The first is the case of every string whose bytes are below
`0x80`; the second occurs, as for the one-byte string `0xFF`. -/
theorem only_encoder_output_decodes (lib : Library) (project : Project) (randPos : Nat)
    (bucket key s : GoString) (opts : Option CommitUploadOptions)
    (options : Option ListUploadPartsOptions) (partNumber : Nat)
    (hs : ∀ h : List Byte, s ≠ base58.CheckEncode h 1)
    (hb : bucket ≠ []) (hk : key ≠ []) (hp : partNumber < MaxInt32) :
    ((decodeUploadID s = .ok none
        ∧ (CommitUpload lib project randPos bucket key s opts).result
            = .ok (none, uploadIDInvalid)
        ∧ (UploadPart lib project bucket key s partNumber).result = .ok (none, uploadIDInvalid)
        ∧ (AbortUpload lib project bucket key s).result = .ok ((), uploadIDInvalid)
        ∧ (ListUploadParts lib bucket key s options).map PartIterator.err = .ok uploadIDInvalid)
      ∨ (∃ panic, decodeUploadID s = .error panic
        ∧ (CommitUpload lib project randPos bucket key s opts).result = .error panic
        ∧ (UploadPart lib project bucket key s partNumber).result = .error panic
        ∧ (AbortUpload lib project bucket key s).result = .error panic
        ∧ ListUploadParts lib bucket key s options = .error panic))
    ∧ ((∀ c ∈ s, c.val < 128) → decodeUploadID s = .ok none)
    ∧ uploadIDInvalid = some (.errorT (some packageError) (.sentinel .ErrUploadIDInvalid))
    ∧ errorsIs uploadIDInvalid (some (.sentinel .ErrUploadIDInvalid)) = true := by
  refine ⟨?_, ?_, rfl, errorsIs_uploadIDInvalid⟩
  · rcases decodeUploadID_of_not_encoded s hs with hd | ⟨panic, hd⟩
    · left
      obtain ⟨h1, _, h3, _, h5, _, h7⟩ :=
        rejected_of_decode_none lib project randPos bucket key s opts options partNumber hb hk
          hp hd
      exact ⟨hd, h1, h3, h5, h7⟩
    · right
      obtain ⟨h1, h2, h3, h4⟩ :=
        panic_of_decode_error lib project randPos bucket key s opts options partNumber panic hb
          hk hp hd
      exact ⟨panic, hd, by rw [h1], by rw [h2], by rw [h3], h4⟩
  · intro hlow
    rcases decodeUploadID_of_not_encoded s hs with hd | ⟨panic, hd⟩
    · exact hd
    · exact absurd hd (decodeUploadID_low s panic hlow)

theorem only_encoder_output_decodes_witness :
    (∀ h : List Byte, ([255] : GoString) ≠ base58.CheckEncode h 1)
    ∧ ascii "bucket" ≠ [] ∧ ascii "key" ≠ [] ∧ 5 < MaxInt32
    ∧ (AbortUpload Library.sample Project.sample (ascii "bucket") (ascii "key")
        [255]).result = .error (ascii "index out of range")
    ∧ decodeUploadID (ascii "0") = .ok none := by
  have hpanic : decodeUploadID [255] = .error (ascii "index out of range") := rfl
  have hs : ∀ h : List Byte, ([255] : GoString) ≠ base58.CheckEncode h 1 := fun h heq => by
    have hd : decodeUploadID (base58.CheckEncode h 1) = .ok (some h) := by
      simp [decodeUploadID_CheckEncode]
    rw [← heq, hpanic] at hd
    exact absurd hd (by simp)
  have hs0 : ∀ h : List Byte, ascii "0" ≠ base58.CheckEncode h 1 := fun h heq => by
    have hd : decodeUploadID (base58.CheckEncode h 1) = .ok (some h) := by
      simp [decodeUploadID_CheckEncode]
    have hn : decodeUploadID (ascii "0") = .ok none := rfl
    rw [← heq, hn] at hd
    exact absurd hd (by simp)
  have hlow : ∀ c ∈ ascii "0", c.val < 128 := by
    intro c hc
    have h48 : ascii "0" = [48] := rfl
    rw [h48, List.mem_singleton] at hc
    subst hc
    decide
  refine ⟨hs, by decide, by decide, by decide, ?_,
    (only_encoder_output_decodes Library.sample Project.sample 0 (ascii "bucket") (ascii "key")
      (ascii "0") none none 5 hs0 (by decide) (by decide) (by decide)).2.1 hlow⟩
  rcases (only_encoder_output_decodes Library.sample Project.sample 0 (ascii "bucket")
    (ascii "key") [255] none none 5 hs (by decide) (by decide) (by decide)).1 with
    ⟨hd, _⟩ | ⟨panic, hd, _, _, h3, _⟩
  · rw [hpanic] at hd
    exact absurd hd (by simp)
  · rw [hpanic] at hd
    rw [h3, ← Except.error.inj hd]

end Uplink

namespace Uplink

/-! ## Validation of the arguments -/

/-- C7. Input validation short-circuit and order: for `BeginUpload`,
`CommitUpload`, `UploadPart` and `AbortUpload`, whatever the other arguments,
an empty bucket yields an error that matches `ErrBucketNameInvalid`; otherwise
an empty key yields an error that matches `ErrObjectKeyInvalid`; otherwise,
for the three operations with an upload ID, an empty upload ID yields an error
that matches `ErrUploadIDInvalid`. In each case the operation returns its
empty result and calls no collaborator: no client is dialed, no RPC issued. -/
theorem input_validation_short_circuit (lib : Library) (project : Project) (randPos : Nat)
    (bucket key uploadID : GoString) (options : Option UploadOptions)
    (opts : Option CommitUploadOptions) (partNumber : Nat) :
    (bucket = [] →
      (BeginUpload lib project bucket key options).rejected {} .ErrBucketNameInvalid
      ∧ (CommitUpload lib project randPos bucket key uploadID opts).rejected none
          .ErrBucketNameInvalid
      ∧ (UploadPart lib project bucket key uploadID partNumber).rejected none
          .ErrBucketNameInvalid
      ∧ (AbortUpload lib project bucket key uploadID).rejected () .ErrBucketNameInvalid)
    ∧ (bucket ≠ [] → key = [] →
      (BeginUpload lib project bucket key options).rejected {} .ErrObjectKeyInvalid
      ∧ (CommitUpload lib project randPos bucket key uploadID opts).rejected none
          .ErrObjectKeyInvalid
      ∧ (UploadPart lib project bucket key uploadID partNumber).rejected none
          .ErrObjectKeyInvalid
      ∧ (AbortUpload lib project bucket key uploadID).rejected () .ErrObjectKeyInvalid)
    ∧ (bucket ≠ [] → key ≠ [] → uploadID = [] →
      (CommitUpload lib project randPos bucket key uploadID opts).rejected none
          .ErrUploadIDInvalid
      ∧ (UploadPart lib project bucket key uploadID partNumber).rejected none
          .ErrUploadIDInvalid
      ∧ (AbortUpload lib project bucket key uploadID).rejected () .ErrUploadIDInvalid) := by
  refine ⟨?_, ?_, ?_⟩
  · intro hb
    have hw := errorsIs_errwrapf_wq lib.quote .ErrBucketNameInvalid bucket
    refine ⟨⟨⟨_, ?_, hw⟩, ?_⟩, ⟨⟨_, ?_, hw⟩, ?_⟩, ⟨⟨_, ?_, hw⟩, ?_⟩, ⟨⟨_, ?_, hw⟩, ?_⟩⟩ <;>
      simp [BeginUpload, CommitUpload, UploadPart, AbortUpload, hb]
  · intro hb hk
    have hw := errorsIs_errwrapf_wq lib.quote .ErrObjectKeyInvalid key
    refine ⟨⟨⟨_, ?_, hw⟩, ?_⟩, ⟨⟨_, ?_, hw⟩, ?_⟩, ⟨⟨_, ?_, hw⟩, ?_⟩, ⟨⟨_, ?_, hw⟩, ?_⟩⟩ <;>
      simp [BeginUpload, CommitUpload, UploadPart, AbortUpload, hb, hk]
  · intro hb hk hu
    have hw := errorsIs_uploadIDInvalid
    refine ⟨⟨⟨_, ?_, hw⟩, ?_⟩, ⟨⟨_, ?_, hw⟩, ?_⟩, ⟨⟨_, ?_, hw⟩, ?_⟩⟩ <;>
      simp [CommitUpload, UploadPart, AbortUpload, hb, hk, hu, uploadIDInvalid]

theorem UploadPart_of_ge (lib : Library) (project : Project) (bucket key uploadID : GoString)
    (n : Nat) (hb : bucket ≠ []) (hk : key ≠ []) (hu : uploadID ≠ []) (hn : n ≥ MaxInt32) :
    UploadPart lib project bucket key uploadID n
      = { result := .ok (none, some partNumberRange) } := by
  simp [UploadPart, hb, hk, hu, hn, partNumberRange]

theorem UploadPart_of_lt (lib : Library) (project : Project) (bucket key uploadID : GoString)
    (streamID : List Byte) (n : Nat) (hb : bucket ≠ []) (hk : key ≠ [])
    (hd : decodeUploadID uploadID = .ok (some streamID)) (hn : n < MaxInt32) :
    UploadPart lib project bucket key uploadID n =
      match project.getStreamsStore with
      | some err =>
        Outcome.ofConvert none (convertKnownErrors lib.quote (some err) bucket key)
          [.contextWithCancel, .getStreamsStore]
      | none =>
        { result := .ok (some (PartUpload.new bucket key n), none),
          trace := [.contextWithCancel, .getStreamsStore,
            .NewUploadPart bucket key streamID n] } := by
  have hu : uploadID ≠ [] := by
    intro h0
    rw [h0, decodeUploadID_nil] at hd
    exact absurd hd (by simp)
  have hn2 : ¬ n ≥ MaxInt32 := by omega
  cases hs : project.getStreamsStore <;>
    simp only [UploadPart, if_neg hb, if_neg hk, if_neg hu, if_neg hn2, hd, hs, PartUpload.new]

/-- C8. Part-number upper limit: for every non-empty bucket, key and upload ID
and every part number, `UploadPart` returns the part-number-range error
("partNumber should be less than max(int32)") without calling a collaborator
if and only if `partNumber ≥ 2^31 - 1`; it does so for `partNumber = 2^31`;
and it does so whether or not the upload ID decodes and whatever the project
would answer: nothing is decoded, no streams store obtained, no RPC issued. -/
theorem part_number_upper_limit (lib : Library) (project : Project)
    (bucket key uploadID : GoString) (partNumber : Nat)
    (hb : bucket ≠ []) (hk : key ≠ []) (hu : uploadID ≠ []) :
    (((UploadPart lib project bucket key uploadID partNumber).result
          = .ok (none, some partNumberRange)
        ∧ (UploadPart lib project bucket key uploadID partNumber).trace = [])
      ↔ partNumber ≥ 2 ^ 31 - 1)
    ∧ (UploadPart lib project bucket key uploadID (2 ^ 31)).result
        = .ok (none, some partNumberRange)
    ∧ (UploadPart lib project bucket key uploadID (2 ^ 31)).trace = []
    ∧ partNumberRange.Error = ascii "uplink: partNumber should be less than max(int32)" := by
  have hmax : MaxInt32 = 2 ^ 31 - 1 := by decide
  have hrange := UploadPart_of_ge lib project bucket key uploadID
  refine ⟨⟨?_, ?_⟩, ?_, ?_, ?_⟩
  · rintro ⟨hres, htr⟩
    by_contra hlt
    have hlt2 : ¬ partNumber ≥ MaxInt32 := by rw [hmax]; exact hlt
    revert hres htr
    simp only [UploadPart, hb, hk, hu, hlt2, if_false]
    cases hd : decodeUploadID uploadID with
    | error e => simp
    | ok o =>
      cases o with
      | none =>
        simp [partNumberRange, classNew, classWrap, packageError]
      | some d =>
        cases hs : project.getStreamsStore with
        | none => simp
        | some e =>
          simp only [Outcome.ofConvert]
          split <;> simp
  · intro hge
    have hge2 : partNumber ≥ MaxInt32 := by rw [hmax]; exact hge
    rw [hrange partNumber hb hk hu hge2]
    exact ⟨rfl, rfl⟩
  · rw [hrange (2 ^ 31) hb hk hu (by decide)]
  · rw [hrange (2 ^ 31) hb hk hu (by decide)]
  · decide

theorem part_number_upper_limit_witness :
    ascii "bucket" ≠ [] ∧ ascii "key" ≠ [] ∧ ascii "0" ≠ []
    ∧ (UploadPart Library.sample Project.sample (ascii "bucket") (ascii "key") (ascii "0")
        (2 ^ 31)).result = .ok (none, some partNumberRange) :=
  ⟨by decide, by decide, by decide,
    (part_number_upper_limit Library.sample Project.sample (ascii "bucket") (ascii "key")
      (ascii "0") (2 ^ 31) (by decide) (by decide) (by decide)).2.1⟩

end Uplink

namespace Uplink

theorem input_validation_short_circuit_witness :
    (BeginUpload Library.sample Project.sample [] (ascii "key") none).rejected {}
        .ErrBucketNameInvalid
    ∧ (CommitUpload Library.sample Project.sample 0 (ascii "bucket") [] (ascii "id") none).rejected
        none .ErrObjectKeyInvalid
    ∧ (AbortUpload Library.sample Project.sample (ascii "bucket") (ascii "key") []).rejected
        () .ErrUploadIDInvalid :=
  ⟨((input_validation_short_circuit Library.sample Project.sample 0 [] (ascii "key") [] none none
      0).1 rfl).1,
    ((input_validation_short_circuit Library.sample Project.sample 0 (ascii "bucket") []
      (ascii "id") none none 0).2.1 (by decide) rfl).2.1,
    ((input_validation_short_circuit Library.sample Project.sample 0 (ascii "bucket") (ascii "key")
      [] none none 0).2.2 (by decide) (by decide) rfl).2.2⟩

/-- C9, as the claim states it, fails: the part number `2^31 - 1` is below
`2^31` and fits the signed 32-bit field, and `UploadPart` rejects it with the
part-number-range error before anything else is done. -/
theorem part_number_max_int32_rejected :
    2 ^ 31 - 1 < 2 ^ 31
    ∧ ascii "bucket" ≠ [] ∧ ascii "key" ≠ [] ∧ base58.CheckEncode [7] 1 ≠ []
    ∧ UploadPart Library.sample Project.sample (ascii "bucket") (ascii "key")
        (base58.CheckEncode [7] 1) (2 ^ 31 - 1)
      = { result := .ok (none, some partNumberRange), trace := [] } :=
  ⟨by decide, by decide, by decide, CheckEncode_ne_nil [7] 1,
    UploadPart_of_ge Library.sample Project.sample (ascii "bucket") (ascii "key")
      (base58.CheckEncode [7] 1) (2 ^ 31 - 1) (by decide) (by decide) (CheckEncode_ne_nil [7] 1)
      (by decide)⟩

/-- C9, amended: the range check of `UploadPart` accepts exactly the part
numbers below `2^31 - 1`. For every non-empty bucket, key and upload ID,
`UploadPart` does not reject a part number below `2^31 - 1` with the
part-number-range error: the call goes on to decode the upload ID, so it
rejects an upload ID that does not decode with `ErrUploadIDInvalid` (or panics
where the decoding does), and for one that decodes to `streamID` it asks for
the streams store and, when that is obtained, returns a new part upload for the
part number, bound to `streamID`. Every part number from `2^31 - 1` on, so
every one from `2^31` on, is rejected with the part-number-range error and
nothing else is done. -/
theorem part_number_range_check (lib : Library) (project : Project)
    (bucket key uploadID : GoString) (partNumber : Nat)
    (hb : bucket ≠ []) (hk : key ≠ []) (hu : uploadID ≠ []) :
    (partNumber < 2 ^ 31 - 1 →
      ¬ ((UploadPart lib project bucket key uploadID partNumber).result
            = .ok (none, some partNumberRange)
          ∧ (UploadPart lib project bucket key uploadID partNumber).trace = []))
    ∧ (partNumber < 2 ^ 31 - 1 → decodeUploadID uploadID = .ok none →
      (UploadPart lib project bucket key uploadID partNumber).result
          = .ok (none, uploadIDInvalid)
      ∧ uploadIDInvalid ≠ some partNumberRange)
    ∧ (∀ panic, partNumber < 2 ^ 31 - 1 → decodeUploadID uploadID = .error panic →
      (UploadPart lib project bucket key uploadID partNumber).result = .error panic)
    ∧ (∀ streamID, partNumber < 2 ^ 31 - 1 → decodeUploadID uploadID = .ok (some streamID) →
      (UploadPart lib project bucket key uploadID partNumber).trace.take 2
        = [.contextWithCancel, .getStreamsStore])
    ∧ (∀ streamID, partNumber < 2 ^ 31 - 1 → decodeUploadID uploadID = .ok (some streamID) →
      project.getStreamsStore = none →
      (UploadPart lib project bucket key uploadID partNumber).result
          = .ok (some (PartUpload.new bucket key partNumber), none)
      ∧ (UploadPart lib project bucket key uploadID partNumber).trace
          = [.contextWithCancel, .getStreamsStore,
              .NewUploadPart bucket key streamID partNumber])
    ∧ (partNumber ≥ 2 ^ 31 - 1 →
      (UploadPart lib project bucket key uploadID partNumber).result
          = .ok (none, some partNumberRange)
      ∧ (UploadPart lib project bucket key uploadID partNumber).trace = [])
    ∧ (partNumber ≥ 2 ^ 31 →
      (UploadPart lib project bucket key uploadID partNumber).result
          = .ok (none, some partNumberRange)) := by
  have hmax : MaxInt32 = 2 ^ 31 - 1 := by decide
  have hrange := UploadPart_of_ge lib project bucket key uploadID
  have hpass := fun streamID hd =>
    UploadPart_of_lt lib project bucket key uploadID streamID partNumber hb hk hd
  have hne : uploadIDInvalid ≠ some partNumberRange := by decide
  have hrej : partNumber < 2 ^ 31 - 1 → decodeUploadID uploadID = .ok none →
      UploadPart lib project bucket key uploadID partNumber
        = { result := .ok (none, uploadIDInvalid) } := by
    intro hlt hd
    have hlt2 : ¬ partNumber ≥ MaxInt32 := by rw [hmax]; omega
    simp [UploadPart, hb, hk, hu, hlt2, hd, uploadIDInvalid]
  have hpanic : ∀ panic, partNumber < 2 ^ 31 - 1 → decodeUploadID uploadID = .error panic →
      UploadPart lib project bucket key uploadID partNumber = { result := .error panic } := by
    intro panic hlt hd
    have hlt2 : ¬ partNumber ≥ MaxInt32 := by rw [hmax]; omega
    simp [UploadPart, hb, hk, hu, hlt2, hd]
  have htrace : ∀ streamID, partNumber < 2 ^ 31 - 1 →
      decodeUploadID uploadID = .ok (some streamID) →
      (UploadPart lib project bucket key uploadID partNumber).trace.take 2
        = [.contextWithCancel, .getStreamsStore] := by
    intro streamID hlt hd
    rw [hpass streamID hd (by rw [hmax]; exact hlt)]
    cases hs : project.getStreamsStore with
    | none => rfl
    | some e => simp only [Outcome.ofConvert]; split <;> rfl
  refine ⟨?_, ?_, ?_, htrace, ?_, ?_, ?_⟩
  · intro hlt ⟨hres, htr⟩
    cases hd : decodeUploadID uploadID with
    | error panic =>
      rw [hpanic panic hlt hd] at hres
      exact absurd hres (by simp)
    | ok o =>
      cases o with
      | none =>
        rw [hrej hlt hd] at hres
        simp only [Except.ok.injEq, Prod.mk.injEq, true_and] at hres
        exact hne hres
      | some streamID =>
        have := htrace streamID hlt hd
        rw [htr] at this
        exact absurd this (by simp)
  · intro hlt hd
    rw [hrej hlt hd]
    exact ⟨rfl, hne⟩
  · intro panic hlt hd
    rw [hpanic panic hlt hd]
  · intro streamID hlt hd hs
    rw [hpass streamID hd (by rw [hmax]; exact hlt), hs]
    exact ⟨rfl, rfl⟩
  · intro hge
    rw [hrange partNumber hb hk hu (by rw [hmax]; exact hge)]
    exact ⟨rfl, rfl⟩
  · intro hge
    rw [hrange partNumber hb hk hu (by rw [hmax]; omega)]

theorem part_number_range_check_witness :
    ascii "bucket" ≠ [] ∧ ascii "key" ≠ [] ∧ ascii "0" ≠ []
    ∧ (UploadPart Library.sample Project.sample (ascii "bucket") (ascii "key") (ascii "0")
        3).result = .ok (none, uploadIDInvalid)
    ∧ (UploadPart Library.sample Project.sample (ascii "bucket") (ascii "key")
        (base58.CheckEncode [7] 1) 3).result
          = .ok (some (PartUpload.new (ascii "bucket") (ascii "key") 3), none) :=
  have hd : decodeUploadID (base58.CheckEncode [7] 1) = .ok (some [7]) := by
    simp [decodeUploadID_CheckEncode]
  ⟨by decide, by decide, by decide,
    ((part_number_range_check Library.sample Project.sample (ascii "bucket") (ascii "key")
      (ascii "0") 3 (by decide) (by decide) (by decide)).2.1 (by decide) rfl).1,
    ((part_number_range_check Library.sample Project.sample (ascii "bucket") (ascii "key")
      (base58.CheckEncode [7] 1) 3 (by decide) (by decide) (CheckEncode_ne_nil [7] 1)).2.2.2.2.1
        [7] (by decide) hd rfl).1⟩

end Uplink

namespace Uplink

/-! ## The end-of-stream rule of `convertKnownErrors` -/

/-- C10. End-of-stream passes through first: for every error `e` with
`errors.Is(e, io.EOF)` and every bucket and key, `convertKnownErrors` returns
`e` itself, not wrapped and not annotated, whether or not `e` also matches a
later rule (an error class, an RPC status): the end-of-stream rule is tried
first and decides. -/
theorem eof_passes_through (quote : GoString → GoString) (e : GoErr) (bucket key : GoString)
    (h : errorsIs (some e) (some (.sentinel .EOF)) = true) :
    convertKnownErrors quote (some e) bucket key = .ok (some e) := by
  simp [convertKnownErrors, h]

theorem eof_passes_through_witness :
    errorsIs (some (.errorT (some .ErrNoBucket)
        (.codeErr (.errorT none (.sentinel .EOF)) rpcstatus.NotFound)))
      (some (.sentinel .EOF)) = true
    ∧ Class.ErrNoBucket.Has (some (.errorT (some .ErrNoBucket)
        (.codeErr (.errorT none (.sentinel .EOF)) rpcstatus.NotFound))) = true
    ∧ IsRPC (some (.errorT (some .ErrNoBucket)
        (.codeErr (.errorT none (.sentinel .EOF)) rpcstatus.NotFound))) rpcstatus.NotFound = true
    ∧ convertKnownErrors Library.sample.quote (some (.errorT (some .ErrNoBucket)
        (.codeErr (.errorT none (.sentinel .EOF)) rpcstatus.NotFound))) (ascii "b") (ascii "k")
      = .ok (some (.errorT (some .ErrNoBucket)
        (.codeErr (.errorT none (.sentinel .EOF)) rpcstatus.NotFound))) :=
  ⟨by decide, by decide, by decide,
    eof_passes_through Library.sample.quote _ (ascii "b") (ascii "k") (by decide)⟩

/-! ## The part upload -/

theorem errorsIs_errwrapf_lit (quote : GoString → GoString) (v : Sentinel) (format : GoString)
    (hf : ∃ rest, format = 37 :: 119 :: rest) :
    errorsIs (errwrapf quote format (.sentinel v) []) (some (.sentinel v)) = true := by
  obtain ⟨msg, hmsg⟩ := errwrapf_w_lit quote v format hf
  rw [hmsg]; exact errorsIs_wrapped_sentinel _ _

theorem done_already_committed (quote : GoString → GoString) :
    errorsIs (errwrapf quote (ascii "%w: already committed") (.sentinel .ErrUploadDone) [])
      (some (.sentinel .ErrUploadDone)) = true :=
  errorsIs_errwrapf_lit quote _ _ ⟨_, rfl⟩

theorem done_already_aborted (quote : GoString → GoString) :
    errorsIs (errwrapf quote (ascii "%w: already aborted") (.sentinel .ErrUploadDone) [])
      (some (.sentinel .ErrUploadDone)) = true :=
  errorsIs_errwrapf_lit quote _ _ ⟨_, rfl⟩

theorem done_upload_aborted (quote : GoString → GoString) :
    errorsIs (errwrapf quote (ascii "%w: upload aborted") (.sentinel .ErrUploadDone) [])
      (some (.sentinel .ErrUploadDone)) = true :=
  errorsIs_errwrapf_lit quote _ _ ⟨_, rfl⟩

/-- A call of `Commit` or `Abort` on an upload that is committed or aborted
changes nothing, calls no collaborator and returns an error that matches
`ErrUploadDone`. -/
theorem call_terminal_of_done (quote : GoString → GoString) (u : PartUpload) (c : Call)
    (hc : c.isTerminal = true) (hu : u.closed = true ∨ u.aborted = true) :
    (u.call quote c).1 = u ∧ (u.call quote c).2.1.matchesErr .ErrUploadDone = true
    ∧ (u.call quote c).2.2 = [] := by
  cases c with
  | Write p n err => simp [Call.isTerminal] at hc
  | SetETag t => simp [Call.isTerminal] at hc
  | Info part => simp [Call.isTerminal] at hc
  | Commit closeErr streamsErr =>
    by_cases ha : u.aborted = true
    · simp [PartUpload.call, PartUpload.Commit, ha, Reply.ofErr, Reply.matchesErr,
        done_already_aborted]
    · have hcl : u.closed = true := by
        rcases hu with h | h
        · exact h
        · exact absurd h ha
      simp [PartUpload.call, PartUpload.Commit, ha, hcl, Reply.ofErr, Reply.matchesErr,
        done_already_committed]
  | Abort abortErr streamsErr =>
    by_cases hcl : u.closed = true
    · simp [PartUpload.call, PartUpload.Abort, hcl, Reply.ofErr, Reply.matchesErr,
        done_already_committed]
    · have ha : u.aborted = true := by
        rcases hu with h | h
        · exact absurd h hcl
        · exact h
      simp [PartUpload.call, PartUpload.Abort, ha, hcl, Reply.ofErr, Reply.matchesErr,
        done_already_aborted]

/-- The flags after one call, for every call and every upload. -/
theorem call_flags (quote : GoString → GoString) (u : PartUpload) (c : Call) :
    ((u.call quote c).1.closed = u.closed ∧ (u.call quote c).1.aborted = u.aborted)
    ∨ (u.closed = false ∧ u.aborted = false ∧ c.isTerminal = true
        ∧ (((u.call quote c).1.closed = true ∧ (u.call quote c).1.aborted = false)
          ∨ ((u.call quote c).1.closed = false ∧ (u.call quote c).1.aborted = true))) := by
  cases c with
  | Write p n err => left; simp [PartUpload.call, PartUpload.Write]
  | SetETag t =>
    left
    simp only [PartUpload.call, PartUpload.SetETag]
    split
    · simp
    · split <;> simp
  | Info part =>
    left
    cases part <;> simp [PartUpload.call, PartUpload.Info]
  | Commit closeErr streamsErr =>
    cases ha : u.aborted <;> cases hcl : u.closed <;>
      simp [PartUpload.call, PartUpload.Commit, ha, hcl, Call.isTerminal]
  | Abort abortErr streamsErr =>
    cases ha : u.aborted <;> cases hcl : u.closed <;>
      simp [PartUpload.call, PartUpload.Abort, ha, hcl, Call.isTerminal]

/-- After a call of `Commit` or `Abort` the upload is committed or aborted. -/
theorem call_terminal_done (quote : GoString → GoString) (u : PartUpload) (c : Call)
    (hc : c.isTerminal = true) :
    (u.call quote c).1.closed = true ∨ (u.call quote c).1.aborted = true := by
  cases c with
  | Write p n err => simp [Call.isTerminal] at hc
  | SetETag t => simp [Call.isTerminal] at hc
  | Info part => simp [Call.isTerminal] at hc
  | Commit closeErr streamsErr =>
    cases ha : u.aborted <;> cases hcl : u.closed <;>
      simp [PartUpload.call, PartUpload.Commit, ha, hcl]
  | Abort abortErr streamsErr =>
    cases ha : u.aborted <;> cases hcl : u.closed <;>
      simp [PartUpload.call, PartUpload.Abort, ha, hcl]

theorem after_nil (quote : GoString → GoString) (u : PartUpload) : u.after quote [] = u := rfl

theorem after_cons (quote : GoString → GoString) (u : PartUpload) (c : Call) (rest : List Call) :
    u.after quote (c :: rest) = (u.call quote c).1.after quote rest := rfl

theorem after_append (quote : GoString → GoString) (l1 l2 : List Call) : ∀ u : PartUpload,
    u.after quote (l1 ++ l2) = (u.after quote l1).after quote l2 := by
  induction l1 with
  | nil => intro u; rfl
  | cons c t ih => intro u; simp only [List.cons_append, after_cons, ih]

theorem replies_nil (quote : GoString → GoString) (u : PartUpload) : u.replies quote [] = [] := rfl

theorem replies_cons (quote : GoString → GoString) (u : PartUpload) (c : Call) (rest : List Call) :
    u.replies quote (c :: rest) = (u.call quote c).2.1 :: (u.call quote c).1.replies quote rest :=
  rfl

/-- The reply number `j` of a sequence of calls is the reply of the call number
`j` on the upload as the calls before it left it. -/
theorem replies_getElem (quote : GoString → GoString) (calls : List Call) :
    ∀ (u : PartUpload) (j : Nat) (c : Call), calls[j]? = some c →
      (u.replies quote calls)[j]? = some ((u.after quote (calls.take j)).call quote c).2.1 := by
  induction calls with
  | nil => intro u j c h; simp at h
  | cons d t ih =>
    intro u j c h
    cases j with
    | zero =>
      simp only [List.getElem?_cons_zero, Option.some.injEq] at h
      subst h
      simp [replies_cons, after_nil]
    | succ k =>
      simp only [List.getElem?_cons_succ] at h
      simp only [replies_cons, List.getElem?_cons_succ, List.take_succ_cons, after_cons]
      exact ih _ k c h

/-- Once committed or aborted, an upload keeps its two flags. -/
theorem after_flags_of_done (quote : GoString → GoString) (calls : List Call) :
    ∀ u : PartUpload, (u.closed = true ∨ u.aborted = true) →
      (u.after quote calls).closed = u.closed ∧ (u.after quote calls).aborted = u.aborted := by
  induction calls with
  | nil => intro u _; exact ⟨rfl, rfl⟩
  | cons c t ih =>
    intro u hu
    rw [after_cons]
    have hstep : (u.call quote c).1.closed = u.closed ∧ (u.call quote c).1.aborted = u.aborted := by
      rcases call_flags quote u c with h | ⟨h1, h2, _⟩
      · exact h
      · rcases hu with h | h
        · rw [h1] at h; exact absurd h (by simp)
        · rw [h2] at h; exact absurd h (by simp)
    have hu2 : (u.call quote c).1.closed = true ∨ (u.call quote c).1.aborted = true := by
      rw [hstep.1, hstep.2]; exact hu
    have := ih _ hu2
    rw [this.1, this.2]
    exact hstep

/-- The two flags are never both set, from an upload where they are not. -/
theorem after_not_both (quote : GoString → GoString) (calls : List Call) :
    ∀ u : PartUpload, ¬ (u.closed = true ∧ u.aborted = true) →
      ¬ ((u.after quote calls).closed = true ∧ (u.after quote calls).aborted = true) := by
  induction calls with
  | nil => intro u h; exact h
  | cons c t ih =>
    intro u hu
    rw [after_cons]
    apply ih
    rcases call_flags quote u c with h | ⟨_, _, _, h | h⟩
    · rw [h.1, h.2]; exact hu
    · rw [h.1, h.2]; simp
    · rw [h.1, h.2]; simp

end Uplink

namespace Uplink

/-- C4. Terminal exclusivity of `PartUpload`: of two calls of `Commit` or
`Abort` on an upload (Commit then Commit, Commit then Abort, Abort then Abort,
Abort then Commit), the second returns an error that matches `ErrUploadDone`;
and in every sequence of calls of `Write`, `SetETag`, `Info`, `Commit` and
`Abort`, every `Commit` or `Abort` after an earlier `Commit` or `Abort` returns
an error that matches `ErrUploadDone` and calls no collaborator, whatever the
sink answered to the earlier call. This holds from every upload, a new one
included. -/
theorem terminal_exclusivity (quote : GoString → GoString) (u : PartUpload) :
    (∀ a b c d : Option GoErr,
      (∃ r1 r2, u.replies quote [.Commit a b, .Commit c d] = [r1, r2]
        ∧ r2.matchesErr .ErrUploadDone = true)
      ∧ (∃ r1 r2, u.replies quote [.Commit a b, .Abort c d] = [r1, r2]
        ∧ r2.matchesErr .ErrUploadDone = true)
      ∧ (∃ r1 r2, u.replies quote [.Abort a b, .Abort c d] = [r1, r2]
        ∧ r2.matchesErr .ErrUploadDone = true)
      ∧ (∃ r1 r2, u.replies quote [.Abort a b, .Commit c d] = [r1, r2]
        ∧ r2.matchesErr .ErrUploadDone = true))
    ∧ (∀ (calls : List Call) (i j : Nat) (c1 c2 : Call),
        i < j → calls[i]? = some c1 → calls[j]? = some c2 →
        c1.isTerminal = true → c2.isTerminal = true →
        ∃ r, (u.replies quote calls)[j]? = some r ∧ r.matchesErr .ErrUploadDone = true
          ∧ ((u.after quote (calls.take j)).call quote c2).2.2 = []) := by
  have pair : ∀ c1 c2 : Call, c1.isTerminal = true → c2.isTerminal = true →
      ∃ r1 r2, u.replies quote [c1, c2] = [r1, r2] ∧ r2.matchesErr .ErrUploadDone = true := by
    intro c1 c2 h1 h2
    refine ⟨(u.call quote c1).2.1, ((u.call quote c1).1.call quote c2).2.1, rfl, ?_⟩
    exact (call_terminal_of_done quote _ c2 h2 (call_terminal_done quote u c1 h1)).2.1
  refine ⟨fun a b c d => ⟨pair _ _ rfl rfl, pair _ _ rfl rfl, pair _ _ rfl rfl, pair _ _ rfl rfl⟩,
    ?_⟩
  intro calls i j c1 c2 hij hi hj h1 h2
  have hdone : (u.after quote (calls.take j)).closed = true
      ∨ (u.after quote (calls.take j)).aborted = true := by
    have hsplit : calls.take j = calls.take i ++ c1 :: (calls.take j).drop (i + 1) := by
      have hi' : (calls.take j)[i]? = some c1 := by
        rw [List.getElem?_take_of_lt hij]; exact hi
      have hlt : i < (calls.take j).length := by
        by_contra hge
        rw [List.getElem?_eq_none (by omega)] at hi'
        exact absurd hi' (by simp)
      have h := (List.take_append_drop i (calls.take j)).symm
      rw [List.take_take, Nat.min_eq_left (le_of_lt hij)] at h
      rw [List.drop_eq_getElem_cons hlt] at h
      have hget : (calls.take j)[i] = c1 := by
        have := List.getElem?_eq_getElem hlt
        rw [hi'] at this
        exact (Option.some.inj this).symm
      rw [hget] at h
      exact h
    rw [hsplit, after_append, after_cons]
    have hd := call_terminal_done quote (u.after quote (calls.take i)) c1 h1
    have hkeep := after_flags_of_done quote ((calls.take j).drop (i + 1)) _ hd
    rw [hkeep.1, hkeep.2]
    exact hd
  have hcall := call_terminal_of_done quote _ c2 h2 hdone
  exact ⟨_, replies_getElem quote calls u j c2 hj, hcall.2.1, hcall.2.2⟩

theorem terminal_exclusivity_witness :
    (PartUpload.new (ascii "bucket") (ascii "key") 1).replies Library.sample.quote
        [.Write [1, 2] 2 none, .Commit (some (.errorString (ascii "sink failed"))) none,
          .SetETag [9], .Abort none none, .Commit none none]
      = [.Write 2 none,
          .err (some (.errorT (some .packageError) (.errorString (ascii "sink failed")))),
          .err (errwrapf Library.sample.quote (ascii "%w: already committed")
            (.sentinel .ErrUploadDone) []),
          .err (errwrapf Library.sample.quote (ascii "%w: already committed")
            (.sentinel .ErrUploadDone) []),
          .err (errwrapf Library.sample.quote (ascii "%w: already committed")
            (.sentinel .ErrUploadDone) [])]
    ∧ ∃ r, ((PartUpload.new (ascii "bucket") (ascii "key") 1).replies Library.sample.quote
        [.Write [1, 2] 2 none, .Commit (some (.errorString (ascii "sink failed"))) none,
          .SetETag [9], .Abort none none, .Commit none none])[3]? = some r
        ∧ r.matchesErr .ErrUploadDone = true :=
  ⟨by decide,
    match (terminal_exclusivity Library.sample.quote
      (PartUpload.new (ascii "bucket") (ascii "key") 1)).2
      [.Write [1, 2] 2 none, .Commit (some (.errorString (ascii "sink failed"))) none,
        .SetETag [9], .Abort none none, .Commit none none] 1 3 _ _ (by decide) rfl rfl rfl rfl with
    | ⟨r, hr, hm, _⟩ => ⟨r, hr, hm⟩⟩

/-- C5. State invariant of `PartUpload`: from a new part upload (`closed` and
`aborted` false), after every finite sequence of calls of `Write`, `SetETag`,
`Commit`, `Abort` and `Info` the flags `closed` and `aborted` are not both
true; once `closed` is true it stays true and `aborted` stays false through
every further sequence of calls, and once `aborted` is true it stays true and
`closed` stays false: no call leaves a terminal state. -/
theorem part_upload_state_invariant (quote : GoString → GoString) (u : PartUpload)
    (calls more : List Call) (hclosed : u.closed = false) (haborted : u.aborted = false) :
    ¬ ((u.after quote calls).closed = true ∧ (u.after quote calls).aborted = true)
    ∧ ((u.after quote calls).closed = true →
        (u.after quote (calls ++ more)).closed = true
        ∧ (u.after quote (calls ++ more)).aborted = false)
    ∧ ((u.after quote calls).aborted = true →
        (u.after quote (calls ++ more)).aborted = true
        ∧ (u.after quote (calls ++ more)).closed = false) := by
  have hnb : ¬ ((u.after quote calls).closed = true ∧ (u.after quote calls).aborted = true) :=
    after_not_both quote calls u (by rw [hclosed, haborted]; simp)
  refine ⟨hnb, ?_, ?_⟩
  · intro hc
    have hkeep := after_flags_of_done quote more (u.after quote calls) (Or.inl hc)
    rw [after_append, hkeep.1, hkeep.2]
    refine ⟨hc, ?_⟩
    cases ha : (u.after quote calls).aborted with
    | false => rfl
    | true => exact absurd ⟨hc, ha⟩ hnb
  · intro ha
    have hkeep := after_flags_of_done quote more (u.after quote calls) (Or.inr ha)
    rw [after_append, hkeep.1, hkeep.2]
    refine ⟨ha, ?_⟩
    cases hc : (u.after quote calls).closed with
    | false => rfl
    | true => exact absurd ⟨hc, ha⟩ hnb

theorem part_upload_state_invariant_witness :
    ((PartUpload.new (ascii "bucket") (ascii "key") 1).after Library.sample.quote
        [.Write [1] 1 none, .Abort none none]).aborted = true
    ∧ ((PartUpload.new (ascii "bucket") (ascii "key") 1).after Library.sample.quote
        ([.Write [1] 1 none, .Abort none none] ++ [.Commit none none, .SetETag [1]])).aborted = true
    ∧ ((PartUpload.new (ascii "bucket") (ascii "key") 1).after Library.sample.quote
        ([.Write [1] 1 none, .Abort none none] ++ [.Commit none none, .SetETag [1]])).closed
          = false :=
  have h := (part_upload_state_invariant Library.sample.quote
    (PartUpload.new (ascii "bucket") (ascii "key") 1)
    [.Write [1] 1 none, .Abort none none] [.Commit none none, .SetETag [1]] rfl rfl).2.2
    (by decide)
  ⟨by decide, h.1, h.2⟩

end Uplink

namespace Uplink

/-- A sequence of calls of `SetETag` on an active upload: every call returns
`nil`, the flags stay false, and the tag recorded is that of the last call. -/
theorem after_setETag_active (quote : GoString → GoString) (tags : List (List Byte)) :
    ∀ u : PartUpload, u.closed = false → u.aborted = false →
      (u.after quote (tags.map Call.SetETag)).closed = false
      ∧ (u.after quote (tags.map Call.SetETag)).aborted = false
      ∧ (u.after quote (tags.map Call.SetETag)).etag = (tags.getLast?).getD u.etag
      ∧ u.replies quote (tags.map Call.SetETag) = tags.map (fun _ => Reply.err none) := by
  induction tags with
  | nil => intro u hc ha; exact ⟨hc, ha, rfl, rfl⟩
  | cons t rest ih =>
    intro u hc ha
    have hstep : u.call quote (.SetETag t) = ({ u with etag := t }, Reply.err none, []) := by
      simp [PartUpload.call, PartUpload.SetETag, hc, ha, Reply.ofErr]
    obtain ⟨h1, h2, h3, h4⟩ := ih { u with etag := t } hc ha
    simp only [List.map_cons, after_cons, replies_cons, hstep]
    refine ⟨h1, h2, ?_, by rw [h4]⟩
    rw [h3]
    cases rest with
    | nil => rfl
    | cons r rs =>
      rw [List.getLast?_cons_cons]
      cases h : (r :: rs).getLast? with
      | none => simp at h
      | some x => rfl

/-- C6. `SetETag` before and after the terminal transition: while a part
upload is active (neither committed nor aborted), every call `SetETag(t)`
returns `nil` and overwrites the recorded tag, so that after any number of
calls the tag source handed to the sink (`etag.ETag`) returns the tag of the
last call; once the upload is committed or aborted, every call of `SetETag`
returns an error that matches `ErrUploadDone` and leaves the recorded tag and
the two flags (the whole upload) as they were. -/
theorem set_etag_before_and_after_terminal (quote : GoString → GoString) (u : PartUpload) :
    (u.closed = false → u.aborted = false → ∀ t : List Byte,
      (u.SetETag quote t).result = .ok none
      ∧ etag.ETag (u.SetETag quote t).upload = t
      ∧ (u.SetETag quote t).upload = { u with etag := t }
      ∧ (u.SetETag quote t).trace = [])
    ∧ (u.closed = false → u.aborted = false → ∀ (tags : List (List Byte)) (t : List Byte),
      u.replies quote ((tags ++ [t]).map Call.SetETag)
          = (tags ++ [t]).map (fun _ => Reply.err none)
      ∧ etag.ETag (u.after quote ((tags ++ [t]).map Call.SetETag)) = t
      ∧ (u.after quote ((tags ++ [t]).map Call.SetETag)).closed = false
      ∧ (u.after quote ((tags ++ [t]).map Call.SetETag)).aborted = false)
    ∧ ((u.closed = true ∨ u.aborted = true) → ∀ t : List Byte,
      (∃ e, (u.SetETag quote t).result = .ok e
        ∧ errorsIs e (some (.sentinel .ErrUploadDone)) = true)
      ∧ (u.SetETag quote t).upload = u
      ∧ etag.ETag (u.SetETag quote t).upload = etag.ETag u
      ∧ (u.SetETag quote t).trace = []) := by
  refine ⟨?_, ?_, ?_⟩
  · intro hc ha t
    simp [PartUpload.SetETag, hc, ha, etag.ETag]
  · intro hc ha tags t
    obtain ⟨h1, h2, h3, h4⟩ := after_setETag_active quote (tags ++ [t]) u hc ha
    refine ⟨h4, ?_, h1, h2⟩
    simp only [etag.ETag]
    rw [h3]
    simp
  · intro hdone t
    by_cases ha : u.aborted = true
    · simp [PartUpload.SetETag, ha, done_upload_aborted]
    · have hcl : u.closed = true := by
        rcases hdone with h | h
        · exact h
        · exact absurd h ha
      simp [PartUpload.SetETag, ha, hcl, done_already_committed]

theorem set_etag_before_and_after_terminal_witness :
    etag.ETag ((PartUpload.new (ascii "bucket") (ascii "key") 1).after Library.sample.quote
        ((([[1], [2]] : List (List Byte)) ++ [[3]]).map Call.SetETag)) = [3]
    ∧ ((({ PartUpload.new (ascii "bucket") (ascii "key") 1 with closed := true, etag := [5] } :
          PartUpload).SetETag Library.sample.quote [6]).upload
        = { PartUpload.new (ascii "bucket") (ascii "key") 1 with closed := true, etag := [5] }) :=
  ⟨((set_etag_before_and_after_terminal Library.sample.quote
      (PartUpload.new (ascii "bucket") (ascii "key") 1)).2.1 rfl rfl [[1], [2]] [3]).2.1,
    ((set_etag_before_and_after_terminal Library.sample.quote
      { PartUpload.new (ascii "bucket") (ascii "key") 1 with closed := true, etag := [5] }).2.2
      (Or.inl rfl) [6]).2.1⟩

end Uplink

namespace Uplink

/-! ## The rules of `convertKnownErrors` -/

theorem errwrapf_wq_annotated (quote : GoString → GoString) (v : Sentinel) (s : GoString) :
    errwrapf quote (ascii "%w (%q)") (.sentinel v) [.str s] = some (annotated quote v s) :=
  errwrapf_wq quote v s

theorem errorsIs_annotated (quote : GoString → GoString) (v : Sentinel) (s : GoString) :
    errorsIs (some (annotated quote v s)) (some (.sentinel v)) = true :=
  errorsIs_wrapped_sentinel _ _

theorem Has_packageError_annotated (quote : GoString → GoString) (v : Sentinel) (s : GoString) :
    Class.packageError.Has (some (annotated quote v s)) = true := by
  simp [Class.Has, Class.HasChain, annotated]

theorem annotated_Error (quote : GoString → GoString) (v : Sentinel) (s : GoString) :
    (annotated quote v s).Error
      = ascii "uplink: " ++ (v.text ++ (ascii " (" ++ (quote s ++ ascii ")"))) := by
  have hname : Class.packageError.name = ascii "uplink" := rfl
  have hne : ascii "uplink" ≠ [] := by decide
  have htext : v.text ++ (ascii " (" ++ (quote s ++ ascii ")")) ≠ [] := by
    have : ascii " (" = [32, 40] := by decide
    simp [this]
  have hcat : ∀ t : GoString, ascii "uplink" ++ ascii ": " ++ t = ascii "uplink: " ++ t := by
    intro t
    have h1 : ascii "uplink" ++ ascii ": " = ascii "uplink: " := by decide
    rw [h1]
  simp only [annotated, GoErr.Error, hname, if_neg hne, if_neg htext, hcat]

/-- `convertKnownErrors` on an error that is not end-of-stream and has a class
of the table. -/
theorem convert_classRule (quote : GoString → GoString) (e : GoErr) (bucket key : GoString)
    (c : Class) (v : Sentinel) (useBucket : Bool)
    (heof : errorsIs (some e) (some (.sentinel .EOF)) = false)
    (hrule : classRule (some e) = some (c, v, useBucket)) :
    convertKnownErrors quote (some e) bucket key
        = .ok (some (annotated quote v (if useBucket then bucket else key))) := by
  revert hrule
  simp only [classRule, classTable, List.find?_cons]
  cases h1 : Class.ErrNoBucket.Has (some e)
  · cases h2 : Class.ErrNoPath.Has (some e)
    · cases h3 : Class.ErrBucketNotFound.Has (some e)
      · cases h4 : Class.ErrObjectNotFound.Has (some e)
        · cases h5 : Class.ErrMissingEncryptionBase.Has (some e)
          · cases h6 : Class.ErrMissingDecryptionBase.Has (some e)
            · simp
            · intro h
              simp only [Option.some.injEq, Prod.mk.injEq] at h
              obtain ⟨_, rfl, rfl⟩ := h
              simp [convertKnownErrors, heof, h1, h2, h3, h4, h5, h6, errwrapf_wq_annotated]
          · intro h
            simp only [Option.some.injEq, Prod.mk.injEq] at h
            obtain ⟨_, rfl, rfl⟩ := h
            simp [convertKnownErrors, heof, h1, h2, h3, h4, h5, errwrapf_wq_annotated]
        · intro h
          simp only [Option.some.injEq, Prod.mk.injEq] at h
          obtain ⟨_, rfl, rfl⟩ := h
          simp [convertKnownErrors, heof, h1, h2, h3, h4, errwrapf_wq_annotated]
      · intro h
        simp only [Option.some.injEq, Prod.mk.injEq] at h
        obtain ⟨_, rfl, rfl⟩ := h
        simp [convertKnownErrors, heof, h1, h2, h3, errwrapf_wq_annotated]
    · intro h
      simp only [Option.some.injEq, Prod.mk.injEq] at h
      obtain ⟨_, rfl, rfl⟩ := h
      simp [convertKnownErrors, heof, h1, h2, errwrapf_wq_annotated]
  · intro h
    simp only [Option.some.injEq, Prod.mk.injEq] at h
    obtain ⟨_, rfl, rfl⟩ := h
    simp [convertKnownErrors, heof, h1, errwrapf_wq_annotated]

/-- C11. Error-class mapping table: for every error `e` that is not
end-of-stream, `convertKnownErrors` returns, by the first class `e` has in the
order `ErrNoBucket`, `ErrNoPath`, `ErrBucketNotFound`, `ErrObjectNotFound`,
`ErrMissingEncryptionBase`, `ErrMissingDecryptionBase`, an error that matches
`ErrBucketNameInvalid` (annotated with the quoted bucket), `ErrObjectKeyInvalid`
(key), `ErrBucketNotFound` (bucket), `ErrObjectNotFound` (key) or
`ErrPermissionDenied` (key, for the last two classes); the result is wrapped in
the class of the package, and no RPC status of `e` is looked at. -/
theorem error_class_mapping (quote : GoString → GoString) (e : GoErr) (bucket key : GoString)
    (c : Class) (v : Sentinel) (useBucket : Bool)
    (heof : errorsIs (some e) (some (.sentinel .EOF)) = false)
    (hrule : classRule (some e) = some (c, v, useBucket)) :
    convertKnownErrors quote (some e) bucket key
        = .ok (some (annotated quote v (if useBucket then bucket else key)))
    ∧ errorsIs (some (annotated quote v (if useBucket then bucket else key)))
        (some (.sentinel v)) = true
    ∧ Class.packageError.Has (some (annotated quote v (if useBucket then bucket else key))) = true
    ∧ (annotated quote v (if useBucket then bucket else key)).Error
        = ascii "uplink: " ++ (v.text ++ (ascii " (" ++
            (quote (if useBucket then bucket else key) ++ ascii ")")))
    ∧ (c, v, useBucket) ∈ classTable ∧ c.Has (some e) = true
    ∧ (∀ row ∈ classTable.takeWhile (fun row => !row.1.Has (some e)), row.1.Has (some e) = false) := by
  have hmem : (c, v, useBucket) ∈ classTable := List.mem_of_find?_eq_some hrule
  have hhas : c.Has (some e) = true := by
    have := List.find?_some hrule
    simpa using this
  refine ⟨?_, errorsIs_annotated _ _ _, Has_packageError_annotated _ _ _, ?_, hmem, hhas, ?_⟩
  · exact convert_classRule quote e bucket key c v useBucket heof hrule
  · exact annotated_Error _ _ _
  · intro row hrow
    have := List.mem_takeWhile_imp hrow
    simpa using this

theorem error_class_mapping_witness :
    classRule (some (.errorT (some .ErrObjectNotFound)
        (.errorT (some .ErrMissingEncryptionBase)
          (.codeErr (.errorT none (.errorString (ascii "x"))) rpcstatus.PermissionDenied))))
      = some (.ErrObjectNotFound, .ErrObjectNotFound, false)
    ∧ Class.ErrMissingEncryptionBase.Has (some (.errorT (some .ErrObjectNotFound)
        (.errorT (some .ErrMissingEncryptionBase)
          (.codeErr (.errorT none (.errorString (ascii "x"))) rpcstatus.PermissionDenied))))
      = true
    ∧ IsRPC (some (.errorT (some .ErrObjectNotFound)
        (.errorT (some .ErrMissingEncryptionBase)
          (.codeErr (.errorT none (.errorString (ascii "x"))) rpcstatus.PermissionDenied))))
        rpcstatus.PermissionDenied = true
    ∧ convertKnownErrors Library.sample.quote (some (.errorT (some .ErrObjectNotFound)
        (.errorT (some .ErrMissingEncryptionBase)
          (.codeErr (.errorT none (.errorString (ascii "x"))) rpcstatus.PermissionDenied))))
        (ascii "b") (ascii "k")
      = .ok (some (annotated Library.sample.quote .ErrObjectNotFound (ascii "k"))) :=
  ⟨by decide, by decide, by decide,
    (error_class_mapping Library.sample.quote _ (ascii "b") (ascii "k") .ErrObjectNotFound
      .ErrObjectNotFound false (by decide) (by decide)).1⟩

end Uplink

namespace Uplink

theorem classRule_none (err : Option GoErr) (h : classRule err = none) :
    Class.ErrNoBucket.Has err = false ∧ Class.ErrNoPath.Has err = false
    ∧ Class.ErrBucketNotFound.Has err = false ∧ Class.ErrObjectNotFound.Has err = false
    ∧ Class.ErrMissingEncryptionBase.Has err = false
    ∧ Class.ErrMissingDecryptionBase.Has err = false := by
  have hall := List.find?_eq_none.1 h
  simp only [classTable, List.mem_cons, List.mem_singleton, List.not_mem_nil, or_false,
    Bool.not_eq_true] at hall
  exact ⟨hall _ (Or.inl rfl), hall _ (Or.inr (Or.inl rfl)), hall _ (Or.inr (Or.inr (Or.inl rfl))),
    hall _ (Or.inr (Or.inr (Or.inr (Or.inl rfl)))),
    hall _ (Or.inr (Or.inr (Or.inr (Or.inr (Or.inl rfl))))),
    hall _ (Or.inr (Or.inr (Or.inr (Or.inr (Or.inr rfl)))))⟩

theorem bucketNotFound_prefix_eq : (classNew .ErrBucketNotFound []).Error = ascii "bucket not found" := by
  decide

theorem objectNotFound_prefix_eq : (classNew .ErrObjectNotFound []).Error = ascii "object not found" := by
  decide

/-- The error of the resource-exhausted rule for the error variable `v`. -/
theorem exhausted_eq (v : Sentinel) :
    classWrap (some packageError) (rpcstatus.Wrap rpcstatus.ResourceExhausted (some (.sentinel v)))
      = some (.errorT (some .packageError)
          (.codeErr (.errorT none (.sentinel v)) rpcstatus.ResourceExhausted)) := by
  cases v <;> rfl

/-- `convertKnownErrors` on an error with the resource-exhausted status that no
earlier rule matches. -/
theorem convert_exhausted (quote : GoString → GoString) (e : GoErr) (bucket key : GoString)
    (heof : errorsIs (some e) (some (.sentinel .EOF)) = false)
    (hrule : classRule (some e) = none)
    (hRE : IsRPC (some e) rpcstatus.ResourceExhausted = true) :
    convertKnownErrors quote (some e) bucket key =
      if HasSuffix (rootMessage e) (ascii "Exceeded Usage Limit") then
        .ok (some (.errorT (some .packageError)
          (.codeErr (.errorT none (.sentinel .ErrBandwidthLimitExceeded))
            rpcstatus.ResourceExhausted)))
      else if HasSuffix (rootMessage e) (ascii "Too Many Requests") then
        .ok (some (.errorT (some .packageError)
          (.codeErr (.errorT none (.sentinel .ErrTooManyRequests)) rpcstatus.ResourceExhausted)))
      else .ok (classWrap (some packageError) (some e)) := by
  obtain ⟨h1, h2, h3, h4, h5, h6⟩ := classRule_none _ hrule
  simp only [convertKnownErrors, heof, h1, h2, h3, h4, h5, h6, hRE, exhausted_eq, rootMessage]
  simp

/-- `convertKnownErrors` on an error with the not-found status that no earlier
rule matches. -/
theorem convert_notFound (quote : GoString → GoString) (e : GoErr) (bucket key : GoString)
    (heof : errorsIs (some e) (some (.sentinel .EOF)) = false)
    (hrule : classRule (some e) = none)
    (hRE : IsRPC (some e) rpcstatus.ResourceExhausted = false)
    (hNF : IsRPC (some e) rpcstatus.NotFound = true) :
    convertKnownErrors quote (some e) bucket key =
      if HasPrefix (rootMessage e) (ascii "bucket not found") then
        (sliceFrom (rootMessage e) ((ascii "bucket not found").length + 2)).map
          (fun b => some (annotated quote .ErrBucketNotFound b))
      else if HasPrefix (rootMessage e) (ascii "object not found") then
        .ok (some (annotated quote .ErrObjectNotFound key))
      else .ok (classWrap (some packageError) (some e)) := by
  obtain ⟨h1, h2, h3, h4, h5, h6⟩ := classRule_none _ hrule
  simp only [convertKnownErrors, heof, h1, h2, h3, h4, h5, h6, hRE, hNF, rootMessage,
    bucketNotFound_prefix_eq, objectNotFound_prefix_eq, errwrapf_wq_annotated]
  by_cases hb : HasPrefix (errsUnwrap e).Error (ascii "bucket not found") = true
  · simp only [hb, if_true]
    cases sliceFrom (errsUnwrap e).Error ((ascii "bucket not found").length + 2) <;> simp [Except.map]
  · simp [hb]

/-- `convertKnownErrors` on an error with the permission-denied status that no
earlier rule matches. -/
theorem convert_permissionDenied (quote : GoString → GoString) (e : GoErr) (bucket key : GoString)
    (heof : errorsIs (some e) (some (.sentinel .EOF)) = false)
    (hrule : classRule (some e) = none)
    (hRE : IsRPC (some e) rpcstatus.ResourceExhausted = false)
    (hNF : IsRPC (some e) rpcstatus.NotFound = false)
    (hPD : IsRPC (some e) rpcstatus.PermissionDenied = true) :
    convertKnownErrors quote (some e) bucket key =
      .ok (some (.joinedErr
        (.errorT (some .packageError)
          (.wrapError (ascii "permission denied (" ++ (e.Error ++ ascii ")"))
            (.sentinel .ErrPermissionDenied)))
        e rpcstatus.PermissionDenied)) := by
  obtain ⟨h1, h2, h3, h4, h5, h6⟩ := classRule_none _ hrule
  have hw : errwrapf quote (ascii "%w (%v)") (.sentinel .ErrPermissionDenied) [.err e]
      = some (.errorT (some .packageError)
          (.wrapError (ascii "permission denied (" ++ (e.Error ++ ascii ")"))
            (.sentinel .ErrPermissionDenied))) := rfl
  simp only [convertKnownErrors, heof, h1, h2, h3, h4, h5, h6, hRE, hNF, hPD, hw]
  simp

/-- `convertKnownErrors` on an error that has none of the three statuses and
that no earlier rule matches. -/
theorem convert_noStatus (quote : GoString → GoString) (e : GoErr) (bucket key : GoString)
    (heof : errorsIs (some e) (some (.sentinel .EOF)) = false)
    (hrule : classRule (some e) = none)
    (hRE : IsRPC (some e) rpcstatus.ResourceExhausted = false)
    (hNF : IsRPC (some e) rpcstatus.NotFound = false)
    (hPD : IsRPC (some e) rpcstatus.PermissionDenied = false) :
    convertKnownErrors quote (some e) bucket key
      = .ok (classWrap (some packageError) (some e)) := by
  obtain ⟨h1, h2, h3, h4, h5, h6⟩ := classRule_none _ hrule
  simp only [convertKnownErrors, heof, h1, h2, h3, h4, h5, h6, hRE, hNF, hPD]
  simp

end Uplink

namespace Uplink

theorem HasPrefix_append (p r : GoString) : HasPrefix (p ++ r) p = true := by
  simp [HasPrefix, List.isPrefixOf_iff_prefix]

theorem sliceFrom_append (p sep b : GoString) (hsep : sep.length = 2) :
    sliceFrom (p ++ (sep ++ b)) (p.length + 2) = .ok b := by
  have hlen : (p ++ sep).length = p.length + 2 := by simp [hsep]
  have hle : p.length + 2 ≤ (p ++ (sep ++ b)).length := by
    simp only [List.length_append, hsep]; omega
  simp only [sliceFrom, if_pos hle]
  rw [← List.append_assoc, List.drop_left' hlen]

/-- No message starts with both known prefixes. -/
theorem prefixes_exclusive (m : GoString) :
    ¬ (HasPrefix m (ascii "bucket not found") = true
      ∧ HasPrefix m (ascii "object not found") = true) := by
  have hb : ascii "bucket not found" = 98 :: ascii "ucket not found" := by decide
  have ho : ascii "object not found" = 111 :: ascii "bject not found" := by decide
  rw [hb, ho]
  cases m with
  | nil => simp [HasPrefix, List.isPrefixOf]
  | cons c t =>
    simp only [HasPrefix, List.isPrefixOf, Bool.and_eq_true, beq_iff_eq]
    rintro ⟨⟨h1, _⟩, ⟨h2, _⟩⟩
    rw [← h1] at h2
    exact absurd h2 (by decide)

/-- No message ends with both known suffixes. -/
theorem suffixes_exclusive (m : GoString) :
    ¬ (HasSuffix m (ascii "Exceeded Usage Limit") = true
      ∧ HasSuffix m (ascii "Too Many Requests") = true) := by
  have ha : (ascii "Exceeded Usage Limit").reverse = 116 :: (ascii "Exceeded Usage Limi").reverse := by
    decide
  have hb : (ascii "Too Many Requests").reverse = 115 :: (ascii "Too Many Request").reverse := by
    decide
  simp only [HasSuffix, List.isSuffixOf, ha, hb]
  cases m.reverse with
  | nil => simp [List.isPrefixOf]
  | cons c t =>
    simp only [List.isPrefixOf, Bool.and_eq_true, beq_iff_eq]
    rintro ⟨⟨h1, _⟩, ⟨h2, _⟩⟩
    rw [← h1] at h2
    exact absurd h2 (by decide)

/-- C12. Remote not-found recovery by message prefix: for every bucket name
`b` and every error `e` that no earlier rule matches, that carries the RPC
status `NotFound` and whose root message is the bucket-not-found prefix
followed by `": "` and `b`, `convertKnownErrors` returns an error that matches
`ErrBucketNotFound` and carries the quoted `b`, taken from the message,
whatever the bucket argument is. When instead the message starts with the
object-not-found prefix, the result matches `ErrObjectNotFound` and carries the
quoted key argument. The bucket prefix is tested first; no message has both. -/
theorem not_found_by_prefix_of_message (quote : GoString → GoString) (e : GoErr)
    (bucket key b : GoString)
    (heof : errorsIs (some e) (some (.sentinel .EOF)) = false)
    (hrule : classRule (some e) = none)
    (hRE : IsRPC (some e) rpcstatus.ResourceExhausted = false)
    (hNF : IsRPC (some e) rpcstatus.NotFound = true) :
    (rootMessage e = ascii "bucket not found" ++ (ascii ": " ++ b) →
      convertKnownErrors quote (some e) bucket key
          = .ok (some (annotated quote .ErrBucketNotFound b))
      ∧ errorsIs (some (annotated quote .ErrBucketNotFound b))
          (some (.sentinel .ErrBucketNotFound)) = true
      ∧ (annotated quote .ErrBucketNotFound b).Error
          = ascii "uplink: " ++ (ascii "bucket not found" ++ (ascii " (" ++ (quote b ++ ascii ")"))))
    ∧ (HasPrefix (rootMessage e) (ascii "object not found") = true →
      convertKnownErrors quote (some e) bucket key
          = .ok (some (annotated quote .ErrObjectNotFound key))
      ∧ errorsIs (some (annotated quote .ErrObjectNotFound key))
          (some (.sentinel .ErrObjectNotFound)) = true
      ∧ (annotated quote .ErrObjectNotFound key).Error
          = ascii "uplink: " ++ (ascii "object not found" ++ (ascii " (" ++ (quote key ++ ascii ")"))))
    ∧ (classNew .ErrBucketNotFound []).Error = ascii "bucket not found"
    ∧ (classNew .ErrObjectNotFound []).Error = ascii "object not found"
    ∧ ¬ (HasPrefix (rootMessage e) (ascii "bucket not found") = true
        ∧ HasPrefix (rootMessage e) (ascii "object not found") = true) := by
  have hconv := convert_notFound quote e bucket key heof hrule hRE hNF
  refine ⟨?_, ?_, bucketNotFound_prefix_eq, objectNotFound_prefix_eq, prefixes_exclusive _⟩
  · intro hmsg
    refine ⟨?_, errorsIs_annotated _ _ _, annotated_Error _ _ _⟩
    rw [hconv, hmsg, if_pos (HasPrefix_append _ _), sliceFrom_append _ _ _ (by decide)]
    rfl
  · intro hobj
    refine ⟨?_, errorsIs_annotated _ _ _, annotated_Error _ _ _⟩
    have hnb : ¬ HasPrefix (rootMessage e) (ascii "bucket not found") = true :=
      fun hb => prefixes_exclusive _ ⟨hb, hobj⟩
    rw [hconv, if_neg hnb, if_pos hobj]

theorem not_found_by_prefix_of_message_witness :
    rootMessage (.codeErr (.errorT (some .ErrNoBucket)
        (.errorString (ascii "bucket not found: photos"))) rpcstatus.NotFound)
      = ascii "bucket not found" ++ (ascii ": " ++ ascii "photos")
    ∧ classRule (some (.codeErr (.errorT (some .ErrNoBucket)
        (.errorString (ascii "bucket not found: photos"))) rpcstatus.NotFound)) = none
    ∧ convertKnownErrors Library.sample.quote
        (some (.codeErr (.errorT (some .ErrNoBucket)
          (.errorString (ascii "bucket not found: photos"))) rpcstatus.NotFound))
        (ascii "other") (ascii "key")
      = .ok (some (annotated Library.sample.quote .ErrBucketNotFound (ascii "photos"))) :=
  ⟨by decide, by decide,
    ((not_found_by_prefix_of_message Library.sample.quote
      (.codeErr (.errorT (some .ErrNoBucket) (.errorString (ascii "bucket not found: photos")))
        rpcstatus.NotFound)
      (ascii "other") (ascii "key") (ascii "photos") (by decide) (by decide) (by decide)
      (by decide)).1 (by decide)).1⟩

theorem classWrap_packageError (e : GoErr) :
    classWrap (some packageError) (some e) = some e
    ∨ classWrap (some packageError) (some e) = some (.errorT (some .packageError) e) := by
  cases e with
  | errorT cls err =>
    by_cases h : cls = some Class.packageError
    · left; simp [classWrap, h, packageError]
    · right; simp [classWrap, h, packageError]
  | _ => right; rfl

/-- An error in the class of the package matches the error variables the
error it wraps matches. -/
theorem errorsIs_classWrap_sentinel (e : GoErr) (v : Sentinel) :
    errorsIs (classWrap (some packageError) (some e)) (some (.sentinel v))
      = errorsIs (some e) (some (.sentinel v)) := by
  rcases classWrap_packageError e with h | h
  · rw [h]
  · rw [h]; simp [errorsIs, errorsIsChain]

/-- C13. Resource-exhausted classification by message suffix: for every error
`e` that no earlier rule matches and that has the RPC status
`ResourceExhausted`, `convertKnownErrors` returns an error that matches
`ErrBandwidthLimitExceeded` when the root message of `e` ends with "Exceeded
Usage Limit", and one that matches `ErrTooManyRequests` when it ends with "Too
Many Requests"; both results carry the status `ResourceExhausted` and are in
the class of the package; no message has both suffixes; otherwise the result
is `packageError.Wrap(e)`, which matches an error variable exactly when `e`
does. -/
theorem resource_exhausted_by_suffix (quote : GoString → GoString) (e : GoErr)
    (bucket key : GoString)
    (heof : errorsIs (some e) (some (.sentinel .EOF)) = false)
    (hrule : classRule (some e) = none)
    (hRE : IsRPC (some e) rpcstatus.ResourceExhausted = true) :
    (HasSuffix (rootMessage e) (ascii "Exceeded Usage Limit") = true →
      ∃ r, convertKnownErrors quote (some e) bucket key = .ok (some r)
        ∧ errorsIs (some r) (some (.sentinel .ErrBandwidthLimitExceeded)) = true
        ∧ errorsIs (some r) (some (.sentinel .ErrTooManyRequests)) = false
        ∧ IsRPC (some r) rpcstatus.ResourceExhausted = true
        ∧ Class.packageError.Has (some r) = true)
    ∧ (HasSuffix (rootMessage e) (ascii "Too Many Requests") = true →
      ∃ r, convertKnownErrors quote (some e) bucket key = .ok (some r)
        ∧ errorsIs (some r) (some (.sentinel .ErrTooManyRequests)) = true
        ∧ errorsIs (some r) (some (.sentinel .ErrBandwidthLimitExceeded)) = false
        ∧ IsRPC (some r) rpcstatus.ResourceExhausted = true
        ∧ Class.packageError.Has (some r) = true)
    ∧ (∀ m : GoString, ¬ (HasSuffix m (ascii "Exceeded Usage Limit") = true
        ∧ HasSuffix m (ascii "Too Many Requests") = true))
    ∧ (HasSuffix (rootMessage e) (ascii "Exceeded Usage Limit") = false →
      HasSuffix (rootMessage e) (ascii "Too Many Requests") = false →
      convertKnownErrors quote (some e) bucket key
          = .ok (classWrap (some packageError) (some e))
      ∧ ∀ v : Sentinel, errorsIs (classWrap (some packageError) (some e)) (some (.sentinel v))
          = errorsIs (some e) (some (.sentinel v))) := by
  have hconv := convert_exhausted quote e bucket key heof hrule hRE
  refine ⟨?_, ?_, suffixes_exclusive, ?_⟩
  · intro ha
    refine ⟨_, by rw [hconv, if_pos ha], by decide, by decide, by decide, by decide⟩
  · intro hb
    have hna : ¬ HasSuffix (rootMessage e) (ascii "Exceeded Usage Limit") = true :=
      fun ha => suffixes_exclusive _ ⟨ha, hb⟩
    refine ⟨_, by rw [hconv, if_neg hna, if_pos hb], by decide, by decide, by decide, by decide⟩
  · intro ha hb
    refine ⟨?_, errorsIs_classWrap_sentinel e⟩
    rw [hconv, ha, hb]
    simp

theorem resource_exhausted_by_suffix_witness :
    classRule (some (.combinedError
        (.codeErr (.errorT none (.errorString (ascii "project: Too Many Requests")))
          rpcstatus.ResourceExhausted)
        (classNew .ErrMissingEncryptionBase (ascii "bucket/key")))) = none
    ∧ ∃ r, convertKnownErrors Library.sample.quote
        (some (.combinedError
          (.codeErr (.errorT none (.errorString (ascii "project: Too Many Requests")))
            rpcstatus.ResourceExhausted)
          (classNew .ErrMissingEncryptionBase (ascii "bucket/key"))))
        (ascii "bucket") (ascii "key") = .ok (some r)
      ∧ errorsIs (some r) (some (.sentinel .ErrTooManyRequests)) = true :=
  ⟨by decide,
    match (resource_exhausted_by_suffix Library.sample.quote
      (.combinedError
        (.codeErr (.errorT none (.errorString (ascii "project: Too Many Requests")))
          rpcstatus.ResourceExhausted)
        (classNew .ErrMissingEncryptionBase (ascii "bucket/key")))
      (ascii "bucket") (ascii "key") (by decide) (by decide) (by decide)).2.1 (by decide) with
    | ⟨r, h1, h2, _⟩ => ⟨r, h1, h2⟩⟩

end Uplink

namespace Uplink

/-! ## The composite error -/

theorem errorsIsChain_self (e : GoErr) (h : e.comparable = true) : errorsIsChain e e = true := by
  cases e <;> simp_all [errorsIsChain, GoErr.comparable]

theorem errorsIsChain_joined_of_alt (t main alt : GoErr) (code : StatusCode)
    (h : errorsIsChain t alt = true) : errorsIsChain t (.joinedErr main alt code) = true := by
  simp [errorsIsChain, h]

/-- `rpcstatus.Code` of a composite error is its code, unless one of its two
errors matches `context.Canceled` or `context.DeadlineExceeded`. -/
theorem rpcstatus_Code_joinedErr (main alt : GoErr) (code : StatusCode)
    (hm1 : errorsIs (some main) (some (.sentinel .Canceled)) = false)
    (hm2 : errorsIs (some main) (some (.sentinel .DeadlineExceeded)) = false)
    (ha1 : errorsIs (some alt) (some (.sentinel .Canceled)) = false)
    (ha2 : errorsIs (some alt) (some (.sentinel .DeadlineExceeded)) = false) :
    rpcstatus.Code (some (.joinedErr main alt code)) = code := by
  simp only [errorsIs] at hm1 hm2 ha1 ha2
  have h1 : errorsIs (some (.joinedErr main alt code)) (some (.sentinel .Canceled)) = false := by
    simp [errorsIs, errorsIsChain, hm1, ha1]
  have h2 : errorsIs (some (.joinedErr main alt code)) (some (.sentinel .DeadlineExceeded))
      = false := by
    simp [errorsIs, errorsIsChain, hm2, ha2]
  simp only [rpcstatus.Code, h1, h2]
  rfl

/-- C14, as the claim states it, fails: the group of two errors that
`errs.Combine` builds (as in `PartUpload.Commit`, when both closes fail) has
the RPC status `PermissionDenied` through its first member and matches no
earlier rule, and the composite error `convertKnownErrors` returns for it does
not match it under `errors.Is`: a group is a slice, which `errors.Is` never
compares. And for the group of `context.Canceled` and a permission-denied
error, `rpcstatus.Code` of the composite error is `Canceled`, not
`PermissionDenied`, while `errs2.IsRPC` still finds `PermissionDenied`. -/
theorem permission_denied_group_not_matched :
    errorsIs (some (.combinedError
        (.codeErr (.errorT none (.errorString (ascii "denied"))) rpcstatus.PermissionDenied)
        (.errorString (ascii "close failed")))) (some (.sentinel .EOF)) = false
    ∧ classRule (some (.combinedError
        (.codeErr (.errorT none (.errorString (ascii "denied"))) rpcstatus.PermissionDenied)
        (.errorString (ascii "close failed")))) = none
    ∧ IsRPC (some (.combinedError
        (.codeErr (.errorT none (.errorString (ascii "denied"))) rpcstatus.PermissionDenied)
        (.errorString (ascii "close failed")))) rpcstatus.ResourceExhausted = false
    ∧ IsRPC (some (.combinedError
        (.codeErr (.errorT none (.errorString (ascii "denied"))) rpcstatus.PermissionDenied)
        (.errorString (ascii "close failed")))) rpcstatus.NotFound = false
    ∧ IsRPC (some (.combinedError
        (.codeErr (.errorT none (.errorString (ascii "denied"))) rpcstatus.PermissionDenied)
        (.errorString (ascii "close failed")))) rpcstatus.PermissionDenied = true
    ∧ errsCombine
        (some (.codeErr (.errorT none (.errorString (ascii "denied"))) rpcstatus.PermissionDenied))
        (some (.errorString (ascii "close failed")))
      = some (.combinedError
        (.codeErr (.errorT none (.errorString (ascii "denied"))) rpcstatus.PermissionDenied)
        (.errorString (ascii "close failed")))
    ∧ (∃ r, convertKnownErrors Library.sample.quote (some (.combinedError
        (.codeErr (.errorT none (.errorString (ascii "denied"))) rpcstatus.PermissionDenied)
        (.errorString (ascii "close failed")))) (ascii "bucket") (ascii "key") = .ok (some r)
      ∧ errorsIs (some r) (some (.sentinel .ErrPermissionDenied)) = true
      ∧ errorsIs (some r) (some (.combinedError
        (.codeErr (.errorT none (.errorString (ascii "denied"))) rpcstatus.PermissionDenied)
        (.errorString (ascii "close failed")))) = false)
    ∧ ∃ r, convertKnownErrors Library.sample.quote (some (.combinedError
        (.sentinel .Canceled)
        (.codeErr (.errorT none (.errorString (ascii "denied"))) rpcstatus.PermissionDenied)))
        (ascii "bucket") (ascii "key") = .ok (some r)
      ∧ IsRPC (some r) rpcstatus.PermissionDenied = true
      ∧ rpcstatus.Code (some r) = rpcstatus.Canceled :=
  ⟨by decide, by decide, by decide, by decide, by decide, rfl,
    ⟨_, convert_permissionDenied Library.sample.quote _ (ascii "bucket") (ascii "key")
      (by decide) (by decide) (by decide) (by decide) (by decide), by decide, by decide⟩,
    _, convert_permissionDenied Library.sample.quote _ (ascii "bucket") (ascii "key")
      (by decide) (by decide) (by decide) (by decide) (by decide), by decide, by decide⟩

/-- C14, amended: for every error `e` with the RPC status `PermissionDenied`
that no earlier rule matches, `convertKnownErrors` returns a composite error
`r` with `errors.Is(r, ErrPermissionDenied)`; `r` retains the original error
unmodified (`Ungroup` returns the normalized error and `e`); `r` matches every
target that `e` matches, so `errors.Is(r, e)` holds whenever `e` is of a
comparable type (every error but a group of `errs.Combine`); and `r` reports
the RPC status `PermissionDenied`: to `errs2.IsRPC`, through its method `Code`,
and to `rpcstatus.Code` unless `e` matches `context.Canceled` or
`context.DeadlineExceeded`. -/
theorem permission_denied_dual_matching (quote : GoString → GoString) (e : GoErr)
    (bucket key : GoString)
    (heof : errorsIs (some e) (some (.sentinel .EOF)) = false)
    (hrule : classRule (some e) = none)
    (hRE : IsRPC (some e) rpcstatus.ResourceExhausted = false)
    (hNF : IsRPC (some e) rpcstatus.NotFound = false)
    (hPD : IsRPC (some e) rpcstatus.PermissionDenied = true) :
    ∃ main, convertKnownErrors quote (some e) bucket key
        = .ok (some (.joinedErr main e rpcstatus.PermissionDenied))
      ∧ errorsIs (some main) (some (.sentinel .ErrPermissionDenied)) = true
      ∧ Class.packageError.Has (some main) = true
      ∧ errorsIs (some (.joinedErr main e rpcstatus.PermissionDenied))
          (some (.sentinel .ErrPermissionDenied)) = true
      ∧ (GoErr.joinedErr main e rpcstatus.PermissionDenied).Ungroup = some [main, e]
      ∧ (∀ t : GoErr, errorsIs (some e) (some t) = true →
          errorsIs (some (.joinedErr main e rpcstatus.PermissionDenied)) (some t) = true)
      ∧ (e.comparable = true →
          errorsIs (some (.joinedErr main e rpcstatus.PermissionDenied)) (some e) = true)
      ∧ IsRPC (some (.joinedErr main e rpcstatus.PermissionDenied)) rpcstatus.PermissionDenied
          = true
      ∧ (GoErr.joinedErr main e rpcstatus.PermissionDenied).Code
          = some rpcstatus.PermissionDenied
      ∧ (errorsIs (some e) (some (.sentinel .Canceled)) = false →
          errorsIs (some e) (some (.sentinel .DeadlineExceeded)) = false →
          rpcstatus.Code (some (.joinedErr main e rpcstatus.PermissionDenied))
            = rpcstatus.PermissionDenied) := by
  refine ⟨_, convert_permissionDenied quote e bucket key heof hrule hRE hNF hPD, ?_, ?_, ?_, rfl,
    ?_, ?_, ?_, rfl, ?_⟩
  · simp [errorsIs, errorsIsChain, GoErr.comparable]
  · simp [Class.Has, Class.HasChain]
  · simp [errorsIs, errorsIsChain, GoErr.comparable]
  · intro t ht
    exact errorsIsChain_joined_of_alt t _ e _ ht
  · intro hc
    exact errorsIsChain_joined_of_alt e _ e _ (errorsIsChain_self e hc)
  · simp only [IsRPC] at hPD ⊢
    simp [IsFuncChain, hPD]
  · intro h1 h2
    exact rpcstatus_Code_joinedErr _ _ _ (by simp [errorsIs, errorsIsChain, GoErr.comparable])
      (by simp [errorsIs, errorsIsChain, GoErr.comparable]) h1 h2

theorem permission_denied_dual_matching_witness :
    ∃ main, convertKnownErrors Library.sample.quote
        (some (.codeErr (.errorT none (.errorString (ascii "denied"))) rpcstatus.PermissionDenied))
        (ascii "bucket") (ascii "key")
        = .ok (some (.joinedErr main
            (.codeErr (.errorT none (.errorString (ascii "denied"))) rpcstatus.PermissionDenied)
            rpcstatus.PermissionDenied))
      ∧ errorsIs (some (.joinedErr main
            (.codeErr (.errorT none (.errorString (ascii "denied"))) rpcstatus.PermissionDenied)
            rpcstatus.PermissionDenied))
          (some (.codeErr (.errorT none (.errorString (ascii "denied")))
            rpcstatus.PermissionDenied)) = true
      ∧ rpcstatus.Code (some (.joinedErr main
            (.codeErr (.errorT none (.errorString (ascii "denied"))) rpcstatus.PermissionDenied)
            rpcstatus.PermissionDenied)) = rpcstatus.PermissionDenied :=
  match permission_denied_dual_matching Library.sample.quote
      (.codeErr (.errorT none (.errorString (ascii "denied"))) rpcstatus.PermissionDenied)
      (ascii "bucket") (ascii "key") (by decide) (by decide) (by decide) (by decide)
      (by decide) with
  | ⟨main, h1, _, _, _, _, _, h7, _, _, h10⟩ => ⟨main, h1, h7 (by decide), h10 (by decide) (by decide)⟩

/-- C15. Composite error contract: for every `joinedErr` with the fields
`main`, `alt` and `code` and every target, `Is(target)` is true exactly when
`errors.Is(main, target)` or `errors.Is(alt, target)`; `As(target)` succeeds
exactly when `errors.As` succeeds on `main` or, failing that, on `alt`, and
stores what that call stores (`main` is tried first); `Code()` is `code`;
`Unwrap()` is `main`; `Error()` is the message of `main`; `Ungroup()` is the
list `[main, alt]`. `errors.Is` and `errors.As` on the composite error itself
consult these methods. -/
theorem composite_error_contract (main alt : GoErr) (code : StatusCode) (target : Option GoErr)
    (assignable : ErrKind → Bool) :
    (joinedErr.Is main alt target = true
      ↔ errorsIs (some main) target = true ∨ errorsIs (some alt) target = true)
    ∧ ((joinedErr.As main alt assignable).isSome = true
      ↔ (errorsAs (some main) assignable).isSome = true
        ∨ (errorsAs (some alt) assignable).isSome = true)
    ∧ (∀ x, errorsAs (some main) assignable = some x → joinedErr.As main alt assignable = some x)
    ∧ (errorsAs (some main) assignable = none →
        joinedErr.As main alt assignable = errorsAs (some alt) assignable)
    ∧ (GoErr.joinedErr main alt code).Code = some code
    ∧ (GoErr.joinedErr main alt code).Unwrap = some main
    ∧ (GoErr.joinedErr main alt code).Error = main.Error
    ∧ (GoErr.joinedErr main alt code).Ungroup = some [main, alt]
    ∧ (∀ t : GoErr, errorsIs (some (.joinedErr main alt code)) (some t)
        = ((t.comparable && decide (GoErr.joinedErr main alt code = t))
            || joinedErr.Is main alt (some t)))
    ∧ errorsAs (some (.joinedErr main alt code)) assignable
        = (if assignable .joinedErr then some (.joinedErr main alt code)
           else joinedErr.As main alt assignable) := by
  refine ⟨by simp [joinedErr.Is], ?_, ?_, ?_, rfl, rfl, rfl, rfl, ?_, ?_⟩
  · simp only [joinedErr.As]
    cases h1 : errorsAs (some main) assignable with
    | some x => simp
    | none => cases h2 : errorsAs (some alt) assignable <;> simp
  · intro x hx
    simp [joinedErr.As, hx]
  · intro h1
    simp only [joinedErr.As, h1]
    cases errorsAs (some alt) assignable <;> rfl
  · intro t
    simp only [errorsIs, errorsIsChain, joinedErr.Is]
    cases (t.comparable && decide (GoErr.joinedErr main alt code = t)) <;>
      cases errorsIsChain t main <;> cases errorsIsChain t alt <;> rfl
  · simp only [errorsAs, errorsAsChain, joinedErr.As]
    cases assignable .joinedErr with
    | true => simp
    | false =>
      cases h1 : errorsAsChain assignable main with
      | some x => simp
      | none => cases h2 : errorsAsChain assignable alt <;> simp [h1]

end Uplink

namespace Uplink

/-! ## The generic fallback -/

theorem classWrap_packageError_cases (e : GoErr) :
    (classWrap (some packageError) (some e) = some e
      ∧ ∃ x, e = .errorT (some .packageError) x)
    ∨ classWrap (some packageError) (some e) = some (.errorT (some .packageError) e) := by
  cases e with
  | errorT cls err =>
    by_cases h : cls = some Class.packageError
    · left; subst h; exact ⟨by simp [classWrap, packageError], _, rfl⟩
    · right; simp [classWrap, h, packageError]
  | _ => right; rfl

/-- `convertKnownErrors` on an error that no specific rule matches. -/
theorem convert_unmatched (quote : GoString → GoString) (e : GoErr) (bucket key : GoString)
    (h : unmatched e) :
    convertKnownErrors quote (some e) bucket key
      = .ok (classWrap (some packageError) (some e)) := by
  obtain ⟨heof, hrule, hre, hnf, hpd⟩ := h
  cases hRE : IsRPC (some e) rpcstatus.ResourceExhausted with
  | true =>
    obtain ⟨ha, hb⟩ := hre hRE
    rw [convert_exhausted quote e bucket key heof hrule hRE, ha, hb]
    simp
  | false =>
    cases hNF : IsRPC (some e) rpcstatus.NotFound with
    | true =>
      obtain ⟨ha, hb⟩ := hnf hRE hNF
      rw [convert_notFound quote e bucket key heof hrule hRE hNF, ha, hb]
      simp
    | false =>
      exact convert_noStatus quote e bucket key heof hrule hRE hNF (hpd hRE hNF)

/-- C16, as the claim states it, fails: the group `errs.Combine` builds from
two plain errors matches no specific rule, `convertKnownErrors` returns it
wrapped in the class of the package, and `errors.Is(result, e)` is false: a
group is a slice, which `errors.Is` never compares. -/
theorem fallback_group_not_matched :
    unmatched (.combinedError (.errorString (ascii "sink failed"))
        (.errorString (ascii "store failed")))
    ∧ convertKnownErrors Library.sample.quote
        (some (.combinedError (.errorString (ascii "sink failed"))
          (.errorString (ascii "store failed")))) (ascii "bucket") (ascii "key")
      = .ok (some (.errorT (some .packageError)
          (.combinedError (.errorString (ascii "sink failed"))
            (.errorString (ascii "store failed")))))
    ∧ errorsIs (some (.errorT (some .packageError)
          (.combinedError (.errorString (ascii "sink failed"))
            (.errorString (ascii "store failed")))))
        (some (.combinedError (.errorString (ascii "sink failed"))
          (.errorString (ascii "store failed")))) = false := by
  have hu : unmatched (.combinedError (.errorString (ascii "sink failed"))
      (.errorString (ascii "store failed"))) := by
    unfold unmatched
    decide
  exact ⟨hu, convert_unmatched Library.sample.quote _ (ascii "bucket") (ascii "key") hu,
    by decide⟩

/-- C16, amended: for every non-nil error `e` that matches none of the specific
rules (a resource-exhausted status with neither known suffix and a not-found
status with neither known prefix included), `convertKnownErrors` returns
`packageError.Wrap(e)`: an error of the class of the package that is `e`
itself or unwraps to `e`, and that matches every target `e` matches; so
`errors.Is(result, e)` holds whenever `e` is of a comparable type (every error
but a group of `errs.Combine`). -/
theorem generic_fallback_keeps_cause (quote : GoString → GoString) (e : GoErr)
    (bucket key : GoString) (h : unmatched e) :
    ∃ r, convertKnownErrors quote (some e) bucket key = .ok (some r)
      ∧ classWrap (some packageError) (some e) = some r
      ∧ Class.packageError.Has (some r) = true
      ∧ (r = e ∨ (r = .errorT (some packageError) e ∧ r.Unwrap = some e))
      ∧ (∀ t : GoErr, errorsIs (some e) (some t) = true → errorsIs (some r) (some t) = true)
      ∧ (e.comparable = true → errorsIs (some r) (some e) = true) := by
  have hconv := convert_unmatched quote e bucket key h
  have his : ∀ t : GoErr, errorsIs (some e) (some t) = true →
      errorsIs (some (GoErr.errorT (some Class.packageError) e)) (some t) = true := by
    intro t ht
    simp only [errorsIs] at ht ⊢
    simp [errorsIsChain, ht]
  rcases classWrap_packageError_cases e with ⟨hw, x, hx⟩ | hw
  · refine ⟨e, by rw [hconv, hw], hw, ?_, Or.inl rfl, fun t ht => ht, ?_⟩
    · rw [hx]; simp [Class.Has, Class.HasChain]
    · intro hc; exact errorsIsChain_self e hc
  · refine ⟨_, by rw [hconv, hw], hw, ?_, Or.inr ⟨rfl, rfl⟩, his, ?_⟩
    · simp [Class.Has, Class.HasChain]
    · intro hc; exact his e (errorsIsChain_self e hc)

theorem generic_fallback_keeps_cause_witness :
    unmatched (.wrapError (ascii "open: missing encryption base: k")
      (classNew .ErrMissingEncryptionBase (ascii "k")))
    ∧ ∃ r, convertKnownErrors Library.sample.quote
        (some (.wrapError (ascii "open: missing encryption base: k")
          (classNew .ErrMissingEncryptionBase (ascii "k"))))
        (ascii "bucket") (ascii "key") = .ok (some r)
      ∧ r = .errorT (some .packageError) (.wrapError (ascii "open: missing encryption base: k")
          (classNew .ErrMissingEncryptionBase (ascii "k")))
      ∧ errorsIs (some r) (some (.wrapError (ascii "open: missing encryption base: k")
          (classNew .ErrMissingEncryptionBase (ascii "k")))) = true := by
  have hu : unmatched (.wrapError (ascii "open: missing encryption base: k")
      (classNew .ErrMissingEncryptionBase (ascii "k"))) := by
    unfold unmatched
    decide
  obtain ⟨r, h1, h2, _, _, _, h6⟩ := generic_fallback_keeps_cause Library.sample.quote
    (.wrapError (ascii "open: missing encryption base: k")
      (classNew .ErrMissingEncryptionBase (ascii "k"))) (ascii "bucket") (ascii "key") hu
  exact ⟨hu, r, h1, (Option.some.inj h2).symm, h6 rfl⟩

/-! ## Listing -/

/-- C20. Pagination cursor contract of `ListOptions.NextPage`: for every
options value `opts` and every object list with `More` true and at least one
item, `NextPage` returns options whose `Cursor` is the `Path` of the last item,
whose `Direction` is `After` (forwards, without the cursor), and whose
`Prefix`, `Delimiter`, `Recursive` and `Limit` are those of `opts` (the other
fields are zero); when `More` is false or the list has no items it returns the
zero `ListOptions`; the index expression never panics. -/
theorem next_page_cursor_contract (opts : metaclient.ListOptions) (list : metaclient.ObjectList) :
    (list.More = true → list.Items ≠ [] →
      ∃ last, list.Items.getLast? = some last
        ∧ opts.NextPage list = .ok
            { Prefix := opts.Prefix,
              Cursor := last.Path,
              Delimiter := opts.Delimiter,
              Recursive := opts.Recursive,
              Direction := metaclient.After,
              Limit := opts.Limit,
              IncludeCustomMetadata := false,
              IncludeSystemMetadata := false,
              Status := 0 })
    ∧ ((list.More = false ∨ list.Items = []) → opts.NextPage list = .ok {})
    ∧ (∀ p, opts.NextPage list ≠ .error p)
    ∧ metaclient.After ≠ metaclient.Forward := by
  have hcases : ∀ (l : List metaclient.Object), l ≠ [] →
      ∃ last, l.getLast? = some last ∧ l[l.length - 1]? = some last := by
    intro l hl
    refine ⟨l.getLast hl, List.getLast?_eq_getLast _ hl, ?_⟩
    rw [← List.getLast?_eq_getElem?, List.getLast?_eq_getLast _ hl]
  refine ⟨?_, ?_, ?_, by decide⟩
  · intro hmore hne
    obtain ⟨last, h1, h2⟩ := hcases list.Items hne
    have hlen : ¬ list.Items.length = 0 := by
      intro h0; exact hne (List.length_eq_zero.1 h0)
    refine ⟨last, h1, ?_⟩
    simp [metaclient.ListOptions.NextPage, hmore, hlen, h2]
  · rintro (hmore | hempty)
    · simp [metaclient.ListOptions.NextPage, hmore]
    · simp [metaclient.ListOptions.NextPage, hempty]
  · intro p
    by_cases hmore : list.More = true
    · by_cases hne : list.Items = []
      · simp [metaclient.ListOptions.NextPage, hne]
      · obtain ⟨last, _, h2⟩ := hcases list.Items hne
        have hlen : ¬ list.Items.length = 0 := by
          intro h0; exact hne (List.length_eq_zero.1 h0)
        simp [metaclient.ListOptions.NextPage, hmore, hlen, h2]
    · simp [metaclient.ListOptions.NextPage, hmore]

theorem next_page_cursor_contract_witness :
    ({ Prefix := ascii "a/", Limit := 10, Status := 1 } : metaclient.ListOptions).NextPage
        { More := true, Items := [{ Path := ascii "x" }, { Path := ascii "y" }] }
      = .ok { Prefix := ascii "a/", Cursor := ascii "y", Direction := metaclient.After,
              Limit := 10 } :=
  match (next_page_cursor_contract { Prefix := ascii "a/", Limit := 10, Status := 1 }
      { More := true, Items := [{ Path := ascii "x" }, { Path := ascii "y" }] }).1 rfl
      (by decide) with
  | ⟨_, hlast, h⟩ => by
    simp only [List.getLast?, List.getLast, Option.some.injEq] at hlast
    subst hlast
    exact h

end Uplink

namespace Uplink

/-! ## `CommitUpload` -/

theorem classWrap_isSome (c : Option Class) (e : GoErr) : (classWrap c (some e)).isSome = true := by
  cases e <;> simp [classWrap]
  split <;> rfl

theorem errwrapf_isSome (quote : GoString → GoString) (format : GoString) (e : GoErr)
    (args : List FmtArg) : (errwrapf quote format e args).isSome = true :=
  classWrap_isSome _ _

theorem acceptedUploadID_some (uploadID : GoString) (d : List Byte)
    (h : decodeUploadID uploadID = .ok (some d)) : acceptedUploadID uploadID = some d := by
  simp [acceptedUploadID, h]

theorem acceptedUploadID_none (uploadID : GoString)
    (h : decodeUploadID uploadID = .ok none) : acceptedUploadID uploadID = none := by
  simp [acceptedUploadID, h]

theorem acceptedUploadID_panic (uploadID panic : GoString)
    (h : decodeUploadID uploadID = .error panic) : acceptedUploadID uploadID = none := by
  simp [acceptedUploadID, h]

/-- When the preparation fails, `CommitUpload` panics in the decoding of the
upload ID, or returns no object and a non-nil error; it has called nothing but
the random source. -/
theorem CommitUpload_unprepared (lib : Library) (project : Project) (randPos : Nat)
    (bucket key uploadID : GoString) (opts : Option CommitUploadOptions)
    (h : commitPayload lib project randPos bucket key uploadID opts = none) :
    (∃ panic, decodeUploadID uploadID = .error panic
      ∧ CommitUpload lib project randPos bucket key uploadID opts = { result := .error panic })
    ∨ ∃ err tr, CommitUpload lib project randPos bucket key uploadID opts
        = { result := .ok (none, err), trace := tr }
      ∧ err.isSome = true ∧ ∀ ev ∈ tr, ev.isRandRead = true := by
  unfold commitPayload at h
  unfold CommitUpload
  by_cases hb : bucket = []
  · right
    exact ⟨errwrapf lib.quote (ascii "%w (%q)") (.sentinel .ErrBucketNameInvalid) [.str bucket],
      [], by simp only [hb, if_true], errwrapf_isSome _ _ _ _, by simp⟩
  by_cases hk : key = []
  · right
    exact ⟨errwrapf lib.quote (ascii "%w (%q)") (.sentinel .ErrObjectKeyInvalid) [.str key],
      [], by simp only [hb, hk, if_true, if_false], errwrapf_isSome _ _ _ _, by simp⟩
  by_cases hu : uploadID = []
  · right
    exact ⟨classWrap (some packageError) (some (.sentinel .ErrUploadIDInvalid)),
      [], by simp only [hb, hk, hu, if_true, if_false], classWrap_isSome _ _, by simp⟩
  simp only [hb, hk, hu, or_self, if_false] at h ⊢
  cases hd : decodeUploadID uploadID with
  | error panic => left; exact ⟨panic, rfl, rfl⟩
  | ok o =>
  cases o with
  | none => right; exact ⟨_, _, rfl, classWrap_isSome _ _, by simp⟩
  | some sid =>
  right
  have ha := acceptedUploadID_some uploadID _ hd
  dsimp only
  cases h1 : lib.StreamIDFromBytes sid with
  | error e => exact ⟨_, _, rfl, classWrap_isSome _ _, by simp⟩
  | ok id =>
  dsimp only
  cases h2 : lib.marshalSerializableMeta (opts.getD {}).CustomMetadata with
  | error e => exact ⟨_, _, rfl, classWrap_isSome _ _, by simp⟩
  | ok mb =>
  dsimp only
  cases h3 : lib.marshalStreamInfo mb with
  | error e => exact ⟨_, _, rfl, classWrap_isSome _ _, by simp⟩
  | ok si =>
  dsimp only
  cases h4 : project.deriveContentKey bucket key with
  | error e => exact ⟨_, _, rfl, classWrap_isSome _ _, by simp⟩
  | ok dk =>
  dsimp only
  cases h5 : lib.randRead randPos keySize with
  | error e => exact ⟨_, _, rfl, classWrap_isSome _ _, by simp [Event.isRandRead]⟩
  | ok mk =>
  dsimp only
  cases h6 : lib.randRead (randPos + 1) nonceSize with
  | error e => exact ⟨_, _, rfl, classWrap_isSome _ _, by simp [Event.isRandRead]⟩
  | ok nonce =>
  dsimp only
  cases h7 : lib.EncryptKey mk project.encryptionParameters.CipherSuite dk nonce with
  | error e => exact ⟨_, _, rfl, classWrap_isSome _ _, by simp [Event.isRandRead]⟩
  | ok ek =>
  dsimp only
  cases h8 : lib.Encrypt si project.encryptionParameters.CipherSuite mk
      (List.replicate nonceSize 0) with
  | error e => exact ⟨_, _, rfl, classWrap_isSome _ _, by simp [Event.isRandRead]⟩
  | ok esi =>
  dsimp only
  cases h9 : lib.marshalStreamMeta esi with
  | error e => exact ⟨_, _, rfl, classWrap_isSome _ _, by simp [Event.isRandRead]⟩
  | ok smb =>
    simp [ha, h1, h2, h3, h4, h5, h6, h7, h8, h9, Except.toOption] at h

end Uplink

namespace Uplink

set_option maxHeartbeats 1000000 in
/-- What the preparation has done when it yields a payload. -/
theorem commitPayload_some (lib : Library) (project : Project) (randPos : Nat)
    (bucket key uploadID : GoString) (opts : Option CommitUploadOptions) (p : CommitObjectParams)
    (h : commitPayload lib project randPos bucket key uploadID opts = some p) :
    bucket ≠ [] ∧ key ≠ [] ∧ uploadID ≠ []
    ∧ ∃ sid mb si dk mk esi,
      decodeUploadID uploadID = .ok (some sid)
      ∧ lib.StreamIDFromBytes sid = .ok p.StreamID
      ∧ lib.marshalSerializableMeta (opts.getD {}).CustomMetadata = .ok mb
      ∧ lib.marshalStreamInfo mb = .ok si
      ∧ project.deriveContentKey bucket key = .ok dk
      ∧ lib.randRead randPos keySize = .ok mk
      ∧ lib.randRead (randPos + 1) nonceSize = .ok p.EncryptedMetadataNonce
      ∧ lib.EncryptKey mk project.encryptionParameters.CipherSuite dk p.EncryptedMetadataNonce
          = .ok p.EncryptedMetadataEncryptedKey
      ∧ lib.Encrypt si project.encryptionParameters.CipherSuite mk (List.replicate nonceSize 0)
          = .ok esi
      ∧ lib.marshalStreamMeta esi = .ok p.EncryptedMetadata := by
  unfold commitPayload at h
  by_cases hb : bucket = []
  · simp [hb] at h
  by_cases hk : key = []
  · simp [hk] at h
  by_cases hu : uploadID = []
  · simp [hu] at h
  simp only [hb, hk, hu, or_self, if_false] at h
  refine ⟨hb, hk, hu, ?_⟩
  cases hd0 : decodeUploadID uploadID with
  | error panic => simp [acceptedUploadID_panic uploadID _ hd0] at h
  | ok o =>
  cases o with
  | none => simp [acceptedUploadID_none uploadID hd0] at h
  | some sid =>
  have hd := acceptedUploadID_some uploadID _ hd0
  cases h1 : lib.StreamIDFromBytes sid with
  | error e => simp [hd, h1, Except.toOption] at h
  | ok id =>
  cases h2 : lib.marshalSerializableMeta (opts.getD {}).CustomMetadata with
  | error e => simp [hd, h1, h2, Except.toOption] at h
  | ok mb =>
  cases h3 : lib.marshalStreamInfo mb with
  | error e => simp [hd, h1, h2, h3, Except.toOption] at h
  | ok si =>
  cases h4 : project.deriveContentKey bucket key with
  | error e => simp [hd, h1, h2, h3, h4, Except.toOption] at h
  | ok dk =>
  cases h5 : lib.randRead randPos keySize with
  | error e => simp [hd, h1, h2, h3, h4, h5, Except.toOption] at h
  | ok mk =>
  cases h6 : lib.randRead (randPos + 1) nonceSize with
  | error e => simp [hd, h1, h2, h3, h4, h5, h6, Except.toOption] at h
  | ok nonce =>
  cases h7 : lib.EncryptKey mk project.encryptionParameters.CipherSuite dk nonce with
  | error e => simp [hd, h1, h2, h3, h4, h5, h6, h7, Except.toOption] at h
  | ok ek =>
  cases h8 : lib.Encrypt si project.encryptionParameters.CipherSuite mk
      (List.replicate nonceSize 0) with
  | error e => simp [hd, h1, h2, h3, h4, h5, h6, h7, h8, Except.toOption] at h
  | ok esi =>
  cases h9 : lib.marshalStreamMeta esi with
  | error e => simp [hd, h1, h2, h3, h4, h5, h6, h7, h8, h9, Except.toOption] at h
  | ok smb =>
    simp [hd, h1, h2, h3, h4, h5, h6, h7, h8, h9, Except.toOption] at h
    subst h
    refine ⟨sid, mb, si, dk, mk, esi, rfl, ?_, ?_, ?_, ?_, ?_, ?_, ?_, ?_, ?_⟩ <;>
      first | rfl | assumption

/-- The reads of the random source of a commit that starts at `randPos`. -/
theorem CommitUpload_prepared (lib : Library) (project : Project) (randPos : Nat)
    (bucket key uploadID : GoString) (opts : Option CommitUploadOptions) (p : CommitObjectParams)
    (h : commitPayload lib project randPos bucket key uploadID opts = some p) :
    (∀ err, project.dialMetainfoClient = some err →
      CommitUpload lib project randPos bucket key uploadID opts
        = { result := .ok (none, classWrap (some packageError) (some err)),
            trace := [.randRead randPos keySize, .randRead (randPos + 1) nonceSize,
              .dialMetainfoClient] })
    ∧ (project.dialMetainfoClient = none →
      (CommitUpload lib project randPos bucket key uploadID opts).trace
        = [.randRead randPos keySize, .randRead (randPos + 1) nonceSize,
            .dialMetainfoClient, .CommitObject p, .metainfoClose])
    ∧ (project.dialMetainfoClient = none → project.CommitObject p = none →
      (CommitUpload lib project randPos bucket key uploadID opts).result
        = .ok (some { Key := key }, errsCombine none project.metainfoClose))
    ∧ (∀ err, project.dialMetainfoClient = none → project.CommitObject p = some err →
      (CommitUpload lib project randPos bucket key uploadID opts).result
        = match convertKnownErrors lib.quote (some err) bucket key with
          | .error panic => .error panic
          | .ok e => .ok (none, errsCombine e project.metainfoClose)) := by
  obtain ⟨hb, hk, hu, sid, mb, si, dk, mk, esi, hd, h1, h2, h3, h4, h5, h6, h7, h8, h9⟩ :=
    commitPayload_some lib project randPos bucket key uploadID opts p h
  cases p with
  | mk pid pmeta pkey pnonce =>
  simp only at h1 h6 h7 h9
  refine ⟨?_, ?_, ?_, ?_⟩
  · intro err hdial
    simp only [CommitUpload, if_neg hb, if_neg hk, if_neg hu, hd, h1, h2, h3, h4, h5, h6, h7, h8,
      h9, hdial]
    rfl
  · intro hdial
    simp only [CommitUpload, if_neg hb, if_neg hk, if_neg hu, hd, h1, h2, h3, h4, h5, h6, h7, h8,
      h9, hdial, Outcome.deferClose]
    cases hc : project.CommitObject (CommitObjectParams.mk pid pmeta pkey pnonce) with
    | none => rfl
    | some err =>
      simp only [Outcome.ofConvert]
      cases convertKnownErrors lib.quote (some err) bucket key <;> rfl
  · intro hdial hc
    simp only [CommitUpload, if_neg hb, if_neg hk, if_neg hu, hd, h1, h2, h3, h4, h5, h6, h7, h8,
      h9, hdial, Outcome.deferClose, hc]
  · intro err hdial hc
    simp only [CommitUpload, if_neg hb, if_neg hk, if_neg hu, hd, h1, h2, h3, h4, h5, h6, h7, h8,
      h9, hdial, Outcome.deferClose, hc, Outcome.ofConvert]
    cases convertKnownErrors lib.quote (some err) bucket key <;> rfl

end Uplink

namespace Uplink

/-- The trace of a commit whose preparation fails has reads of the random
source only, and the commit ends with an error or with the panic of the
decoding step; the trace of one whose preparation succeeds is the two reads,
the dial and, when the client is dialed, the one RPC and the close. -/
theorem CommitUpload_trace (lib : Library) (project : Project) (randPos : Nat)
    (bucket key uploadID : GoString) (opts : Option CommitUploadOptions) :
    (commitPayload lib project randPos bucket key uploadID opts = none
      ∧ ((∃ e, (CommitUpload lib project randPos bucket key uploadID opts).result
            = .ok (none, some e))
        ∨ (∃ panic, decodeUploadID uploadID = .error panic
            ∧ (CommitUpload lib project randPos bucket key uploadID opts).result
              = .error panic))
      ∧ ∀ ev ∈ (CommitUpload lib project randPos bucket key uploadID opts).trace,
          ev.isRandRead = true)
    ∨ (∃ p err, commitPayload lib project randPos bucket key uploadID opts = some p
      ∧ project.dialMetainfoClient = some err
      ∧ (CommitUpload lib project randPos bucket key uploadID opts).trace
          = [.randRead randPos keySize, .randRead (randPos + 1) nonceSize, .dialMetainfoClient])
    ∨ (∃ p, commitPayload lib project randPos bucket key uploadID opts = some p
      ∧ project.dialMetainfoClient = none
      ∧ (CommitUpload lib project randPos bucket key uploadID opts).trace
          = [.randRead randPos keySize, .randRead (randPos + 1) nonceSize,
              .dialMetainfoClient, .CommitObject p, .metainfoClose]) := by
  cases hp : commitPayload lib project randPos bucket key uploadID opts with
  | none =>
    left
    rcases CommitUpload_unprepared lib project randPos bucket key uploadID opts hp with
      ⟨panic, hd, heq⟩ | ⟨err, tr, heq, hsome, htr⟩
    · rw [heq]
      exact ⟨rfl, Or.inr ⟨panic, hd, rfl⟩, by simp⟩
    · rw [heq]
      obtain ⟨e, he⟩ := Option.isSome_iff_exists.1 hsome
      exact ⟨rfl, Or.inl ⟨e, by rw [he]⟩, htr⟩
  | some p =>
    right
    obtain ⟨h1, h2, _, _⟩ := CommitUpload_prepared lib project randPos bucket key uploadID opts p hp
    cases hdial : project.dialMetainfoClient with
    | some err => left; exact ⟨p, err, rfl, rfl, by rw [h1 err hdial]⟩
    | none => right; exact ⟨p, rfl, rfl, h2 hdial⟩

/-- C18, on the code: for every call of `CommitUpload`, when the preparation
fails (the validation of the arguments, the decoding of the upload ID, the
serialization of the metadata, the derivation of the content key, a read of
the random source for the key or the nonce, the encryption of the key or of
the stream info, or the serialization of the envelope), the metainfo client is
not dialed and `CommitObject` is not called, and `CommitUpload` returns a nil
object with one non-nil error, unless `base58.CheckDecode` panics on the upload
ID: then `CommitUpload` panics and returns nothing. The panic does not occur
for an upload ID of bytes below `0x80`. `CommitObject` is called only when
every step has succeeded, with the payload prepared, and at most once. -/
theorem no_partial_commit (lib : Library) (project : Project) (randPos : Nat)
    (bucket key uploadID : GoString) (opts : Option CommitUploadOptions) :
    (commitPayload lib project randPos bucket key uploadID opts = none →
      ((∃ e, (CommitUpload lib project randPos bucket key uploadID opts).result
          = .ok (none, some e))
        ∨ (∃ panic, decodeUploadID uploadID = .error panic
            ∧ (CommitUpload lib project randPos bucket key uploadID opts).result
              = .error panic))
      ∧ ((∀ c ∈ uploadID, c.val < 128) →
          ∃ e, (CommitUpload lib project randPos bucket key uploadID opts).result
            = .ok (none, some e))
      ∧ Event.dialMetainfoClient ∉ (CommitUpload lib project randPos bucket key uploadID opts).trace
      ∧ (∀ p, Event.CommitObject p ∉
          (CommitUpload lib project randPos bucket key uploadID opts).trace)
      ∧ (∀ ev ∈ (CommitUpload lib project randPos bucket key uploadID opts).trace,
          ev.isRandRead = true))
    ∧ (∀ p, Event.CommitObject p ∈
        (CommitUpload lib project randPos bucket key uploadID opts).trace →
        commitPayload lib project randPos bucket key uploadID opts = some p
        ∧ project.dialMetainfoClient = none
        ∧ bucket ≠ [] ∧ key ≠ [] ∧ uploadID ≠ []
        ∧ ∃ sid mb si dk mk esi,
          decodeUploadID uploadID = .ok (some sid)
          ∧ lib.StreamIDFromBytes sid = .ok p.StreamID
          ∧ lib.marshalSerializableMeta (opts.getD {}).CustomMetadata = .ok mb
          ∧ lib.marshalStreamInfo mb = .ok si
          ∧ project.deriveContentKey bucket key = .ok dk
          ∧ lib.randRead randPos keySize = .ok mk
          ∧ lib.randRead (randPos + 1) nonceSize = .ok p.EncryptedMetadataNonce
          ∧ lib.EncryptKey mk project.encryptionParameters.CipherSuite dk p.EncryptedMetadataNonce
              = .ok p.EncryptedMetadataEncryptedKey
          ∧ lib.Encrypt si project.encryptionParameters.CipherSuite mk
              (List.replicate nonceSize 0) = .ok esi
          ∧ lib.marshalStreamMeta esi = .ok p.EncryptedMetadata)
    ∧ (Event.dialMetainfoClient ∈
        (CommitUpload lib project randPos bucket key uploadID opts).trace →
        ∃ p, commitPayload lib project randPos bucket key uploadID opts = some p)
    ∧ (CommitUpload lib project randPos bucket key uploadID opts).trace.countP
        Event.isCommitObject ≤ 1
    ∧ (CommitUpload lib project randPos bucket key uploadID opts).trace.count
        Event.dialMetainfoClient ≤ 1 := by
  rcases CommitUpload_trace lib project randPos bucket key uploadID opts with
    ⟨hnone, hres, htr⟩ | ⟨p, err, hsome, hdial, htr⟩ | ⟨p, hsome, hdial, htr⟩
  · have hno : ∀ ev, ev.isRandRead = false →
        ev ∉ (CommitUpload lib project randPos bucket key uploadID opts).trace := by
      intro ev hev hmem
      rw [htr ev hmem] at hev
      exact absurd hev (by simp)
    have hlow : (∀ c ∈ uploadID, c.val < 128) →
        ∃ e, (CommitUpload lib project randPos bucket key uploadID opts).result
          = .ok (none, some e) := by
      intro hl
      rcases hres with h | ⟨panic, hd, _⟩
      · exact h
      · exact absurd hd (decodeUploadID_low uploadID panic hl)
    refine ⟨fun _ => ⟨hres, hlow, hno Event.dialMetainfoClient rfl,
      fun p => hno (Event.CommitObject p) rfl, htr⟩, ?_, ?_, ?_, ?_⟩
    · intro p hmem; exact absurd hmem (hno (Event.CommitObject p) rfl)
    · intro hmem; exact absurd hmem (hno Event.dialMetainfoClient rfl)
    · rw [List.countP_eq_zero.2 (fun ev hev => by rw [Bool.not_eq_true]; cases ev <;>
        first | rfl | exact absurd (htr _ hev) (by simp [Event.isRandRead]))]
      exact Nat.zero_le _
    · rw [List.count_eq_zero.2 (hno Event.dialMetainfoClient rfl)]
      exact Nat.zero_le _
  · rw [htr]
    refine ⟨fun h => ?_, ?_, fun _ => ⟨p, hsome⟩, ?_, ?_⟩
    · rw [hsome] at h; exact absurd h (by simp)
    · intro q hq; simp at hq
    · simp [List.countP_cons, Event.isCommitObject]
    · simp [List.count_cons]
  · rw [htr]
    refine ⟨fun h => ?_, ?_, fun _ => ⟨p, hsome⟩, ?_, ?_⟩
    · rw [hsome] at h; exact absurd h (by simp)
    · intro q hq
      have hqp : q = p := by simpa using hq
      subst hqp
      exact ⟨hsome, hdial, commitPayload_some lib project randPos bucket key uploadID opts q hsome⟩
    · simp [List.countP_cons, Event.isCommitObject]
    · simp [List.count_cons]

end Uplink

namespace Uplink

theorem sample_decode : decodeUploadID (base58.CheckEncode [7] 1) = .ok (some [7]) := by
  simp [decodeUploadID_CheckEncode]

theorem sample_accepted : acceptedUploadID (base58.CheckEncode [7] 1) = some [7] :=
  acceptedUploadID_some _ _ sample_decode

theorem commitPayload_noKey :
    commitPayload Library.sample Project.noKey 0 (ascii "bucket") (ascii "key")
      (base58.CheckEncode [7] 1) none = none := by
  have hb : ascii "bucket" ≠ [] := by decide
  have hk : ascii "key" ≠ [] := by decide
  simp [commitPayload, hb, hk, CheckEncode_ne_nil, sample_accepted, Library.sample, Project.noKey,
    Project.sample, Except.toOption]

theorem commitPayload_sample (randPos : Nat) :
    commitPayload Library.sample Project.sample randPos (ascii "bucket") (ascii "key")
      (base58.CheckEncode [7] 1) none
      = some { StreamID := [7], EncryptedMetadata := [],
               EncryptedMetadataEncryptedKey := List.replicate 32 0,
               EncryptedMetadataNonce := List.replicate 24 0 } := by
  have hb : ascii "bucket" ≠ [] := by decide
  have hk : ascii "key" ≠ [] := by decide
  simp [commitPayload, hb, hk, CheckEncode_ne_nil, sample_accepted, Library.sample,
    Project.sample, Except.toOption, keySize, nonceSize]

theorem no_partial_commit_witness :
    (∃ e, (CommitUpload Library.sample Project.noKey 0 (ascii "bucket") (ascii "key")
        (base58.CheckEncode [7] 1) none).result = .ok (none, some e))
    ∧ Event.dialMetainfoClient ∉ (CommitUpload Library.sample Project.noKey 0 (ascii "bucket")
        (ascii "key") (base58.CheckEncode [7] 1) none).trace
    ∧ (CommitUpload Library.sample Project.sample 0 (ascii "bucket") (ascii "key")
        [255] none).result = .error (ascii "index out of range") := by
  have h := (no_partial_commit Library.sample Project.noKey 0 (ascii "bucket") (ascii "key")
    (base58.CheckEncode [7] 1) none).1 commitPayload_noKey
  have hpanic : decodeUploadID [255] = .error (ascii "index out of range") := rfl
  have hnone : commitPayload Library.sample Project.sample 0 (ascii "bucket") (ascii "key")
      [255] none = none := by
    have hb : ascii "bucket" ≠ [] := by decide
    have hk : ascii "key" ≠ [] := by decide
    simp [commitPayload, hb, hk, acceptedUploadID_panic _ _ hpanic]
  have h2 := ((no_partial_commit Library.sample Project.sample 0 (ascii "bucket") (ascii "key")
    [255] none).1 hnone).1
  have hres : (CommitUpload Library.sample Project.sample 0 (ascii "bucket") (ascii "key")
      [255] none).result = .error (ascii "index out of range") := by
    rcases h2 with ⟨e, he⟩ | ⟨panic, hd, hr⟩
    · rw [(panic_of_decode_error Library.sample Project.sample 0 (ascii "bucket") (ascii "key")
        [255] none none 0 _ (by decide) (by decide) (by decide) hpanic).1] at he
      exact absurd he (by simp)
    · rw [hpanic] at hd
      rw [hr, ← Except.error.inj hd]
  have hlow : ∀ c ∈ base58.CheckEncode [7] 1, c.val < 128 :=
    fun c hc => (Encode_low _ c hc).2
  exact ⟨h.2.1 hlow, h.2.2.1, hres⟩

/-- C17, on the code: with a valid upload ID and a non-empty bucket and key,
when deriving the content key fails with an error of the class
`ErrMissingEncryptionBase`, `CommitUpload` returns that error wrapped in the
class of the package; the result does not match `ErrPermissionDenied`, while
`convertKnownErrors` maps the same error to one that does. -/
theorem commit_missing_key_not_normalized :
    Project.noKey.deriveContentKey (ascii "bucket") (ascii "key")
      = .error (classNew .ErrMissingEncryptionBase (ascii "bucket/key"))
    ∧ Class.ErrMissingEncryptionBase.Has
        (some (classNew .ErrMissingEncryptionBase (ascii "bucket/key"))) = true
    ∧ (CommitUpload Library.sample Project.noKey 0 (ascii "bucket") (ascii "key")
        (base58.CheckEncode [7] 1) none).result
      = .ok (none, some (.errorT (some .packageError)
          (classNew .ErrMissingEncryptionBase (ascii "bucket/key"))))
    ∧ errorsIs (some (.errorT (some .packageError)
          (classNew .ErrMissingEncryptionBase (ascii "bucket/key"))))
        (some (.sentinel .ErrPermissionDenied)) = false
    ∧ convertKnownErrors Library.sample.quote
        (some (classNew .ErrMissingEncryptionBase (ascii "bucket/key")))
        (ascii "bucket") (ascii "key")
      = .ok (some (annotated Library.sample.quote .ErrPermissionDenied (ascii "key")))
    ∧ errorsIs (some (annotated Library.sample.quote .ErrPermissionDenied (ascii "key")))
        (some (.sentinel .ErrPermissionDenied)) = true := by
  have hb : ascii "bucket" ≠ [] := by decide
  have hk : ascii "key" ≠ [] := by decide
  refine ⟨rfl, by decide, ?_, by decide, ?_, errorsIs_annotated _ _ _⟩
  · simp only [CommitUpload, if_neg hb, if_neg hk, if_neg (CheckEncode_ne_nil [7] 1),
      sample_decode]
    rfl
  · exact convert_classRule Library.sample.quote _ (ascii "bucket") (ascii "key")
      .ErrMissingEncryptionBase .ErrPermissionDenied false (by decide) (by decide)

end Uplink

namespace Uplink

/-- A commit that calls `CommitObject` has prepared the payload it sends and
has made exactly two reads of the random source before the dial. -/
theorem CommitUpload_sent (lib : Library) (project : Project) (randPos : Nat)
    (bucket key uploadID : GoString) (opts : Option CommitUploadOptions) (p : CommitObjectParams)
    (h : Event.CommitObject p ∈ (CommitUpload lib project randPos bucket key uploadID opts).trace) :
    commitPayload lib project randPos bucket key uploadID opts = some p
    ∧ (CommitUpload lib project randPos bucket key uploadID opts).trace
        = [.randRead randPos keySize, .randRead (randPos + 1) nonceSize,
            .dialMetainfoClient, .CommitObject p, .metainfoClose] := by
  rcases CommitUpload_trace lib project randPos bucket key uploadID opts with
    ⟨_, _, htr⟩ | ⟨q, err, _, _, htr⟩ | ⟨q, hsome, _, htr⟩
  · exact absurd (htr _ h) (by simp [Event.isRandRead])
  · rw [htr] at h
    simp at h
  · rw [htr] at h
    have hpq : p = q := by simpa using h
    subst hpq
    exact ⟨hsome, htr⟩

/-- With the sample library, whose random source yields zeros at every read, a
commit that starts at any read sends the same payload. -/
theorem CommitUpload_sample_sent (randPos : Nat) :
    Event.CommitObject
        { StreamID := [7], EncryptedMetadata := [],
          EncryptedMetadataEncryptedKey := List.replicate 32 0,
          EncryptedMetadataNonce := List.replicate 24 0 }
      ∈ (CommitUpload Library.sample Project.sample randPos (ascii "bucket") (ascii "key")
          (base58.CheckEncode [7] 1) none).trace := by
  rw [(CommitUpload_prepared Library.sample Project.sample randPos (ascii "bucket")
    (ascii "key") (base58.CheckEncode [7] 1) none _ (commitPayload_sample randPos)).2.1 rfl]
  simp

/-- C19, as the claim states it, fails: with a random source that yields the
same bytes at every read, two sequential calls of `CommitUpload` for the same
bucket and key (the second starts after the two reads of the first) read the
same metadata key and the same nonce, and send the same parameters to
`CommitObject`. -/
theorem commit_same_key_material :
    randReads (CommitUpload Library.sample Project.sample 0 (ascii "bucket") (ascii "key")
        (base58.CheckEncode [7] 1) none).trace = 2
    ∧ Event.CommitObject
        { StreamID := [7], EncryptedMetadata := [],
          EncryptedMetadataEncryptedKey := List.replicate 32 0,
          EncryptedMetadataNonce := List.replicate 24 0 }
      ∈ (CommitUpload Library.sample Project.sample 0 (ascii "bucket") (ascii "key")
          (base58.CheckEncode [7] 1) none).trace
    ∧ Event.CommitObject
        { StreamID := [7], EncryptedMetadata := [],
          EncryptedMetadataEncryptedKey := List.replicate 32 0,
          EncryptedMetadataNonce := List.replicate 24 0 }
      ∈ (CommitUpload Library.sample Project.sample (0 + 2) (ascii "bucket") (ascii "key")
          (base58.CheckEncode [7] 1) none).trace
    ∧ Library.sample.randRead 0 keySize = .ok (List.replicate 32 0)
    ∧ Library.sample.randRead (0 + 2) keySize = .ok (List.replicate 32 0)
    ∧ Library.sample.randRead (0 + 1) nonceSize = .ok (List.replicate 24 0)
    ∧ Library.sample.randRead (0 + 3) nonceSize = .ok (List.replicate 24 0) := by
  refine ⟨?_, CommitUpload_sample_sent 0, CommitUpload_sample_sent (0 + 2), rfl, rfl, rfl, rfl⟩
  rw [(CommitUpload_sent _ _ _ _ _ _ _ _ (CommitUpload_sample_sent 0)).2]
  simp [randReads, List.countP_cons, Event.isRandRead]

/-- C19, amended: when two sequential calls of `CommitUpload` for the same
bucket and key both reach `CommitObject`, the first call has made two reads of
the random source, so the second call starts two reads later; the metadata key
and the nonce of each call are the values of its own two reads (the key the
first, the nonce the second), nothing of the first call is used by the second,
and the derived content key is the same in both calls. The two metadata keys
differ exactly when the random source yields different values at the two key
reads, and the two nonces sent differ exactly when it yields different values
at the two nonce reads: the code compares nothing. -/
theorem metadata_key_freshness (lib : Library) (project : Project) (randPos : Nat)
    (bucket key uploadID1 uploadID2 : GoString) (opts1 opts2 : Option CommitUploadOptions)
    (p1 p2 : CommitObjectParams)
    (h1 : Event.CommitObject p1 ∈
      (CommitUpload lib project randPos bucket key uploadID1 opts1).trace)
    (h2 : Event.CommitObject p2 ∈
      (CommitUpload lib project
        (randPos + randReads (CommitUpload lib project randPos bucket key uploadID1 opts1).trace)
        bucket key uploadID2 opts2).trace) :
    randReads (CommitUpload lib project randPos bucket key uploadID1 opts1).trace = 2
    ∧ (CommitUpload lib project randPos bucket key uploadID1 opts1).trace.filter Event.isRandRead
        = [.randRead randPos keySize, .randRead (randPos + 1) nonceSize]
    ∧ (CommitUpload lib project (randPos + 2) bucket key uploadID2 opts2).trace.filter
          Event.isRandRead
        = [.randRead (randPos + 2) keySize, .randRead (randPos + 3) nonceSize]
    ∧ ∃ dk mk1 mk2,
        project.deriveContentKey bucket key = .ok dk
        ∧ lib.randRead randPos keySize = .ok mk1
        ∧ lib.randRead (randPos + 1) nonceSize = .ok p1.EncryptedMetadataNonce
        ∧ lib.randRead (randPos + 2) keySize = .ok mk2
        ∧ lib.randRead (randPos + 3) nonceSize = .ok p2.EncryptedMetadataNonce
        ∧ lib.EncryptKey mk1 project.encryptionParameters.CipherSuite dk p1.EncryptedMetadataNonce
            = .ok p1.EncryptedMetadataEncryptedKey
        ∧ lib.EncryptKey mk2 project.encryptionParameters.CipherSuite dk p2.EncryptedMetadataNonce
            = .ok p2.EncryptedMetadataEncryptedKey
        ∧ (mk1 ≠ mk2 ↔ lib.randRead randPos keySize ≠ lib.randRead (randPos + 2) keySize)
        ∧ (p1.EncryptedMetadataNonce ≠ p2.EncryptedMetadataNonce
            ↔ lib.randRead (randPos + 1) nonceSize ≠ lib.randRead (randPos + 3) nonceSize) := by
  obtain ⟨hs1, ht1⟩ := CommitUpload_sent lib project randPos bucket key uploadID1 opts1 p1 h1
  have hcount : randReads (CommitUpload lib project randPos bucket key uploadID1 opts1).trace
      = 2 := by
    rw [ht1]
    simp [randReads, List.countP_cons, Event.isRandRead]
  rw [hcount] at h2
  obtain ⟨hs2, ht2⟩ := CommitUpload_sent lib project (randPos + 2) bucket key uploadID2 opts2 p2 h2
  obtain ⟨_, _, _, _, _, _, dk, mk1, _, _, _, _, _, hdk1, hmk1, hn1, hek1, _, _⟩ :=
    commitPayload_some lib project randPos bucket key uploadID1 opts1 p1 hs1
  obtain ⟨_, _, _, _, _, _, dk2, mk2, _, _, _, _, _, hdk2, hmk2, hn2, hek2, _, _⟩ :=
    commitPayload_some lib project (randPos + 2) bucket key uploadID2 opts2 p2 hs2
  have hdk : dk2 = dk := by
    rw [hdk1] at hdk2
    exact (Except.ok.inj hdk2).symm
  subst hdk
  have hn2p : lib.randRead (randPos + 3) nonceSize = .ok p2.EncryptedMetadataNonce := hn2
  refine ⟨hcount, ?_, ?_, dk2, mk1, mk2, hdk1, hmk1, hn1, hmk2, hn2p, hek1, hek2, ?_, ?_⟩
  · rw [ht1]
    simp [List.filter_cons, Event.isRandRead]
  · rw [ht2]
    simp [List.filter_cons, Event.isRandRead]
  · rw [hmk1, hmk2]
    simp
  · rw [hn1, hn2p]
    simp

theorem commitPayload_counting (randPos : Nat) :
    commitPayload Library.counting Project.sample randPos (ascii "bucket") (ascii "key")
      (base58.CheckEncode [7] 1) none
      = some { StreamID := [7], EncryptedMetadata := [],
               EncryptedMetadataEncryptedKey :=
                 List.replicate 32 ⟨randPos % 256, Nat.mod_lt _ (by decide)⟩,
               EncryptedMetadataNonce :=
                 List.replicate 24 ⟨(randPos + 1) % 256, Nat.mod_lt _ (by decide)⟩ } := by
  have hb : ascii "bucket" ≠ [] := by decide
  have hk : ascii "key" ≠ [] := by decide
  simp [commitPayload, hb, hk, CheckEncode_ne_nil, sample_accepted, Library.counting,
    Library.sample, Project.sample, Except.toOption, keySize, nonceSize]

/-- With the counting random source, a commit that starts at the read `randPos`
sends the payload made of the reads `randPos` and `randPos + 1`. -/
theorem CommitUpload_counting_sent (randPos : Nat) :
    Event.CommitObject
        { StreamID := [7], EncryptedMetadata := [],
          EncryptedMetadataEncryptedKey :=
            List.replicate 32 ⟨randPos % 256, Nat.mod_lt _ (by decide)⟩,
          EncryptedMetadataNonce :=
            List.replicate 24 ⟨(randPos + 1) % 256, Nat.mod_lt _ (by decide)⟩ }
      ∈ (CommitUpload Library.counting Project.sample randPos (ascii "bucket") (ascii "key")
          (base58.CheckEncode [7] 1) none).trace := by
  rw [(CommitUpload_prepared Library.counting Project.sample randPos (ascii "bucket")
    (ascii "key") (base58.CheckEncode [7] 1) none _ (commitPayload_counting randPos)).2.1 rfl]
  simp

theorem metadata_key_freshness_witness :
    randReads (CommitUpload Library.counting Project.sample 0 (ascii "bucket") (ascii "key")
        (base58.CheckEncode [7] 1) none).trace = 2
    ∧ (List.replicate 24 (1 : Byte)) ≠ List.replicate 24 (3 : Byte) := by
  have hc : randReads (CommitUpload Library.counting Project.sample 0 (ascii "bucket")
      (ascii "key") (base58.CheckEncode [7] 1) none).trace = 2 := by
    rw [(CommitUpload_sent _ _ _ _ _ _ _ _ (CommitUpload_counting_sent 0)).2]
    simp [randReads, List.countP_cons, Event.isRandRead]
  have h := metadata_key_freshness Library.counting Project.sample 0 (ascii "bucket")
    (ascii "key") (base58.CheckEncode [7] 1) (base58.CheckEncode [7] 1) none none _ _
    (CommitUpload_counting_sent 0)
    (by rw [hc]; exact CommitUpload_counting_sent (0 + 2))
  obtain ⟨h0, _, _, _, _, _, _, _, _, _, _, _, _, _, hne⟩ := h
  exact ⟨h0, hne.2 (by simp [Library.counting, nonceSize])⟩

end Uplink

namespace Uplink

/-! ## The first commit of a part upload -/

theorem convert_nil (quote : GoString → GoString) (bucket key : GoString) :
    convertKnownErrors quote none bucket key = .ok none := rfl

/-- `convertKnownErrors` never turns an error into `nil`. -/
theorem convert_some (quote : GoString → GoString) (e : GoErr) (bucket key : GoString) :
    convertKnownErrors quote (some e) bucket key ≠ .ok none := by
  by_cases heof : errorsIs (some e) (some (.sentinel .EOF)) = true
  · simp [convertKnownErrors, heof]
  · rw [Bool.not_eq_true] at heof
    cases hrule : classRule (some e) with
    | some row =>
      obtain ⟨c, v, useBucket⟩ := row
      rw [convert_classRule quote e bucket key c v useBucket heof hrule]
      simp
    | none =>
      have hwrap : classWrap (some packageError) (some e) ≠ none := by
        rcases classWrap_packageError_cases e with ⟨h, _⟩ | h <;> rw [h] <;> simp
      cases hRE : IsRPC (some e) rpcstatus.ResourceExhausted with
      | true =>
        rw [convert_exhausted quote e bucket key heof hrule hRE]
        split
        · simp
        · split
          · simp
          · simpa using hwrap
      | false =>
        cases hNF : IsRPC (some e) rpcstatus.NotFound with
        | true =>
          rw [convert_notFound quote e bucket key heof hrule hRE hNF]
          split
          · cases sliceFrom (rootMessage e) ((ascii "bucket not found").length + 2) <;>
              simp [Except.map]
          · split
            · simp
            · simpa using hwrap
        | false =>
          cases hPD : IsRPC (some e) rpcstatus.PermissionDenied with
          | true =>
            rw [convert_permissionDenied quote e bucket key heof hrule hRE hNF hPD]
            simp
          | false =>
            rw [convert_noStatus quote e bucket key heof hrule hRE hNF hPD]
            simpa using hwrap

/-- `convertKnownErrors` returns `nil` exactly for `nil`. -/
theorem convert_eq_nil_iff (quote : GoString → GoString) (err : Option GoErr)
    (bucket key : GoString) :
    convertKnownErrors quote err bucket key = .ok none ↔ err = none := by
  cases err with
  | none => simp [convert_nil]
  | some e => simp [convert_some]

theorem errsCombine_eq_none (a b : Option GoErr) :
    errsCombine a b = none ↔ a = none ∧ b = none := by
  cases a <;> cases b <;> simp [errsCombine]

/-- `Commit` on an active upload. -/
theorem Commit_active (quote : GoString → GoString) (u : PartUpload)
    (closeErr streamsErr : Option GoErr) (hclosed : u.closed = false)
    (haborted : u.aborted = false) :
    u.Commit quote closeErr streamsErr
      = { upload := { u with closed := true },
          result := convertKnownErrors quote (errsCombine closeErr streamsErr) u.bucket u.key,
          trace := [.sinkClose, .streamsClose] } := by
  simp [PartUpload.Commit, hclosed, haborted]

/-- `Abort` on an active upload. -/
theorem Abort_active (quote : GoString → GoString) (u : PartUpload)
    (abortErr streamsErr : Option GoErr) (hclosed : u.closed = false)
    (haborted : u.aborted = false) :
    u.Abort quote abortErr streamsErr
      = { upload := { u with aborted := true },
          result := convertKnownErrors quote (errsCombine abortErr streamsErr) u.bucket u.key,
          trace := [.cancel, .sinkAbort, .streamsClose] } := by
  simp [PartUpload.Abort, hclosed, haborted]

/-- C21. The first `Commit` is an unconditional terminal transition: on every
active part upload (neither committed nor aborted) and for every answer of the
sink and of the store, `Commit` sets `closed` and changes no other field, calls
the sink's `Close` and then the store's `Close`, once each and whatever the
first answered, and ends as `convertKnownErrors` does on the combination of the
two answers: it returns `nil` exactly when both answers are `nil` (a panic of
the normalization is the panic of `Commit`). The upload is committed afterwards
in every case, so every later `Commit` or `Abort`, after any further calls,
returns an error that matches `ErrUploadDone`, calls no collaborator and
changes nothing. -/
theorem first_commit_is_terminal (quote : GoString → GoString) (u : PartUpload)
    (closeErr streamsErr : Option GoErr) (hclosed : u.closed = false)
    (haborted : u.aborted = false) :
    (u.Commit quote closeErr streamsErr).upload = { u with closed := true }
    ∧ (u.Commit quote closeErr streamsErr).trace = [.sinkClose, .streamsClose]
    ∧ (u.Commit quote closeErr streamsErr).result
        = convertKnownErrors quote (errsCombine closeErr streamsErr) u.bucket u.key
    ∧ ((u.Commit quote closeErr streamsErr).result = .ok none
        ↔ closeErr = none ∧ streamsErr = none)
    ∧ (u.call quote (.Commit closeErr streamsErr)).1 = { u with closed := true }
    ∧ (∀ (calls : List Call) (c : Call), c.isTerminal = true →
        (u.after quote (.Commit closeErr streamsErr :: calls)).closed = true
        ∧ (u.after quote (.Commit closeErr streamsErr :: calls)).aborted = false
        ∧ ((u.after quote (.Commit closeErr streamsErr :: calls)).call quote c).1
            = u.after quote (.Commit closeErr streamsErr :: calls)
        ∧ ((u.after quote (.Commit closeErr streamsErr :: calls)).call quote c).2.1.matchesErr
            .ErrUploadDone = true
        ∧ ((u.after quote (.Commit closeErr streamsErr :: calls)).call quote c).2.2 = []) := by
  have hc := Commit_active quote u closeErr streamsErr hclosed haborted
  have hcall : (u.call quote (.Commit closeErr streamsErr)).1 = { u with closed := true } := by
    simp only [PartUpload.call, hc]
  refine ⟨by rw [hc], by rw [hc], by rw [hc], ?_, hcall, ?_⟩
  · rw [hc]
    simp only
    rw [convert_eq_nil_iff, errsCombine_eq_none]
  · intro calls c hterm
    have hkeep := after_flags_of_done quote calls (u.call quote (.Commit closeErr streamsErr)).1
      (Or.inl (by rw [hcall]))
    rw [hcall] at hkeep
    have hcl : (u.after quote (.Commit closeErr streamsErr :: calls)).closed = true := by
      rw [after_cons, hcall]; exact hkeep.1
    have hab : (u.after quote (.Commit closeErr streamsErr :: calls)).aborted = false := by
      rw [after_cons, hcall, hkeep.2]; exact haborted
    have hdone := call_terminal_of_done quote _ c hterm (Or.inl hcl)
    exact ⟨hcl, hab, hdone.1, hdone.2.1, hdone.2.2⟩

theorem first_commit_is_terminal_witness :
    ((PartUpload.new (ascii "bucket") (ascii "key") 1).Commit Library.sample.quote
        (some (.errorString (ascii "sink failed"))) none).result
      = .ok (some (.errorT (some .packageError) (.errorString (ascii "sink failed"))))
    ∧ (((PartUpload.new (ascii "bucket") (ascii "key") 1).after Library.sample.quote
        [.Commit (some (.errorString (ascii "sink failed"))) none, .SetETag [1]]).call
          Library.sample.quote (.Abort none none)).2.1.matchesErr .ErrUploadDone = true := by
  have h := first_commit_is_terminal Library.sample.quote
    (PartUpload.new (ascii "bucket") (ascii "key") 1)
    (some (.errorString (ascii "sink failed"))) none rfl rfl
  refine ⟨?_, (h.2.2.2.2.2 [.SetETag [1]] (.Abort none none) rfl).2.2.2.1⟩
  rw [h.2.2.1]
  rfl

end Uplink

namespace Uplink

/-! ## The terminal effects of a part upload -/

theorem events_nil (quote : GoString → GoString) (u : PartUpload) : u.events quote [] = [] := rfl

theorem events_cons (quote : GoString → GoString) (u : PartUpload) (c : Call) (rest : List Call) :
    u.events quote (c :: rest) = (u.call quote c).2.2 ++ (u.call quote c).1.events quote rest := by
  simp [PartUpload.events, PartUpload.run]

/-- What one call does to the sink, the store and `cancel`: nothing that ends
the upload, with the flags unchanged; or the transition of `Commit` on an
active upload; or the transition of `Abort` on an active upload. -/
theorem call_effects (quote : GoString → GoString) (u : PartUpload) (c : Call) :
    ((u.call quote c).1.closed = u.closed ∧ (u.call quote c).1.aborted = u.aborted
      ∧ (u.call quote c).2.2.count .sinkClose = 0 ∧ (u.call quote c).2.2.count .sinkAbort = 0
      ∧ (u.call quote c).2.2.count .cancel = 0 ∧ (u.call quote c).2.2.count .streamsClose = 0)
    ∨ (u.closed = false ∧ u.aborted = false
      ∧ (∃ a b, c = .Commit a b)
      ∧ (u.call quote c).2.2 = [.sinkClose, .streamsClose]
      ∧ (u.call quote c).1 = { u with closed := true })
    ∨ (u.closed = false ∧ u.aborted = false
      ∧ (∃ a b, c = .Abort a b)
      ∧ (u.call quote c).2.2 = [.cancel, .sinkAbort, .streamsClose]
      ∧ (u.call quote c).1 = { u with aborted := true }) := by
  cases c with
  | Write p n err => left; simp [PartUpload.call, PartUpload.Write, List.count_cons]
  | SetETag t =>
    left
    simp only [PartUpload.call, PartUpload.SetETag]
    split
    · simp
    · split <;> simp
  | Info part =>
    left
    cases part <;> simp [PartUpload.call, PartUpload.Info, List.count_cons]
  | Commit a b =>
    cases ha : u.aborted with
    | true => left; simp [PartUpload.call, PartUpload.Commit, ha]
    | false =>
      cases hcl : u.closed with
      | true => left; simp [PartUpload.call, PartUpload.Commit, ha, hcl]
      | false =>
        right; left
        refine ⟨rfl, rfl, ⟨a, b, rfl⟩, ?_, ?_⟩ <;>
          simp [PartUpload.call, Commit_active quote u a b hcl ha, ha, hcl]
  | Abort a b =>
    cases hcl : u.closed with
    | true => left; simp [PartUpload.call, PartUpload.Abort, hcl]
    | false =>
      cases ha : u.aborted with
      | true => left; simp [PartUpload.call, PartUpload.Abort, ha, hcl]
      | false =>
        right; right
        refine ⟨rfl, rfl, ⟨a, b, rfl⟩, ?_, ?_⟩ <;>
          simp [PartUpload.call, Abort_active quote u a b hcl ha, ha, hcl]

/-- The counts of the terminal effects over a sequence of calls, from every
upload. -/
theorem events_counts (quote : GoString → GoString) (calls : List Call) :
    ∀ u : PartUpload,
      (u.events quote calls).count .sinkClose + (u.events quote calls).count .sinkAbort ≤ 1
      ∧ (u.events quote calls).count .cancel = (u.events quote calls).count .sinkAbort
      ∧ (u.events quote calls).count .streamsClose
          = (u.events quote calls).count .sinkClose + (u.events quote calls).count .sinkAbort
      ∧ ((u.closed = true ∨ u.aborted = true) →
          (u.events quote calls).count .sinkClose = 0
          ∧ (u.events quote calls).count .sinkAbort = 0) := by
  induction calls with
  | nil => intro u; simp [events_nil]
  | cons c t ih =>
    intro u
    rw [events_cons]
    simp only [List.count_append]
    obtain ⟨i1, i2, i3, i4⟩ := ih (u.call quote c).1
    rcases call_effects quote u c with ⟨h1, h2, h3, h4, h5, h6⟩ | ⟨h1, h2, _, h4, h5⟩
        | ⟨h1, h2, _, h4, h5⟩
    · rw [h1, h2] at i4
      rw [h3, h4, h5, h6]
      refine ⟨by omega, by omega, by omega, fun hd => ?_⟩
      have := i4 hd
      omega
    · have hd := i4 (Or.inl (by rw [h5]))
      have c1 : List.count Event.sinkClose [Event.sinkClose, Event.streamsClose] = 1 := by decide
      have c2 : List.count Event.sinkAbort [Event.sinkClose, Event.streamsClose] = 0 := by decide
      have c3 : List.count Event.cancel [Event.sinkClose, Event.streamsClose] = 0 := by decide
      have c4 : List.count Event.streamsClose [Event.sinkClose, Event.streamsClose] = 1 := by
        decide
      rw [h4, c1, c2, c3, c4]
      refine ⟨by omega, by omega, by omega, fun hdone => ?_⟩
      rcases hdone with h | h
      · rw [h1] at h; exact absurd h (by simp)
      · rw [h2] at h; exact absurd h (by simp)
    · have hd := i4 (Or.inr (by rw [h5]))
      have c1 : List.count Event.sinkClose [Event.cancel, Event.sinkAbort, Event.streamsClose]
          = 0 := by decide
      have c2 : List.count Event.sinkAbort [Event.cancel, Event.sinkAbort, Event.streamsClose]
          = 1 := by decide
      have c3 : List.count Event.cancel [Event.cancel, Event.sinkAbort, Event.streamsClose]
          = 1 := by decide
      have c4 : List.count Event.streamsClose [Event.cancel, Event.sinkAbort, Event.streamsClose]
          = 1 := by decide
      rw [h4, c1, c2, c3, c4]
      refine ⟨by omega, by omega, by omega, fun hdone => ?_⟩
      rcases hdone with h | h
      · rw [h1] at h; exact absurd h (by simp)
      · rw [h2] at h; exact absurd h (by simp)

theorem not_done_annotated (quote : GoString → GoString) (v : Sentinel) (s : GoString)
    (hv : v ≠ .ErrUploadDone) :
    errorsIs (some (annotated quote v s)) (some (.sentinel .ErrUploadDone)) = false := by
  simp [annotated, errorsIs, errorsIsChain, GoErr.comparable, hv]

theorem not_done_classWrap (e : GoErr)
    (h : errorsIs (some e) (some (.sentinel .ErrUploadDone)) = false) :
    errorsIs (classWrap (some packageError) (some e)) (some (.sentinel .ErrUploadDone))
      = false := by
  rcases classWrap_packageError_cases e with ⟨hw, _⟩ | hw
  · rw [hw]; exact h
  · rw [hw]
    simp only [errorsIs] at h ⊢
    simp [errorsIsChain, h]

/-- What `convertKnownErrors` returns matches `ErrUploadDone` only when the
error it is given does. -/
theorem convert_not_done (quote : GoString → GoString) (err r : Option GoErr)
    (bucket key : GoString)
    (h : errorsIs err (some (.sentinel .ErrUploadDone)) = false)
    (hr : convertKnownErrors quote err bucket key = .ok r) :
    errorsIs r (some (.sentinel .ErrUploadDone)) = false := by
  cases err with
  | none =>
    rw [convert_nil] at hr
    cases hr
    rfl
  | some e =>
    by_cases heof : errorsIs (some e) (some (.sentinel .EOF)) = true
    · simp only [convertKnownErrors, heof, if_true] at hr
      cases hr
      exact h
    · rw [Bool.not_eq_true] at heof
      cases hrule : classRule (some e) with
      | some row =>
        obtain ⟨c, v, useBucket⟩ := row
        rw [convert_classRule quote e bucket key c v useBucket heof hrule] at hr
        cases hr
        have hmem : (c, v, useBucket) ∈ classTable := List.mem_of_find?_eq_some hrule
        apply not_done_annotated
        simp only [classTable, List.mem_cons, Prod.mk.injEq, List.mem_singleton,
          List.not_mem_nil, or_false] at hmem
        rcases hmem with ⟨_, hv, _⟩ | ⟨_, hv, _⟩ | ⟨_, hv, _⟩ | ⟨_, hv, _⟩ | ⟨_, hv, _⟩
            | ⟨_, hv, _⟩ <;> rw [hv] <;> decide
      | none =>
        have hwrap := not_done_classWrap e h
        cases hRE : IsRPC (some e) rpcstatus.ResourceExhausted with
        | true =>
          rw [convert_exhausted quote e bucket key heof hrule hRE] at hr
          split at hr
          · cases hr; decide
          · split at hr
            · cases hr; decide
            · cases hr; exact hwrap
        | false =>
          cases hNF : IsRPC (some e) rpcstatus.NotFound with
          | true =>
            rw [convert_notFound quote e bucket key heof hrule hRE hNF] at hr
            split at hr
            · cases hs : sliceFrom (rootMessage e) ((ascii "bucket not found").length + 2) with
              | error p => rw [hs] at hr; simp [Except.map] at hr
              | ok b =>
                rw [hs] at hr
                simp only [Except.map, Except.ok.injEq] at hr
                rw [← hr]
                exact not_done_annotated quote _ _ (by decide)
            · split at hr
              · cases hr; exact not_done_annotated quote _ _ (by decide)
              · cases hr; exact hwrap
          | false =>
            cases hPD : IsRPC (some e) rpcstatus.PermissionDenied with
            | true =>
              rw [convert_permissionDenied quote e bucket key heof hrule hRE hNF hPD] at hr
              cases hr
              simp only [errorsIs] at h ⊢
              simp [errorsIsChain, GoErr.comparable, h]
            | false =>
              rw [convert_noStatus quote e bucket key heof hrule hRE hNF hPD] at hr
              cases hr
              exact hwrap

theorem not_done_errsCombine (a b : Option GoErr)
    (ha : errorsIs a (some (.sentinel .ErrUploadDone)) = false)
    (hb : errorsIs b (some (.sentinel .ErrUploadDone)) = false) :
    errorsIs (errsCombine a b) (some (.sentinel .ErrUploadDone)) = false := by
  cases a with
  | none => cases b <;> simp_all [errsCombine]
  | some x =>
    cases b with
    | none => simpa [errsCombine] using ha
    | some y =>
      simp only [errorsIs] at ha
      simp [errsCombine, errorsIs, errorsIsChain, ha]

/-- A `Commit` or `Abort` whose reply matches `ErrUploadDone`, while no answer
of the sink or the store does, was made on a committed or aborted upload. -/
theorem done_of_reply (quote : GoString → GoString) (u : PartUpload) (c : Call)
    (hterm : c.isTerminal = true)
    (hreply : (u.call quote c).2.1.matchesErr .ErrUploadDone = true)
    (hans : c.answersMatch .ErrUploadDone = false) :
    u.closed = true ∨ u.aborted = true := by
  by_contra hnot
  have hcl : u.closed = false := by
    cases h : u.closed
    · rfl
    · exact absurd (Or.inl h) hnot
  have hab : u.aborted = false := by
    cases h : u.aborted
    · rfl
    · exact absurd (Or.inr h) hnot
  have key : ∀ a b : Option GoErr,
      errorsIs a (some (.sentinel .ErrUploadDone)) = false →
      errorsIs b (some (.sentinel .ErrUploadDone)) = false →
      (Reply.ofErr (convertKnownErrors quote (errsCombine a b) u.bucket u.key)).matchesErr
        .ErrUploadDone = false := by
    intro a b ha hb
    cases hconv : convertKnownErrors quote (errsCombine a b) u.bucket u.key with
    | error p => rfl
    | ok r =>
      exact convert_not_done quote _ r u.bucket u.key (not_done_errsCombine a b ha hb) hconv
  cases c with
  | Write p n err => simp [Call.isTerminal] at hterm
  | SetETag t => simp [Call.isTerminal] at hterm
  | Info part => simp [Call.isTerminal] at hterm
  | Commit a b =>
    simp only [Call.answersMatch, Bool.or_eq_false_iff] at hans
    simp only [PartUpload.call, Commit_active quote u a b hcl hab] at hreply
    rw [key a b hans.1 hans.2] at hreply
    exact absurd hreply (by simp)
  | Abort a b =>
    simp only [Call.answersMatch, Bool.or_eq_false_iff] at hans
    simp only [PartUpload.call, Abort_active quote u a b hcl hab] at hreply
    rw [key a b hans.1 hans.2] at hreply
    exact absurd hreply (by simp)

/-- C22. Exactly-once terminal effects: over every finite sequence of calls of
`Write`, `SetETag`, `Info`, `Commit` and `Abort` on a new part upload, the
sink's `Close` and the sink's `Abort` are called at most once together (each
at most once, never both); `cancel` is called as often as the sink's `Abort`,
so at most once, and only by an `Abort` on an active upload, which calls
`cancel`, the sink's `Abort` and the store's `Close` in this order and leaves
the upload aborted; the store is closed at most once; and a `Commit` or `Abort`
made on a committed or aborted upload returns an error that matches
`ErrUploadDone`, calls none of them and changes no field, which is the case of
every `Commit` or `Abort` whose reply matches `ErrUploadDone` when no answer of
the sink or the store does. -/
theorem exactly_once_terminal_effects (quote : GoString → GoString) (bucket key : GoString)
    (partNumber : Nat) (calls : List Call) :
    ((PartUpload.new bucket key partNumber).events quote calls).count .sinkClose ≤ 1
    ∧ ((PartUpload.new bucket key partNumber).events quote calls).count .sinkAbort ≤ 1
    ∧ ((PartUpload.new bucket key partNumber).events quote calls).count .sinkClose
        + ((PartUpload.new bucket key partNumber).events quote calls).count .sinkAbort ≤ 1
    ∧ ((PartUpload.new bucket key partNumber).events quote calls).count .cancel ≤ 1
    ∧ ((PartUpload.new bucket key partNumber).events quote calls).count .cancel
        = ((PartUpload.new bucket key partNumber).events quote calls).count .sinkAbort
    ∧ ((PartUpload.new bucket key partNumber).events quote calls).count .streamsClose ≤ 1
    ∧ (∀ (j : Nat) (c : Call), calls[j]? = some c →
        Event.cancel ∈ (((PartUpload.new bucket key partNumber).after quote (calls.take j)).call
          quote c).2.2 →
        (∃ a b, c = .Abort a b)
        ∧ ((PartUpload.new bucket key partNumber).after quote (calls.take j)).closed = false
        ∧ ((PartUpload.new bucket key partNumber).after quote (calls.take j)).aborted = false
        ∧ (((PartUpload.new bucket key partNumber).after quote (calls.take j)).call quote c).2.2
            = [.cancel, .sinkAbort, .streamsClose]
        ∧ (((PartUpload.new bucket key partNumber).after quote (calls.take j)).call
            quote c).1.aborted = true)
    ∧ (∀ (j : Nat) (c : Call), calls[j]? = some c → c.isTerminal = true →
        (((PartUpload.new bucket key partNumber).after quote (calls.take j)).closed = true
          ∨ ((PartUpload.new bucket key partNumber).after quote (calls.take j)).aborted = true) →
        (((PartUpload.new bucket key partNumber).after quote (calls.take j)).call
            quote c).2.1.matchesErr .ErrUploadDone = true
        ∧ (((PartUpload.new bucket key partNumber).after quote (calls.take j)).call quote c).2.2
            = []
        ∧ (((PartUpload.new bucket key partNumber).after quote (calls.take j)).call quote c).1
            = (PartUpload.new bucket key partNumber).after quote (calls.take j))
    ∧ (∀ (j : Nat) (c : Call), calls[j]? = some c → c.isTerminal = true →
        (((PartUpload.new bucket key partNumber).after quote (calls.take j)).call
            quote c).2.1.matchesErr .ErrUploadDone = true →
        c.answersMatch .ErrUploadDone = false →
        (((PartUpload.new bucket key partNumber).after quote (calls.take j)).call quote c).2.2
            = []
        ∧ (((PartUpload.new bucket key partNumber).after quote (calls.take j)).call quote c).1
            = (PartUpload.new bucket key partNumber).after quote (calls.take j)) := by
  obtain ⟨h1, h2, h3, _⟩ := events_counts quote calls (PartUpload.new bucket key partNumber)
  refine ⟨by omega, by omega, h1, by omega, h2, by omega, ?_, ?_, ?_⟩
  · intro j c _ hmem
    rcases call_effects quote ((PartUpload.new bucket key partNumber).after quote (calls.take j)) c
      with ⟨_, _, _, _, h5, _⟩ | ⟨_, _, _, h4, _⟩ | ⟨hcl, hab, hc, h4, h5⟩
    · exact absurd hmem (List.count_eq_zero.1 h5)
    · rw [h4] at hmem
      simp at hmem
    · exact ⟨hc, hcl, hab, h4, by rw [h5]⟩
  · intro j c _ hterm hdone
    have h := call_terminal_of_done quote _ c hterm hdone
    exact ⟨h.2.1, h.2.2, h.1⟩
  · intro j c _ hterm hreply hans
    have h := call_terminal_of_done quote _ c hterm (done_of_reply quote _ c hterm hreply hans)
    exact ⟨h.2.2, h.1⟩

theorem exactly_once_terminal_effects_witness :
    (PartUpload.new (ascii "bucket") (ascii "key") 1).events Library.sample.quote
        [.Write [1] 1 none, .Abort none none, .Commit none none, .Abort none none]
      = [.sinkWrite [1], .cancel, .sinkAbort, .streamsClose]
    ∧ ((PartUpload.new (ascii "bucket") (ascii "key") 1).events Library.sample.quote
        [.Write [1] 1 none, .Abort none none, .Commit none none, .Abort none none]).count
          .cancel ≤ 1 :=
  ⟨by decide, (exactly_once_terminal_effects Library.sample.quote (ascii "bucket") (ascii "key") 1
    [.Write [1] 1 none, .Abort none none, .Commit none none, .Abort none none]).2.2.2.1⟩

end Uplink

namespace Uplink

/-! ## The payload of the commit -/

/-- C23. Commit payload construction: whenever `CommitUpload` reaches the
commit RPC, it has made two reads of the random source, first the metadata key
`k` and then the nonce `n`, before the dial; `CommitObject` receives the stream
ID made of the bytes decoded from the upload ID, the encrypted key
`EncryptKey(k, suite, d, n)` for the derived content key `d`, the nonce `n`,
and the serialized `StreamMeta` of `Encrypt(streamInfo, suite, k, zero nonce)`,
where `streamInfo` serializes the `StreamInfo` of the serialized custom
metadata (the empty one when `opts` is nil). The parameters are determined by
these four values: neither `k` nor `d` is one of them. When the RPC succeeds
the object returned has `Key = key`. -/
theorem commit_payload_construction (lib : Library) (project : Project) (randPos : Nat)
    (bucket key uploadID : GoString) (opts : Option CommitUploadOptions) (p : CommitObjectParams)
    (h : Event.CommitObject p ∈
      (CommitUpload lib project randPos bucket key uploadID opts).trace) :
    (CommitUpload lib project randPos bucket key uploadID opts).trace
        = [.randRead randPos keySize, .randRead (randPos + 1) nonceSize,
            .dialMetainfoClient, .CommitObject p, .metainfoClose]
    ∧ (∃ sid mb si d k esi,
        decodeUploadID uploadID = .ok (some sid)
        ∧ lib.StreamIDFromBytes sid = .ok p.StreamID
        ∧ ((∀ b, lib.StreamIDFromBytes b = .ok b) → p.StreamID = sid)
        ∧ lib.marshalSerializableMeta (opts.getD {}).CustomMetadata = .ok mb
        ∧ (opts = none → lib.marshalSerializableMeta [] = .ok mb)
        ∧ lib.marshalStreamInfo mb = .ok si
        ∧ project.deriveContentKey bucket key = .ok d
        ∧ lib.randRead randPos keySize = .ok k
        ∧ lib.randRead (randPos + 1) nonceSize = .ok p.EncryptedMetadataNonce
        ∧ lib.EncryptKey k project.encryptionParameters.CipherSuite d p.EncryptedMetadataNonce
            = .ok p.EncryptedMetadataEncryptedKey
        ∧ lib.Encrypt si project.encryptionParameters.CipherSuite k (List.replicate nonceSize 0)
            = .ok esi
        ∧ lib.marshalStreamMeta esi = .ok p.EncryptedMetadata)
    ∧ (∀ q : CommitObjectParams, q.StreamID = p.StreamID →
        q.EncryptedMetadata = p.EncryptedMetadata →
        q.EncryptedMetadataEncryptedKey = p.EncryptedMetadataEncryptedKey →
        q.EncryptedMetadataNonce = p.EncryptedMetadataNonce → q = p)
    ∧ (project.CommitObject p = none →
        (CommitUpload lib project randPos bucket key uploadID opts).result
          = .ok (some { Key := key }, project.metainfoClose)) := by
  rcases CommitUpload_trace lib project randPos bucket key uploadID opts with
    ⟨_, _, htr⟩ | ⟨q, err, _, _, htr⟩ | ⟨q, hsome, hdial, htr⟩
  · exact absurd (htr _ h) (by simp [Event.isRandRead])
  · rw [htr] at h
    simp at h
  · have hpq : p = q := by
      rw [htr] at h
      simpa using h
    subst hpq
    obtain ⟨_, _, _, sid, mb, si, d, k, esi, h1, h2, h3, h4, h5, h6, h7, h8, h9, h10⟩ :=
      commitPayload_some lib project randPos bucket key uploadID opts p hsome
    refine ⟨htr, ⟨sid, mb, si, d, k, esi, h1, h2, ?_, h3, ?_, h4, h5, h6, h7, h8, h9, h10⟩,
      ?_, ?_⟩
    · intro hid
      rw [hid sid] at h2
      exact (Except.ok.inj h2).symm
    · intro hopts
      subst hopts
      exact h3
    · intro q h1 h2 h3 h4
      cases q
      cases p
      simp only at h1 h2 h3 h4
      rw [h1, h2, h3, h4]
    · intro hc
      rw [(CommitUpload_prepared lib project randPos bucket key uploadID opts p hsome).2.2.1
        hdial hc]
      cases project.metainfoClose <;> rfl

theorem commit_payload_construction_witness :
    (CommitUpload Library.counting Project.sample 0 (ascii "bucket") (ascii "key")
        (base58.CheckEncode [7] 1) none).trace
      = [.randRead 0 keySize, .randRead (0 + 1) nonceSize, .dialMetainfoClient,
          .CommitObject
            { StreamID := [7], EncryptedMetadata := [],
              EncryptedMetadataEncryptedKey := List.replicate 32 0,
              EncryptedMetadataNonce := List.replicate 24 1 },
          .metainfoClose]
    ∧ (CommitUpload Library.counting Project.sample 0 (ascii "bucket") (ascii "key")
        (base58.CheckEncode [7] 1) none).result = .ok (some { Key := ascii "key" }, none) :=
  have h := commit_payload_construction Library.counting Project.sample 0 (ascii "bucket")
    (ascii "key") (base58.CheckEncode [7] 1) none _ (CommitUpload_counting_sent 0)
  ⟨h.1, h.2.2.2 rfl⟩

end Uplink

namespace Uplink

/-! ## Normalization and success -/

/-- `AbortUpload` when every step before the delete RPC succeeds: the client
is dialed, the RPC is issued for the decoded stream ID and the encrypted path,
and the client is closed; the error is the combination of the normalized
answer of the RPC and the answer of `Close`. -/
theorem AbortUpload_reached (lib : Library) (project : Project)
    (bucket key uploadID : GoString) (sid id : List Byte) (encPath : GoString)
    (hb : bucket ≠ []) (hk : key ≠ []) (hu : uploadID ≠ [])
    (hd : decodeUploadID uploadID = .ok (some sid))
    (hid : lib.StreamIDFromBytes sid = .ok id)
    (hp : project.encryptPath bucket key = .ok encPath)
    (hdial : project.dialMetainfoClient = none) :
    AbortUpload lib project bucket key uploadID
      = Outcome.deferClose project
          (Outcome.ofConvert ()
            (convertKnownErrors lib.quote
              (project.BeginDeleteObject
                { Bucket := bucket, EncryptedPath := encPath, Version := 1, StreamID := id,
                  Status := Object_UPLOADING }) bucket key)
            [.dialMetainfoClient,
              .BeginDeleteObject
                { Bucket := bucket, EncryptedPath := encPath, Version := 1, StreamID := id,
                  Status := Object_UPLOADING }]) := by
  simp only [AbortUpload, if_neg hb, if_neg hk, if_neg hu, hd, hid, hp, hdial]

/-- The outcome of the last step of `AbortUpload` is `nil` exactly when the
RPC and `Close` answer `nil`. -/
theorem deferClose_ofConvert_nil (quote : GoString → GoString) (project : Project)
    (rpcErr : Option GoErr) (bucket key : GoString) (tr : List Event) :
    ((Outcome.deferClose project
        (Outcome.ofConvert () (convertKnownErrors quote rpcErr bucket key) tr)).result
          = .ok ((), none)
      ↔ rpcErr = none ∧ project.metainfoClose = none)
    ∧ (Outcome.deferClose project
        (Outcome.ofConvert () (convertKnownErrors quote rpcErr bucket key) tr)).trace
          = tr ++ [.metainfoClose] := by
  have hiff := convert_eq_nil_iff quote rpcErr bucket key
  cases hc : convertKnownErrors quote rpcErr bucket key with
  | error m =>
    rw [hc] at hiff
    have hne : rpcErr ≠ none := fun h => by simp [h] at hiff
    simp [Outcome.ofConvert, Outcome.deferClose, hne]
  | ok r =>
    rw [hc] at hiff
    simp only [Except.ok.injEq] at hiff
    simp only [Outcome.ofConvert, Outcome.deferClose, Except.ok.injEq, Prod.mk.injEq, true_and,
      errsCombine_eq_none, hiff, and_true]

/-- Before the delete RPC `AbortUpload` returns `nil` from no step: a call
that returns `nil` has passed the validation, decoded the upload ID, made the
stream ID, encrypted the path and dialed the client. -/
theorem AbortUpload_nil_reached (lib : Library) (project : Project)
    (bucket key uploadID : GoString)
    (h : (AbortUpload lib project bucket key uploadID).result = .ok ((), none)) :
    bucket ≠ [] ∧ key ≠ [] ∧ uploadID ≠ [] ∧ ∃ sid id encPath,
      decodeUploadID uploadID = .ok (some sid) ∧ lib.StreamIDFromBytes sid = .ok id
      ∧ project.encryptPath bucket key = .ok encPath
      ∧ project.dialMetainfoClient = none := by
  have hconv : ∀ (e : GoErr) (tr : List Event),
      (Outcome.ofConvert () (convertKnownErrors lib.quote (some e) bucket key) tr).result
        ≠ .ok ((), none) := by
    intro e tr
    have hne := convert_some lib.quote e bucket key
    cases hc : convertKnownErrors lib.quote (some e) bucket key with
    | error m => simp [Outcome.ofConvert]
    | ok r =>
      rw [hc] at hne
      have hr : r ≠ none := fun hr => hne (by rw [hr])
      simp [Outcome.ofConvert, hr]
  unfold AbortUpload at h
  by_cases hb : bucket = []
  · subst hb
    obtain ⟨x, hx⟩ := Option.isSome_iff_exists.1
      (errwrapf_isSome lib.quote (ascii "%w (%q)") (.sentinel .ErrBucketNameInvalid) [.str []])
    simp [hx] at h
  by_cases hk : key = []
  · subst hk
    obtain ⟨x, hx⟩ := Option.isSome_iff_exists.1
      (errwrapf_isSome lib.quote (ascii "%w (%q)") (.sentinel .ErrObjectKeyInvalid) [.str []])
    simp [hb, hx] at h
  by_cases hu : uploadID = []
  · simp [hb, hk, hu, classWrap] at h
  simp only [if_neg hb, if_neg hk, if_neg hu] at h
  refine ⟨hb, hk, hu, ?_⟩
  cases hd : decodeUploadID uploadID with
  | error panic => simp [hd] at h
  | ok o =>
  cases o with
  | none => simp [hd, classWrap] at h
  | some sid =>
  rw [hd] at h
  dsimp only at h
  cases hid : lib.StreamIDFromBytes sid with
  | error e =>
    rw [hid] at h
    obtain ⟨x, hx⟩ := Option.isSome_iff_exists.1 (classWrap_isSome (some packageError) e)
    simp [hx] at h
  | ok id =>
  rw [hid] at h
  dsimp only at h
  cases hp : project.encryptPath bucket key with
  | error e =>
    rw [hp] at h
    exact absurd h (hconv e [])
  | ok encPath =>
  rw [hp] at h
  dsimp only at h
  cases hdial : project.dialMetainfoClient with
  | some e =>
    rw [hdial] at h
    exact absurd h (hconv e [.dialMetainfoClient])
  | none => refine ⟨sid, id, encPath, ?_, ?_, ?_, ?_⟩ <;> first | rfl | assumption

/-- C24. Normalization preserves success: for every bucket and key,
`convertKnownErrors` returns `nil` exactly when the error it is given is `nil`;
hence `PartUpload.Write` returns a nil error exactly when the sink's `Write`
does, with the byte count of the sink whenever it returns; and `AbortUpload`,
which reaches the delete RPC exactly when the validation, the decoding of the
upload ID, the making of the stream ID, the encryption of the path and the
dial succeed, then dials, issues the RPC and closes the client, and returns
`nil` exactly when the RPC and the closing of the client succeed; it returns
`nil` in no other case. -/
theorem normalization_preserves_success (lib : Library) (project : Project)
    (bucket key uploadID : GoString) (err : Option GoErr) (upload : PartUpload) (p : List Byte)
    (n : Int) (sinkErr : Option GoErr) :
    (convertKnownErrors lib.quote err bucket key = .ok none ↔ err = none)
    ∧ (∀ k e, (upload.Write lib.quote p n sinkErr).result = .ok (k, e) → k = n)
    ∧ ((∃ k, (upload.Write lib.quote p n sinkErr).result = .ok (k, none)) ↔ sinkErr = none)
    ∧ (sinkErr = none → (upload.Write lib.quote p n sinkErr).result = .ok (n, none))
    ∧ (∀ sid id encPath, bucket ≠ [] → key ≠ [] → uploadID ≠ [] →
        decodeUploadID uploadID = .ok (some sid) → lib.StreamIDFromBytes sid = .ok id →
        project.encryptPath bucket key = .ok encPath → project.dialMetainfoClient = none →
        (AbortUpload lib project bucket key uploadID).trace
            = [.dialMetainfoClient,
                .BeginDeleteObject
                  { Bucket := bucket, EncryptedPath := encPath, Version := 1, StreamID := id,
                    Status := Object_UPLOADING },
                .metainfoClose]
        ∧ ((AbortUpload lib project bucket key uploadID).result = .ok ((), none)
            ↔ project.BeginDeleteObject
                  { Bucket := bucket, EncryptedPath := encPath, Version := 1, StreamID := id,
                    Status := Object_UPLOADING } = none
              ∧ project.metainfoClose = none))
    ∧ ((AbortUpload lib project bucket key uploadID).result = .ok ((), none)
        ↔ bucket ≠ [] ∧ key ≠ [] ∧ uploadID ≠ [] ∧ ∃ sid id encPath,
            decodeUploadID uploadID = .ok (some sid) ∧ lib.StreamIDFromBytes sid = .ok id
            ∧ project.encryptPath bucket key = .ok encPath
            ∧ project.dialMetainfoClient = none
            ∧ project.BeginDeleteObject
                { Bucket := bucket, EncryptedPath := encPath, Version := 1, StreamID := id,
                  Status := Object_UPLOADING } = none
            ∧ project.metainfoClose = none) := by
  refine ⟨convert_eq_nil_iff _ _ _ _, ?_, ?_, ?_, ?_, ?_⟩
  · intro k e hk
    simp only [PartUpload.Write] at hk
    cases hc : convertKnownErrors lib.quote sinkErr upload.bucket upload.key with
    | error m => rw [hc] at hk; simp at hk
    | ok r =>
      rw [hc] at hk
      simp only [Except.ok.injEq, Prod.mk.injEq] at hk
      exact hk.1.symm
  · simp only [PartUpload.Write]
    cases hc : convertKnownErrors lib.quote sinkErr upload.bucket upload.key with
    | error m =>
      have hne : sinkErr ≠ none := by
        intro hs
        rw [hs, convert_nil] at hc
        exact absurd hc (by simp)
      simp [hne]
    | ok r =>
      have hiff := convert_eq_nil_iff lib.quote sinkErr upload.bucket upload.key
      rw [hc] at hiff
      simp only [Except.ok.injEq] at hiff
      simp [hiff]
  · intro hs
    subst hs
    simp [PartUpload.Write, convert_nil]
  · intro sid id encPath hb hk hu hd hid hp hdial
    rw [AbortUpload_reached lib project bucket key uploadID sid id encPath hb hk hu hd hid hp
      hdial]
    exact ⟨(deferClose_ofConvert_nil lib.quote project _ bucket key _).2,
      (deferClose_ofConvert_nil lib.quote project _ bucket key _).1⟩
  · constructor
    · intro h
      obtain ⟨hb, hk, hu, sid, id, encPath, hd, hid, hp, hdial⟩ :=
        AbortUpload_nil_reached lib project bucket key uploadID h
      rw [AbortUpload_reached lib project bucket key uploadID sid id encPath hb hk hu hd hid hp
        hdial] at h
      have := (deferClose_ofConvert_nil lib.quote project _ bucket key _).1.1 h
      exact ⟨hb, hk, hu, sid, id, encPath, hd, hid, hp, hdial, this.1, this.2⟩
    · rintro ⟨hb, hk, hu, sid, id, encPath, hd, hid, hp, hdial, hrpc, hclose⟩
      rw [AbortUpload_reached lib project bucket key uploadID sid id encPath hb hk hu hd hid hp
        hdial]
      exact (deferClose_ofConvert_nil lib.quote project _ bucket key _).1.2 ⟨hrpc, hclose⟩

theorem normalization_preserves_success_witness :
    (AbortUpload Library.sample Project.sample (ascii "bucket") (ascii "key")
        (base58.CheckEncode [7] 1)).result = .ok ((), none)
    ∧ (AbortUpload Library.sample Project.sample (ascii "bucket") (ascii "key")
        (base58.CheckEncode [7] 1)).trace
      = [.dialMetainfoClient,
          .BeginDeleteObject
            { Bucket := ascii "bucket", EncryptedPath := ascii "key", Version := 1,
              StreamID := [7], Status := Object_UPLOADING },
          .metainfoClose] := by
  have h := (normalization_preserves_success Library.sample Project.sample (ascii "bucket")
    (ascii "key") (base58.CheckEncode [7] 1) none (PartUpload.new [] [] 0) [] 0 none).2.2.2.2.1
    [7] [7] (ascii "key") (by decide) (by decide) (CheckEncode_ne_nil [7] 1) sample_decode rfl
    rfl rfl
  exact ⟨h.2.2 ⟨rfl, rfl⟩, h.1⟩

end Uplink

namespace Uplink

/-! ## The extraction of the bucket name -/

/-- C25, on the code: for every error with the RPC status `NotFound` that no
earlier rule matches and whose root message starts with the bucket-not-found
prefix, `convertKnownErrors` panics in `message[prefixLength+2:]` when the
message is shorter than the prefix and two more bytes (the prefix alone, or the
prefix and one byte), and returns `ErrBucketNotFound` annotated with the rest
of the message otherwise. -/
theorem bucket_name_extraction (quote : GoString → GoString) (e : GoErr) (bucket key : GoString)
    (heof : errorsIs (some e) (some (.sentinel .EOF)) = false)
    (hrule : classRule (some e) = none)
    (hRE : IsRPC (some e) rpcstatus.ResourceExhausted = false)
    (hNF : IsRPC (some e) rpcstatus.NotFound = true)
    (hpre : HasPrefix (rootMessage e) (ascii "bucket not found") = true) :
    ((rootMessage e).length < (ascii "bucket not found").length + 2 →
      convertKnownErrors quote (some e) bucket key = .error (ascii "slice bounds out of range"))
    ∧ ((ascii "bucket not found").length + 2 ≤ (rootMessage e).length →
      convertKnownErrors quote (some e) bucket key
        = .ok (some (annotated quote .ErrBucketNotFound
            ((rootMessage e).drop ((ascii "bucket not found").length + 2))))) := by
  rw [convert_notFound quote e bucket key heof hrule hRE hNF, if_pos hpre]
  constructor
  · intro hlt
    have : ¬ ((ascii "bucket not found").length + 2 ≤ (rootMessage e).length) := by omega
    simp only [sliceFrom, if_neg this]
    rfl
  · intro hle
    simp only [sliceFrom, if_pos hle]
    rfl

theorem bucket_name_extraction_witness :
    convertKnownErrors Library.sample.quote
        (some (.codeErr (.errorString (ascii "bucket not found")) rpcstatus.NotFound))
        (ascii "bucket") (ascii "key") = .error (ascii "slice bounds out of range") :=
  (bucket_name_extraction Library.sample.quote
    (.codeErr (.errorString (ascii "bucket not found")) rpcstatus.NotFound)
    (ascii "bucket") (ascii "key") (by decide) (by decide) (by decide) (by decide)
    (by decide)).1 (by decide)

end Uplink
